import Mathlib

/-!
# gokuu: the merge engine, the adapters' triangulation and the conversion front end

A shallow embedding of `gokuu.go` and of the `decode` functions and feed parsers of the
three provider adapters (`provider/ecb`, `provider/rcb`, `provider/cae`).

Modelling conventions

* `float64` rates are idealised to exact rationals (`ℚ`); the statements below are
  therefore statements "in exact arithmetic".
* `time.Time` is an opaque instant, represented by an integer.
* A Go `map[label.Symbol]V` is an association list read with `mapGet` (first binding
  wins) and written with `mapSet` (replace the binding in place, or append a new one).
* Functions that mutate their receiver return the new value of the receiver.
* Where a claim speaks about a function being called or not, the embedding returns
  the record of the calls next to the result.
* The scheduling of the provider tasks of a round and what each task sees of the
  context's deadline are parameters of the round (`Context`).
* The feed parsers (`rcb.decodeXML`, `ecb.decodeCSV`, `cae.parseHTML`) are embedded on
  what the XML, CSV and HTML libraries deliver (tokens, lines, texts); the library
  functions `strconv.ParseFloat` and `time.Parse` are parameters.
* A Go function that returns `(value, error)` returns a pair whose second component is
  the error, if any; a run-time panic is represented by the error `indexOutOfRange`.
-/

namespace gokuu

/-! ## Package `label` -/

/-- Currency symbol, `type Symbol string` of `label/symbol_gen.go`. -/
abbrev label.Symbol := String

/-- Modelled from the spec: the declaration of `label.Currency` is not part of the
sources at hand; only its field `Symbol` is read by the code.  The spec describes a
currency as symbol, display name and minor-unit count. -/
structure label.Currency where
  Symbol : label.Symbol
  Name : String
  Unit : Nat
deriving DecidableEq, Repr

/-- Zero value of `label.Currency`. -/
def label.Currency.zero : label.Currency := ⟨"", "", 0⟩

/-- The static catalog `label.Currencies` (a `map[Symbol]Currency`).  Its contents are
not part of the sources at hand, so the catalog is a parameter of every function that
consults it. -/
abbrev label.Catalog := label.Symbol → Option label.Currency

/-! ## Go maps -/

/-- Read `m[k]`, with the comma-ok flag as `Option`. -/
def mapGet {V : Type} : List (label.Symbol × V) → label.Symbol → Option V
  | [], _ => none
  | (k', v) :: t, k => if k' = k then some v else mapGet t k

/-- Write `m[k] = v`. -/
def mapSet {V : Type} : List (label.Symbol × V) → label.Symbol → V → List (label.Symbol × V)
  | [], k, v => [(k, v)]
  | (k', v') :: t, k, v => if k' = k then (k, v) :: t else (k', v') :: mapSet t k v

/-! ## Package `gokuu`: the data model -/

/-- Instants of `time.Time`. -/
abbrev Time := Int

/-- Provider priority, `type Prior int32`. -/
abbrev Prior := Int

/-- The engine's rate triple, `ExchangeRate` of `gokuu.go`.  The Go fields `from` and `to`
are written `from_` and `to_` because both words are reserved. -/
structure ExchangeRate where
  priority : Prior
  time : Time
  from_ : label.Currency
  to_ : label.Currency
  rate : ℚ
deriving DecidableEq

/-- Zero value `ExchangeRate{}`. -/
def ExchangeRate.zero : ExchangeRate := ⟨0, 0, label.Currency.zero, label.Currency.zero, 0⟩

/-- Inner map of the merge table: to-symbol to triple. -/
abbrev InnerItems := List (label.Symbol × ExchangeRate)

/-- Outer map of the merge table: from-symbol to inner map.  Every inner map is an
allocated map: `walk` is the only writer of `Items` and it creates each inner map with
`make` (gokuu.go:642), so the guard `b.Items[from] == nil` of gokuu.go:626 never
fires and has no counterpart here. -/
abbrev OuterItems := List (label.Symbol × InnerItems)

/-- The merge table `BatchExchanges`; `Items = none` is the nil map of a fresh
`&BatchExchanges{}`. -/
structure BatchExchanges where
  Items : Option OuterItems
deriving DecidableEq

/-- Content of the cell `(from, to)`: `b.Items[from][to]` with its comma-ok flag. -/
def BatchExchanges.cell (b : BatchExchanges) (f t : label.Symbol) : Option ExchangeRate :=
  match b.Items with
  | none => none
  | some items =>
    match mapGet items f with
    | none => none
    | some extMap => mapGet extMap t

/-- A conflict resolver `func(cur, next ExchangeRate) (ExchangeRate, error)`. -/
abbrev ResolveFunc := ExchangeRate → ExchangeRate → Except String ExchangeRate

/-- Record of the resolver calls made by `walk`: the argument pairs, in call order. -/
abbrev CallLog := List (ExchangeRate × ExchangeRate)

/-- The outer map after `if b.Items == nil { b.Items = make(...) }` (gokuu.go:619-621). -/
def BatchExchanges.made (b : BatchExchanges) : OuterItems :=
  match b.Items with
  | none => []
  | some m => m

/-- Body of the loop of `BatchExchanges.walk` (gokuu.go:623-645) for one triple `r`,
on the outer map and the record of resolver calls so far. -/
def BatchExchanges.walkStep (fn : ResolveFunc) (st : OuterItems × CallLog)
    (r : ExchangeRate) : OuterItems × CallLog :=
  let f := r.from_.Symbol
  let t := r.to_.Symbol
  match mapGet st.1 f with
  | some extMap =>
    match mapGet extMap t with
    | some curr =>
      match fn curr r with
      | .error _ => (st.1, st.2 ++ [(curr, r)])
      | .ok next => (mapSet st.1 f (mapSet extMap t next), st.2 ++ [(curr, r)])
    | none => (mapSet st.1 f (mapSet extMap t r), st.2)
  | none => (mapSet st.1 f (mapSet [] t r), st.2)

/-- The method `BatchExchanges.walk` (gokuu.go:618-646) together with the record of
the resolver calls it makes. -/
def BatchExchanges.walkLog (b : BatchExchanges) (rates : List ExchangeRate)
    (fn : ResolveFunc) : BatchExchanges × CallLog :=
  let st := rates.foldl (BatchExchanges.walkStep fn) (b.made, [])
  (⟨some st.1⟩, st.2)

/-- The method `BatchExchanges.walk`: the table it leaves behind. -/
def BatchExchanges.walk (b : BatchExchanges) (rates : List ExchangeRate)
    (fn : ResolveFunc) : BatchExchanges :=
  (b.walkLog rates fn).1

/-- A merge function `func(*BatchExchanges, []ExchangeRate)`. -/
abbrev MergeFunc := BatchExchanges → List ExchangeRate → BatchExchanges

/-- The resolver closure of `mergeRaceFunc` (gokuu.go:417-427). -/
def raceResolve : ResolveFunc := fun curr next =>
  if curr.from_.Symbol ≠ "" then .ok curr
  else if next.to_.Symbol ≠ "" then .ok next
  else .error "d1 and d2 equals nil"

/-- The resolver closure of `mergeAverageFunc` (gokuu.go:434-446). -/
def averageResolve : ResolveFunc := fun curr next =>
  if curr.from_.Symbol = "" ∨ next.to_.Symbol = "" then .error "d1 or d2 equals nil"
  else .ok
    { priority := curr.priority
      time := curr.time
      from_ := curr.from_
      to_ := curr.to_
      rate := (curr.rate + next.rate) / 2 }

/-- The resolver closure of `mergePriorFunc` (gokuu.go:452-458). -/
def priorResolve : ResolveFunc := fun curr next =>
  if curr.priority < next.priority then .ok next else .ok curr

/-- Race policy, `mergeRaceFunc` (gokuu.go:415-429). -/
def mergeRaceFunc : MergeFunc := fun batch rates => batch.walk rates raceResolve

/-- Average policy, `mergeAverageFunc` (gokuu.go:432-448). -/
def mergeAverageFunc : MergeFunc := fun batch rates => batch.walk rates averageResolve

/-- Priority policy, `mergePriorFunc` (gokuu.go:450-460). -/
def mergePriorFunc : MergeFunc := fun batch rates => batch.walk rates priorResolve

/-- Merge policy selector, `type MergeStrategyType string`. -/
abbrev MergeStrategyType := String

def MergeStrategyTypeRace : MergeStrategyType := "race"
def MergeStrategyTypeAverage : MergeStrategyType := "average"
def MergeStrategyTypePriority : MergeStrategyType := "priority"

/-- The selector `mergerFor` (gokuu.go:399-413). -/
def mergerFor (strategy : MergeStrategyType) : MergeFunc :=
  if strategy = MergeStrategyTypeRace then mergeRaceFunc
  else if strategy = MergeStrategyTypeAverage then mergeAverageFunc
  else if strategy = MergeStrategyTypePriority then mergePriorFunc
  else mergeRaceFunc

/-- What one triple `r` does to the content `c` of its own cell under resolver `fn`. -/
def stepCell (fn : ResolveFunc) (c : Option ExchangeRate) (r : ExchangeRate) :
    Option ExchangeRate :=
  match c with
  | none => some r
  | some curr =>
    match fn curr r with
    | .ok next => some next
    | .error _ => some curr

/-! ## Package `provider` -/

/-- A value behind the interface `provider.ExchangeRate` (provider/source.go:23-30), by
what its four methods return. -/
structure provider.ExchangeRate where
  Time : Time
  From : label.Currency
  To : label.Currency
  Rate : ℚ
deriving DecidableEq

/-- A value behind the interface `provider.Source` (provider/source.go:14-20).
`FetchLatest k` is what the `k`-th call of one round returns: the rates, or an error
message. -/
structure provider.Source where
  FetchLatest : Nat → Except String (List provider.ExchangeRate)
  GetExchangeable : List label.Symbol

/-! ## Package `gokuu`: the engine -/

/-- Errors as values: a sentinel made by `errors.New`, or `fmt.Errorf("%w: %s", inner, detail)`. -/
inductive GoError where
  | sentinel (msg : String)
  | wrap (inner : GoError) (detail : String)
deriving DecidableEq, Repr

/-- The predicate `errors.Is(err, target)`. -/
def GoError.Is : GoError → GoError → Bool
  | .sentinel m, target => decide (GoError.sentinel m = target)
  | .wrap inner d, target => decide (GoError.wrap inner d = target) || inner.Is target

def ErrConversionRate : GoError := .sentinel "can not convert"
def ErrCurrencyNotFound : GoError := .sentinel "currency symbol is not supported"

/-- One second of `time.Duration`, in nanoseconds. -/
def Second : Nat := 1000000000

def DefaultRequestTimeout : Nat := 10 * Second
def DefaultRetryNum : Nat := 1
def DefaultRetryDuration : Nat := 5 * Second

def ProviderNameECB : String := "ecb"
def ProviderNameRCB : String := "rcb"
def ProviderNameCAE : String := "cae"

structure Options where
  RetryNum : Nat
  RetryDuration : Nat
  RequestTimeout : Nat
  MergeStrategy : MergeStrategyType

inductive ProviderRespStatus where
  | ProviderRespStatusFailed
  | ProviderRespStatusOK
deriving DecidableEq, Repr

structure SourceInfo where
  Name : String
  Status : ProviderRespStatus
  ErrorMessage : String
deriving DecidableEq, Repr

structure LatestResponse where
  Expected : List label.Symbol
  Unreceived : List label.Symbol
  Info : List SourceInfo
  Result : List ExchangeRate
deriving DecidableEq

structure Provider where
  name : String
  prior : Prior
  Source : provider.Source

/-- The engine `exchanger` (gokuu.go:185-192), without its lock. -/
structure exchanger where
  opts : Options
  providers : List Provider
  exchangeable : List label.Symbol
  merger : Option MergeFunc

/-- A constructor option, `type Option func(*exchanger)`. -/
abbrev EngineOption := exchanger → exchanger

def WithAverageMergeStrategy : EngineOption := fun g =>
  { g with opts := { g.opts with MergeStrategy := MergeStrategyTypeAverage } }

def WithRaceMergeStrategy : EngineOption := fun g =>
  { g with opts := { g.opts with MergeStrategy := MergeStrategyTypeRace } }

def WithPriorityMergeStrategy : EngineOption := fun g =>
  { g with opts := { g.opts with MergeStrategy := MergeStrategyTypePriority } }

/-- The option `WithMergeFunc` (gokuu.go:118-123): it stores `f` in the field `merger`. -/
def WithMergeFunc (f : MergeFunc) : EngineOption := fun g => { g with merger := some f }

/-- The comparison handed to `sort.Slice`: descending priority.  The sort is modelled by
the stable insertion sort, which is what `sort.Slice` runs on slices shorter than 12. -/
def sortProviders (ps : List Provider) : List Provider :=
  ps.insertionSort (fun a b => a.prior ≥ b.prior)

/-- The three built-in adapters as `New` obtains them from the HTTP client. -/
structure BuiltinSources where
  ecb : provider.Source
  rcb : provider.Source
  cae : provider.Source

/-- The constructor `New` (gokuu.go:147-183). -/
def New (client : BuiltinSources) (opts : List EngineOption) : exchanger :=
  let e : exchanger :=
    { opts :=
        { RetryNum := DefaultRetryNum
          RetryDuration := DefaultRetryDuration
          RequestTimeout := DefaultRequestTimeout
          MergeStrategy := MergeStrategyTypeRace }
      providers :=
        [ { name := ProviderNameECB, prior := 0, Source := client.ecb },
          { name := ProviderNameRCB, prior := 1, Source := client.rcb },
          { name := ProviderNameCAE, prior := 2, Source := client.cae } ]
      exchangeable := []
      merger := none }
  let e := opts.foldl (fun acc opt => opt acc) e
  { e with providers := sortProviders e.providers }

/-- The method `exchanger.merge` (gokuu.go:462-469): the merge function is chosen by
`mergerFor` from `opts.MergeStrategy`; the field `merger` is not read. -/
def exchanger.merge (e : exchanger) (batch : BatchExchanges) (rates : List ExchangeRate) :
    BatchExchanges :=
  let mergeStrategyFn := mergerFor e.opts.MergeStrategy
  mergeStrategyFn batch rates

/-- The method `exchanger.expandRates` (gokuu.go:471-484). -/
def exchanger.expandRates (_e : exchanger) (source : Provider)
    (rates : List provider.ExchangeRate) : List ExchangeRate :=
  rates.map fun r =>
    { priority := source.prior
      time := r.Time
      from_ := r.From
      to_ := r.To
      rate := r.Rate }

/-- The method `BatchExchanges.flatten` (gokuu.go:649-661), in the order of the
association lists (Go leaves the order of map iteration open). -/
def BatchExchanges.flatten (b : BatchExchanges) : List ExchangeRate :=
  b.made.flatMap fun mpr => mpr.2.map fun kv => kv.2

/-- The loop of `retry.Do(ctx, b, f)` under `retry.WithMaxRetries(n, constant)`: attempt
number `attempt`, with `left` retries left.  `done attempt` is what the loop sees of
`ctx.Done()` before that attempt (while it waits for the backoff after the failed attempt
before, and when it comes round again): `none` while the context is live, `some msg` with
`msg` the text of `ctx.Err()` once the deadline of `context.WithTimeout(ctx,
e.opts.RequestTimeout)` (gokuu.go:490) has passed or the context is cancelled; the loop
then returns `ctx.Err()`.  After the failure of the last allowed attempt the loop returns
the error of that attempt without looking at the context. -/
def retryLoop {α : Type} (done : Nat → Option String) (f : Nat → Except String α) :
    Nat → Nat → Except String α
  | attempt, 0 =>
    match done attempt with
    | some msg => .error msg
    | none => f attempt
  | attempt, left + 1 =>
    match done attempt with
    | some msg => .error msg
    | none =>
      match f attempt with
      | .ok v => .ok v
      | .error _ => retryLoop done f (attempt + 1) left

/-- What the task of one provider ends with (gokuu.go:512-526): the expanded rates of the
first successful fetch, or the message of the error `retry.Do` returns, which is the error
of the last attempt or the error of the context.  `done` is what the task sees of
`ctx.Done()`, attempt by attempt. -/
def exchanger.fetchOne (e : exchanger) (done : Nat → Option String) (source : Provider) :
    Except String (List ExchangeRate) :=
  retryLoop done
    (fun k =>
      match source.Source.FetchLatest k with
      | .error err => .error ("fetch latest: " ++ err)
      | .ok rates => .ok (e.expandRates source rates))
    0 e.opts.RetryNum

/-- The report a provider task appends to `resp.Info` (gokuu.go:506-531). -/
def exchanger.report (e : exchanger) (done : Nat → Option String) (source : Provider) :
    SourceInfo :=
  match e.fetchOne done source with
  | .ok _ => { Name := source.name, Status := .ProviderRespStatusOK, ErrorMessage := "" }
  | .error msg =>
    { Name := source.name, Status := .ProviderRespStatusFailed, ErrorMessage := msg }

/-- The part of `context.Context` and of the scheduling a round depends on: the order in
which the provider tasks (numbered by their position in the registry) obtain the table
lock, the order in which they append their report, and what each task sees of the
context: `done i k` is what the retry loop of task `i` sees of `ctx.Done()` before its
attempt `k` (see `retryLoop`). -/
structure Context where
  mergeOrder : List Nat
  reportOrder : List Nat
  done : Nat → Nat → Option String

/-- What the task of the `i`-th provider of the registry hands to `e.merge`
(gokuu.go:512-522): the expanded rates of its successful fetch, if there is such a
provider and its fetch succeeds. -/
def exchanger.taskRates (e : exchanger) (ctx : Context) (i : Nat) :
    Option (List ExchangeRate) :=
  match e.providers.get? i with
  | none => none
  | some source => (e.fetchOne (ctx.done i) source).toOption

/-- The merge table of a round when all provider tasks are done (`wg.Wait()`,
gokuu.go:535): the tasks whose fetch succeeded have merged their expanded rates, in the
order in which they obtained the table lock. -/
def exchanger.roundTable (e : exchanger) (ctx : Context) : BatchExchanges :=
  ctx.mergeOrder.foldl
    (fun b i =>
      match e.taskRates ctx i with
      | none => b
      | some expanded => e.merge b expanded)
    ⟨none⟩

/-- The method `exchanger.getLatest` (gokuu.go:486-552). -/
def exchanger.getLatest (e : exchanger) (ctx : Context) : LatestResponse :=
  let batch : BatchExchanges := e.roundTable ctx
  let info :=
    ctx.reportOrder.filterMap fun i => (e.providers.get? i).map (e.report (ctx.done i))
  let unreceived := e.exchangeable.filter fun symbol => (mapGet batch.made symbol).isNone
  match batch.Items with
  | none => { Expected := e.exchangeable, Unreceived := unreceived, Info := info, Result := [] }
  | some _ =>
    { Expected := e.exchangeable, Unreceived := unreceived, Info := info,
      Result := batch.flatten }

/-- The method `exchanger.updateExchangeable` (gokuu.go:594-609): the distinct symbols the
registered providers declare (Go leaves their order open). -/
def exchanger.updateExchangeable (e : exchanger) : exchanger :=
  { e with exchangeable := (e.providers.flatMap fun source => source.Source.GetExchangeable).dedup }

/-- The method `exchanger.verifyExchangeable` (gokuu.go:580-592). -/
def exchanger.verifyExchangeable (e : exchanger) : exchanger :=
  if e.exchangeable.length > 0 then e else e.updateExchangeable

/-- Result of `isExchangeable`: the anonymous struct `{from, to bool}`. -/
structure Exchangeability where
  from_ : Bool
  to_ : Bool
deriving DecidableEq, Repr

/-- The loop of `exchanger.isExchangeable` (gokuu.go:563-577) over the symbols still to
visit. -/
def isExchangeableLoop (from_ to_ : label.Symbol) :
    List label.Symbol → Exchangeability → Exchangeability
  | [], res => res
  | symbol :: rest, res =>
    let res := if symbol = from_ then { res with from_ := true } else res
    let res := if symbol = to_ then { res with to_ := true } else res
    if res.from_ && res.to_ then res else isExchangeableLoop from_ to_ rest res

/-- The method `exchanger.isExchangeable` (gokuu.go:554-578). -/
def exchanger.isExchangeable (e : exchanger) (from_ to_ : label.Symbol) : Exchangeability :=
  isExchangeableLoop from_ to_ e.exchangeable ⟨false, false⟩

abbrev FetchFunc := Context → LatestResponse

structure ConvOpt where
  From : label.Symbol
  To : label.Symbol
  Value : ℚ
  CacheFn : Option FetchFunc

structure ConversionResponse where
  Date : Time
  Value : ℚ
  From : label.Currency
  To : label.Currency
  Rate : ℚ
  Amount : ℚ
  Info : List SourceInfo
deriving DecidableEq

/-- Zero value `ConversionResponse{}` (`var resp ConversionResponse`). -/
def ConversionResponse.zero : ConversionResponse :=
  ⟨0, 0, label.Currency.zero, label.Currency.zero, 0, 0, []⟩

/-- Invoking a fetch function: what it returns, and the invocation added to the count of
invocations so far. -/
def FetchFunc.invoke (fn : FetchFunc) (ctx : Context) (calls : Nat) : LatestResponse × Nat :=
  (fn ctx, calls + 1)

/-- What a call of `Convert` leaves behind: the engine (its symbol cache may have been
filled), the returned pair, and how many times the fetch function was invoked. -/
structure ConvertOutcome where
  engine : exchanger
  resp : ConversionResponse
  err : Option GoError
  fetchCalls : Nat

/-- The method `exchanger.Convert` (gokuu.go:220-280).  `calls` counts the invocations of
the fetch function. -/
def exchanger.Convert (Currencies : label.Catalog) (e : exchanger) (ctx : Context)
    (param : ConvOpt) : ConvertOutcome :=
  let calls := 0
  let resp := ConversionResponse.zero
  let e := e.verifyExchangeable
  match Currencies param.From with
  | none => ⟨e, resp, some ErrCurrencyNotFound, calls⟩
  | some fromCurrency =>
    match Currencies param.To with
    | none => ⟨e, resp, some ErrCurrencyNotFound, calls⟩
    | some toCurrency =>
      let res := e.isExchangeable param.From param.To
      if !res.from_ then ⟨e, resp, some (.wrap ErrCurrencyNotFound param.From), calls⟩
      else if !res.to_ then ⟨e, resp, some (.wrap ErrCurrencyNotFound param.To), calls⟩
      else
        let cacheFn : FetchFunc :=
          match param.CacheFn with
          | none => e.getLatest
          | some fn => fn
        let fetched := cacheFn.invoke ctx calls
        let latest := fetched.1
        let calls := fetched.2
        match latest.Result.find? fun rate =>
            decide (rate.from_.Symbol = param.From ∧ rate.to_.Symbol = param.To) with
        | none =>
          ⟨e,
            { Date := 0, Value := param.Value, From := fromCurrency, To := toCurrency,
              Rate := 0, Amount := 0, Info := latest.Info },
            some ErrConversionRate, calls⟩
        | some r =>
          ⟨e,
            { Date := 0, Value := param.Value, From := r.from_, To := r.to_,
              Rate := r.rate, Amount := r.rate * param.Value, Info := latest.Info },
            none, calls⟩

/-! ## The provider adapters: `decode` -/

def label.AED : label.Symbol := "AED"
def label.EUR : label.Symbol := "EUR"
def label.RUB : label.Symbol := "RUB"

/-- One entry of a parsed feed.  The three adapters declare the same struct under three
names (`aedExchangeRate`, `rubExchangeRate`, `euroExchangeRate`). -/
structure anchorRate where
  symbol : label.Symbol
  rate : ℚ
deriving DecidableEq, Repr

/-- A parsed feed: its date and its entries.  The three adapters declare the same struct
under three names (`aedLatestRates`, `rubLatestRates`, `euroLatestRates`). -/
structure latestRates where
  time : Time
  rates : List anchorRate
deriving DecidableEq, Repr

abbrev cae.aedExchangeRate := anchorRate
abbrev cae.aedLatestRates := latestRates
abbrev rcb.rubExchangeRate := anchorRate
abbrev rcb.rubLatestRates := latestRates
abbrev ecb.euroExchangeRate := anchorRate
abbrev ecb.euroLatestRates := latestRates

/-- Read `m[k]` of a `map[label.Symbol]float64` without the comma-ok flag: a missing key
reads as `0`. -/
def unitsAt (m : List (label.Symbol × ℚ)) (k : label.Symbol) : ℚ :=
  (mapGet m k).getD 0

/-- The body of the nested loop that the three `decode` functions share word for word
(cae/source.go:103-122, rcb/source.go:103-122, ecb/source.go:164-183): what the pair of
entries `sym`, `sym1` appends to `list`, if anything. -/
def crossRate (Currencies : label.Catalog) (units : List (label.Symbol × ℚ)) (time : Time)
    (sym sym1 : anchorRate) : Option provider.ExchangeRate :=
  if sym.symbol ≠ sym1.symbol then
    match Currencies sym.symbol with
    | none => none
    | some ccy =>
      match Currencies sym1.symbol with
      | none => none
      | some ccy1 =>
        some
          { Time := time
            From := ccy
            To := ccy1
            Rate := unitsAt units ccy1.Symbol / unitsAt units ccy.Symbol }
  else none

/-- The nested loop of the three `decode` functions (cae/source.go:101-124,
rcb/source.go:101-124, ecb/source.go:162-185), returning what it appends to `list`. -/
def crossRates (Currencies : label.Catalog) (units : List (label.Symbol × ℚ)) (time : Time)
    (rates : List anchorRate) : List provider.ExchangeRate :=
  rates.flatMap fun sym => rates.filterMap fun sym1 => crossRate Currencies units time sym sym1

/-- The map `aedSymRates` of `cae.decode` after its first loop (cae/source.go:83-94). -/
def cae.units (feed : cae.aedLatestRates) : List (label.Symbol × ℚ) :=
  feed.rates.foldl (fun m r => mapSet m r.symbol (1 / r.rate)) [(label.AED, 1)]

/-- The method `decode` of the CAE adapter (cae/source.go:80-127), on the outcome of
`parseHTML`. -/
def cae.decode (Currencies : label.Catalog) (parsed : Except String cae.aedLatestRates) :
    Except String (List provider.ExchangeRate) :=
  match parsed with
  | .error err => .error ("decode xml: " ++ err)
  | .ok aedExchangeRates =>
    let aedSymRates := cae.units aedExchangeRates
    let rates := aedExchangeRates.rates ++ [{ symbol := label.AED, rate := 1 }]
    .ok (crossRates Currencies aedSymRates aedExchangeRates.time rates)

/-- The map `rubSymRates` of `rcb.decode` after its first loop (rcb/source.go:83-94). -/
def rcb.units (feed : rcb.rubLatestRates) : List (label.Symbol × ℚ) :=
  feed.rates.foldl (fun m r => mapSet m r.symbol (1 / r.rate)) [(label.RUB, 1)]

/-- The method `decode` of the RCB adapter (rcb/source.go:80-127), on the outcome of
`decodeXML`. -/
def rcb.decode (Currencies : label.Catalog) (parsed : Except String rcb.rubLatestRates) :
    Except String (List provider.ExchangeRate) :=
  match parsed with
  | .error err => .error ("decode xml: " ++ err)
  | .ok rubExchangeRates =>
    let rubSymRates := rcb.units rubExchangeRates
    let rates := rubExchangeRates.rates ++ [{ symbol := label.RUB, rate := 1 }]
    .ok (crossRates Currencies rubSymRates rubExchangeRates.time rates)

/-- The map `euroSymRates` of `ecb.decode` after the first loop of the callback
(ecb/source.go:156-158), started from its content `start` before the callback. -/
def ecb.units (start : List (label.Symbol × ℚ)) (r : ecb.euroLatestRates) :
    List (label.Symbol × ℚ) :=
  r.rates.foldl (fun m pair => mapSet m pair.symbol pair.rate) start

/-- The callback that `ecb.decode` hands to the decoding function (ecb/source.go:155-188),
on the pair of `euroSymRates` and `list`. -/
def ecb.decodeDay (Currencies : label.Catalog)
    (st : List (label.Symbol × ℚ) × List provider.ExchangeRate) (r : ecb.euroLatestRates) :
    List (label.Symbol × ℚ) × List provider.ExchangeRate :=
  let euroSymRates := ecb.units st.1 r
  let rates := r.rates ++ [{ symbol := label.EUR, rate := 1 }]
  (euroSymRates, st.2 ++ crossRates Currencies euroSymRates r.time rates)

/-- The method `decode` of the ECB adapter (ecb/source.go:148-193).  The decoding function
(`decodeCSV` or `decodeXML`) is represented by what it does: it passes the dated feeds
`days` to the callback, one after the other, and then returns `failure`. -/
def ecb.decode (Currencies : label.Catalog) (days : List ecb.euroLatestRates)
    (failure : Option String) : Except String (List provider.ExchangeRate) :=
  let st := days.foldl (ecb.decodeDay Currencies) ([(label.EUR, 1)], [])
  match failure with
  | some err => .error ("ecb.decodeFunc decode func: " ++ err)
  | none => .ok st.2

/-- The last entry of a feed for the symbol `X`, if there is one. -/
def lastReported (rates : List anchorRate) (X : label.Symbol) : Option anchorRate :=
  rates.reverse.find? fun e => decide (e.symbol = X)

/-- The common shape of the three `decode` functions on one parsed feed: the units map is
started at `anchor ↦ 1` and filled with `g rate` per entry, the anchor is appended to the
entries, and the nested loop runs. -/
def triangulate (g : ℚ → ℚ) (anchor : label.Symbol) (Currencies : label.Catalog)
    (feed : latestRates) : List provider.ExchangeRate :=
  crossRates Currencies
    (feed.rates.foldl (fun m r => mapSet m r.symbol (g r.rate)) [(anchor, 1)])
    feed.time (feed.rates ++ [{ symbol := anchor, rate := 1 }])

/-- The ordered pairs of different symbols drawn from `S`. -/
def orderedPairs (S : List label.Symbol) : List (label.Symbol × label.Symbol) :=
  S.flatMap fun a => (S.filter fun b => decide (a ≠ b)).map fun b => (a, b)

/-- The (from symbol, to symbol) pair a triple is about. -/
def provider.ExchangeRate.pair (t : provider.ExchangeRate) : label.Symbol × label.Symbol :=
  (t.From.Symbol, t.To.Symbol)

/-- A catalog is keyed consistently when the record found under a symbol carries that
symbol. -/
def label.Catalog.Keyed (Currencies : label.Catalog) : Prop :=
  ∀ s c, Currencies s = some c → c.Symbol = s

/-- The triples `out` obey the units map `units`: each carries rate
`units[to] / units[from]`. -/
def ObeysUnits (units : List (label.Symbol × ℚ)) (out : List provider.ExchangeRate) : Prop :=
  ∀ t ∈ out, t.Rate = unitsAt units t.To.Symbol / unitsAt units t.From.Symbol

/-- Reverse pairs of `out` carry reciprocal rates, and the rates are positive when the
catalog is keyed consistently. -/
def Reciprocal (Currencies : label.Catalog) (out : List provider.ExchangeRate) : Prop :=
  ∀ t1 ∈ out, ∀ t2 ∈ out, t1.From.Symbol ≠ t1.To.Symbol →
    t2.From.Symbol = t1.To.Symbol → t2.To.Symbol = t1.From.Symbol →
      t2.Rate = 1 / t1.Rate ∧ (Currencies.Keyed → 0 < t1.Rate)

/-- The list `out` is the full pairwise table of the feed `feed` with anchor `anchor`: it has
`n * (n + 1)` triples for `n` entries, exactly one for each ordered pair of different
symbols drawn from the entries' symbols plus the anchor, and every triple carries the
feed's date and connects two different symbols of that set. -/
def FullTable (anchor : label.Symbol) (feed : latestRates)
    (out : List provider.ExchangeRate) : Prop :=
  out.length = feed.rates.length * (feed.rates.length + 1)
    ∧ (∀ A B, A ∈ feed.rates.map (fun e => e.symbol) ++ [anchor] →
        B ∈ feed.rates.map (fun e => e.symbol) ++ [anchor] → A ≠ B →
        (out.filter fun t => decide (t.From.Symbol = A ∧ t.To.Symbol = B)).length = 1)
    ∧ (∀ t ∈ out, t.Time = feed.time ∧ t.From.Symbol ≠ t.To.Symbol
        ∧ t.From.Symbol ∈ feed.rates.map (fun e => e.symbol) ++ [anchor]
        ∧ t.To.Symbol ∈ feed.rates.map (fun e => e.symbol) ++ [anchor])

/-- The method `exchanger.GetLatest` (gokuu.go:283-290): the engine as the call leaves it,
and the response. -/
def exchanger.GetLatest (e : exchanger) (ctx : Context) : exchanger × LatestResponse :=
  let e := e.verifyExchangeable
  (e, e.getLatest ctx)

/-- The method `exchanger.GetExchangeable` (gokuu.go:294-301): the engine as the call
leaves it, and the returned list. -/
def exchanger.GetExchangeable (e : exchanger) : exchanger × List label.Symbol :=
  let e := e.verifyExchangeable
  (e, e.exchangeable)

/-- Inner loop of `Delete` (gokuu.go:306-312): remove the first provider named `name`. -/
def deleteFirst (name : String) : List Provider → List Provider
  | [] => []
  | source :: rest => if source.name = name then rest else source :: deleteFirst name rest

/-- The method `exchanger.Delete` (gokuu.go:304-314). -/
def exchanger.Delete (e : exchanger) (names : List String) : exchanger :=
  { e with providers := names.foldl (fun ps name => deleteFirst name ps) e.providers }

/-- The method `exchanger.ChangePrior` (gokuu.go:317-330). -/
def exchanger.ChangePrior (e : exchanger) (name : String) (prior : Prior) : exchanger :=
  { e with
    providers :=
      sortProviders (e.providers.map fun p => if p.name = name then { p with prior := prior } else p) }

/-- The method `exchanger.Register` (gokuu.go:333-348). -/
def exchanger.Register (e : exchanger) (name : String) (source : provider.Source)
    (prior : Prior) : exchanger :=
  let e : exchanger :=
    { e with
      providers :=
        sortProviders (e.providers ++ [{ name := name, Source := source, prior := prior }]) }
  e.updateExchangeable

/-- The symbols declared by the providers in the registry, with repetitions. -/
def exchanger.declared (e : exchanger) : List label.Symbol :=
  e.providers.flatMap fun source => source.Source.GetExchangeable

/-- The registry is ordered by non-increasing priority. -/
def exchanger.Ordered (e : exchanger) : Prop :=
  e.providers.Pairwise fun a b => a.prior ≥ b.prior

/-- The fetch function `Convert` uses: the supplied `CacheFn`, or the engine's own round
(gokuu.go:247-249). -/
def exchanger.fetchFuncOf (e : exchanger) (param : ConvOpt) : FetchFunc :=
  match param.CacheFn with
  | none => e.getLatest
  | some fn => fn

/-- The engines that arise from `New` by calls of the engine's methods. -/
inductive exchanger.Reachable : exchanger → Prop where
  | new (client : BuiltinSources) (opts : List EngineOption) :
      exchanger.Reachable (New client opts)
  | register {e : exchanger} (name : String) (source : provider.Source) (prior : Prior) :
      exchanger.Reachable e → exchanger.Reachable (e.Register name source prior)
  | changePrior {e : exchanger} (name : String) (prior : Prior) :
      exchanger.Reachable e → exchanger.Reachable (e.ChangePrior name prior)
  | delete {e : exchanger} (names : List String) :
      exchanger.Reachable e → exchanger.Reachable (e.Delete names)
  | verify {e : exchanger} :
      exchanger.Reachable e → exchanger.Reachable e.verifyExchangeable

/-- The batches merged in a round: the expanded rates of the providers whose fetch
succeeded, in the order in which their tasks obtained the table lock. -/
def exchanger.successes (e : exchanger) (ctx : Context) : List (List ExchangeRate) :=
  ctx.mergeOrder.filterMap (e.taskRates ctx)

/-- The outer map is well keyed: no inner map is empty, and every triple is stored under
its own from-symbol and to-symbol. -/
def WellKeyed (items : OuterItems) : Prop :=
  ∀ entry ∈ items, entry.2 ≠ [] ∧
    ∀ kv ∈ entry.2, kv.2.from_.Symbol = entry.1 ∧ kv.2.to_.Symbol = kv.1

/-- The resolver answers with a triple for the pair of symbols it was asked about. -/
def KeepsPair (fn : ResolveFunc) : Prop :=
  ∀ curr r next, fn curr r = .ok next →
    curr.from_.Symbol = r.from_.Symbol → curr.to_.Symbol = r.to_.Symbol →
      next.from_.Symbol = r.from_.Symbol ∧ next.to_.Symbol = r.to_.Symbol

/-- Merging a sequence of batches, one after the other, into an empty table. -/
def mergeAll (m : MergeFunc) (batches : List (List ExchangeRate)) : BatchExchanges :=
  batches.foldl m ⟨none⟩

/-- The triples of `rates` that are addressed to the cell `(f, t)`, in their order. -/
def hitsOf (f t : label.Symbol) (rates : List ExchangeRate) : List ExchangeRate :=
  rates.filter fun r => decide (f = r.from_.Symbol ∧ t = r.to_.Symbol)

/-- No triple of the first batch carries the priority of a triple of the second batch. -/
def CrossDistinct (b1 b2 : List ExchangeRate) : Prop :=
  ∀ x ∈ b1, ∀ y ∈ b2, x.priority ≠ y.priority

/-- The table `out` admits no triangular arbitrage: whenever it holds a triple A→B, a
triple B→C and a triple A→C, the product of the first two rates is the third. -/
def Triangular (out : List provider.ExchangeRate) : Prop :=
  ∀ t1 ∈ out, ∀ t2 ∈ out, ∀ t3 ∈ out,
    t2.From.Symbol = t1.To.Symbol → t3.From.Symbol = t1.From.Symbol →
      t3.To.Symbol = t2.To.Symbol → t1.Rate * t2.Rate = t3.Rate

/-- The keys of the outer map are distinct, and so are the keys of every inner map: what
makes an association list stand for a Go map. -/
def DistinctKeys (items : OuterItems) : Prop :=
  (items.map Prod.fst).Nodup ∧ ∀ entry ∈ items, (entry.2.map Prod.fst).Nodup

/-- The (from symbol, to symbol) pair a merged triple is about. -/
def ExchangeRate.pair (x : ExchangeRate) : label.Symbol × label.Symbol :=
  (x.from_.Symbol, x.to_.Symbol)

/-- No triple of the list is about a pair with from = to. -/
def OffDiagonal (out : List provider.ExchangeRate) : Prop :=
  ∀ t ∈ out, t.From.Symbol ≠ t.To.Symbol

/-- Every successful fetch of every provider in the registry returns triples with
from ≠ to only, as the adapters do. -/
def exchanger.FedOffDiagonal (e : exchanger) : Prop :=
  ∀ p ∈ e.providers, ∀ k rates, p.Source.FetchLatest k = .ok rates → OffDiagonal rates

/-! ## The provider adapters: the feed parsers -/

/-- The text `err.Error()` of an error value. -/
def GoError.Error : GoError → String
  | .sentinel msg => msg
  | .wrap inner detail => inner.Error ++ ": " ++ detail

/-- The library function `strconv.ParseFloat(s, 64)`, a parameter of the parsers; `float64`
is read as `ℚ`. -/
abbrev strconv.ParseFloat := String → Except GoError ℚ

/-- The library function `time.Parse(layout, s)` at the layout the parser passes, a
parameter of the parsers. -/
abbrev time.Parse := String → Except GoError Time

/-- The call `strings.Replace(s, ",", ".", -1)`: every comma becomes a point. -/
def commaToPoint (s : String) : String :=
  String.mk (s.data.map fun c => if c = ',' then '.' else c)

/-- The library function `strings.Trim(s, cutset)`: `s` without the leading and trailing
characters that occur in `cutset`. -/
def strings.Trim (s cutset : String) : String :=
  String.mk
    ((s.data.dropWhile fun c => cutset.data.contains c).reverse.dropWhile
      fun c => cutset.data.contains c).reverse

/-- A run-time panic `index out of range`, represented as an error value of its own: no
function of the repository returns it. -/
def indexOutOfRange : GoError := .sentinel "runtime error: index out of range"

/-- What a caller that tests `err != nil` keeps of a returned pair `(value, err)`. -/
def returned {α : Type} (r : α × Option GoError) : Except String α :=
  match r.2 with
  | none => .ok r.1
  | some err => .error err.Error

def rcb.errDecodeToken : GoError := .sentinel "decoding of the markup failed"
def rcb.errAttributeNotValid : GoError := .sentinel "attr is not valid"

/-- The type `XMLCcyRate` (rcb/xml.go:112-116); its field `Rate`, which `decodeXML` neither
reads nor writes, is left out. -/
structure rcb.XMLCcyRate where
  Currency : label.Symbol
  Value : String
deriving DecidableEq, Repr

/-- The type `XMLNode` (rcb/xml.go:118-121). -/
structure rcb.XMLNode where
  Time : Time
  Rates : List rcb.XMLCcyRate
deriving DecidableEq, Repr

/-- What `decoder.DecodeElement(&currNode, &tp)` makes of a `ValCurs` element: the decoded
node, a syntax error of the markup, or another error. -/
inductive rcb.Decoded where
  | node (currNode : rcb.XMLNode)
  | syntaxError (msg : String)
  | failure (err : GoError)

/-- One turn of the token loop of `decodeXML`: what `decoder.Token()` returns.  A start
element named `ValCurs` comes with what `DecodeElement` makes of it (the tokens the call
consumes are not listed again); the end of the list is `io.EOF`. -/
inductive rcb.Token where
  | valCurs (decoded : rcb.Decoded)
  | other
  | syntaxError (msg : String)
  | failure (err : GoError)

/-- The loop over `currNode.Rates` in `decodeXML` (rcb/xml.go:78-98): the value is parsed
and its sign tested before the symbol is looked up in the catalog. -/
def rcb.rangeRates (ParseFloat : strconv.ParseFloat) (Currencies : label.Catalog)
    (dailyRates : rcb.rubLatestRates) :
    List rcb.XMLCcyRate → rcb.rubLatestRates × Option GoError
  | [] => (dailyRates, none)
  | r :: rest =>
    match ParseFloat (commaToPoint r.Value) with
    | .error err => (dailyRates, some (.wrap err "strconv.ParseFloat"))
    | .ok v =>
      if v ≤ 0 then (dailyRates, some rcb.errAttributeNotValid)
      else
        match Currencies r.Currency with
        | none => rcb.rangeRates ParseFloat Currencies dailyRates rest
        | some _ =>
          rcb.rangeRates ParseFloat Currencies
            { dailyRates with rates := dailyRates.rates ++ [{ symbol := r.Currency, rate := v }] }
            rest

/-- The token loop of `decodeXML` (rcb/xml.go:41-106).  The errors made by
`fmt.Errorf("decode token: %w", err)`, `fmt.Errorf("decode element: %w", err)` and
`fmt.Errorf("strconv.ParseFloat: %w", err)` are wraps of `err` with that text. -/
def rcb.tokenLoop (ParseFloat : strconv.ParseFloat) (Currencies : label.Catalog)
    (dailyRates : rcb.rubLatestRates) :
    List rcb.Token → rcb.rubLatestRates × Option GoError
  | [] => (dailyRates, none)
  | .syntaxError msg :: _ => (dailyRates, some (.wrap rcb.errDecodeToken msg))
  | .failure err :: _ => (dailyRates, some (.wrap err "decode token"))
  | .other :: rest => rcb.tokenLoop ParseFloat Currencies dailyRates rest
  | .valCurs (.syntaxError msg) :: _ => (dailyRates, some (.wrap rcb.errDecodeToken msg))
  | .valCurs (.failure err) :: _ =>
    if err.Is rcb.errAttributeNotValid then (dailyRates, some rcb.errAttributeNotValid)
    else (dailyRates, some (.wrap err "decode element"))
  | .valCurs (.node currNode) :: rest =>
    let ranged :=
      rcb.rangeRates ParseFloat Currencies { time := currNode.Time, rates := [] } currNode.Rates
    match ranged.2 with
    | some err => (ranged.1, some err)
    | none => rcb.tokenLoop ParseFloat Currencies ranged.1 rest

/-- The function `decodeXML` of the RCB adapter (rcb/xml.go:28-109), on the tokens the XML
decoder delivers. -/
def rcb.decodeXML (ParseFloat : strconv.ParseFloat) (Currencies : label.Catalog)
    (tokens : List rcb.Token) : rcb.rubLatestRates × Option GoError :=
  rcb.tokenLoop ParseFloat Currencies { time := 0, rates := [] } tokens

def ecb.errDecodeToken : GoError := .sentinel "decoding of the markup failed"
def ecb.errAttributeNotValid : GoError := .sentinel "attr is not valid"
def ecb.errMissingIterFunc : GoError := .sentinel "missing iter function"

/-- One turn of the loop of `decodeCSV`: what `decoder.Read()` of the CSV reader returns, a
line, a `*csv.ParseError`, or another error; the end of the list is `io.EOF`. -/
inductive csv.Read where
  | line (fields : List String)
  | parseError (msg : String)
  | failure (err : GoError)

/-- A loop `for n, column := range line` whose body may return an error, from the column
index `n` on. -/
def rangeColumns {σ : Type} (body : σ → Nat → String → Except GoError σ) :
    Nat → List String → σ → Except GoError σ
  | _, [], st => .ok st
  | n, column :: rest, st =>
    match body st n column with
    | .error err => .error err
    | .ok st => rangeColumns body (n + 1) rest st

/-- Body of the loop over the columns of the first line (ecb/csv.go:41-50). -/
def ecb.headerStep (header : List String) (n : Nat) (column : String) :
    Except GoError (List String) :=
  let token := strings.Trim column " \t"
  if n = 0 ∧ token = "" then .error ecb.errAttributeNotValid
  else if token = "" then .ok header
  else .ok (header ++ [strings.Trim column " "])

/-- Body of the loop over the columns of a data line (ecb/csv.go:57-95).  The symbol of the
column is looked up in the catalog before the rate is parsed.  Reading `header[n]` beyond
the end of `header` is the panic `indexOutOfRange`; `fmt.Errorf("%w: %v", e, err)` is the
wrap of `e` with the text of `err`. -/
def ecb.rowStep (ParseFloat : strconv.ParseFloat) (ParseTime : time.Parse)
    (Currencies : label.Catalog) (header : List String) (dailyRate : ecb.euroLatestRates)
    (n : Nat) (column : String) : Except GoError ecb.euroLatestRates :=
  let token := strings.Trim column " \t"
  if token = "" then .ok dailyRate
  else
    match header.get? n with
    | none => .error indexOutOfRange
    | some name =>
      if n = 0 ∧ name ≠ "Date" then .error (.wrap ecb.errAttributeNotValid "<nil>")
      else if name = "Date" then
        match ParseTime token with
        | .error err => .error (.wrap ecb.errAttributeNotValid err.Error)
        | .ok t => .ok { dailyRate with time := t }
      else
        match Currencies name with
        | none => .ok dailyRate
        | some _ =>
          match ParseFloat token with
          | .error err => .error (.wrap ecb.errAttributeNotValid err.Error)
          | .ok r =>
            if r ≤ 0 then .error ecb.errAttributeNotValid
            else .ok { dailyRate with rates := dailyRate.rates ++ [{ symbol := name, rate := r }] }

/-- The loop of `decodeCSV` (ecb/csv.go:25-101) from the state `idx`, `header`; `calls`
lists the feeds handed to `iterFunc` so far. -/
def ecb.csvLoop (ParseFloat : strconv.ParseFloat) (ParseTime : time.Parse)
    (Currencies : label.Catalog) (iterFunc : ecb.euroLatestRates → Option GoError) :
    Nat → List String → List ecb.euroLatestRates → List csv.Read →
      List ecb.euroLatestRates × Option GoError
  | _, _, calls, [] => (calls, none)
  | _, _, calls, .parseError msg :: _ => (calls, some (.wrap ecb.errDecodeToken msg))
  | _, _, calls, .failure err :: _ => (calls, some (.wrap err "csv decoder read"))
  | 0, header, calls, .line line :: rest =>
    match rangeColumns ecb.headerStep 0 line header with
    | .error err => (calls, some err)
    | .ok header => ecb.csvLoop ParseFloat ParseTime Currencies iterFunc 1 header calls rest
  | idx + 1, header, calls, .line line :: rest =>
    match rangeColumns (ecb.rowStep ParseFloat ParseTime Currencies header) 0 line
        { time := 0, rates := [] } with
    | .error err => (calls, some err)
    | .ok dailyRate =>
      match iterFunc dailyRate with
      | some err => (calls ++ [dailyRate], some (.wrap err "handle func"))
      | none =>
        ecb.csvLoop ParseFloat ParseTime Currencies iterFunc (idx + 1) header
          (calls ++ [dailyRate]) rest

/-- The decoding function `decodeCSV()` of the ECB adapter (ecb/csv.go:16-104), on what the
CSV reader delivers: the feeds handed to `iterFunc`, in order, and the returned error. -/
def ecb.decodeCSV (ParseFloat : strconv.ParseFloat) (ParseTime : time.Parse)
    (Currencies : label.Catalog) (reads : List csv.Read)
    (iterFunc : Option (ecb.euroLatestRates → Option GoError)) :
    List ecb.euroLatestRates × Option GoError :=
  match iterFunc with
  | none => ([], some ecb.errMissingIterFunc)
  | some iterFunc => ecb.csvLoop ParseFloat ParseTime Currencies iterFunc 0 [] [] reads

def cae.errParseAttrNotValid : GoError := .sentinel "attr is not valid"
def cae.errHTMLNotValid : GoError := .sentinel "html not valid"

/-- The table `label.Names` (label/name_gen.go:4-185): from the English name of a currency to
its symbol. -/
def label.namesTable : List (String × label.Symbol) :=
  [("United Arab Emirates Dirham", "AED"), ("Afghan Afghani", "AFN"), ("Albanian Lek", "ALL"),
    ("Armenian Dram", "AMD"), ("Netherlands Antillean Guilder", "ANG"),
    ("Angolan Kwanza", "AOA"), ("Argentine Peso", "ARS"), ("Australian Dollar", "AUD"),
    ("Aruban Florin", "AWG"), ("Azerbaijani Manat", "AZN"),
    ("Bosnia-Herzegovina Convertible Mark", "BAM"), ("Barbadian Dollar", "BBD"),
    ("Bangladeshi Taka", "BDT"), ("Bulgarian Lev", "BGN"), ("Bahraini Dinar", "BHD"),
    ("Burundian Franc", "BIF"), ("Bermudian Dollar", "BMD"), ("Brunei Dollar", "BND"),
    ("Bolivian Boliviano", "BOB"), ("Bolivian Mvdol", "BOV"), ("Brazilian Real", "BRL"),
    ("Bahamian Dollar", "BSD"), ("Bhutanese Ngultrum", "BTN"), ("Botswanan Pula", "BWP"),
    ("Belarusian Rouble", "BYN"), ("Belize Dollar", "BZD"), ("Canadian Dollar", "CAD"),
    ("Congolese Franc", "CDF"), ("WIR Euro", "CHE"), ("Swiss Franc", "CHF"),
    ("WIR Franc", "CHW"), ("Chilean Unit of Account (UF)", "CLF"), ("Chilean Peso", "CLP"),
    ("Chinese Yuan", "CNY"), ("Colombian Peso", "COP"), ("Colombian Real Value Unit", "COU"),
    ("Costa Rican Colón", "CRC"), ("Cuban Convertible Peso", "CUC"), ("Cuban Peso", "CUP"),
    ("Cape Verdean Escudo", "CVE"), ("Czech Koruna", "CZK"), ("Djiboutian Franc", "DJF"),
    ("Danish Krone", "DKK"), ("Dominican Peso", "DOP"), ("Algerian Dinar", "DZD"),
    ("Egyptian Pound", "EGP"), ("Eritrean Nakfa", "ERN"), ("Ethiopian Birr", "ETB"),
    ("Euro", "EUR"), ("Fijian Dollar", "FJD"), ("Falkland Islands Pound", "FKP"),
    ("British Pound", "GBP"), ("Georgian Lari", "GEL"), ("Ghanaian Cedi", "GHS"),
    ("Gibraltar Pound", "GIP"), ("Gambian Dalasi", "GMD"), ("Guinean Franc", "GNF"),
    ("Guatemalan Quetzal", "GTQ"), ("Guyanaese Dollar", "GYD"), ("Hong Kong Dollar", "HKD"),
    ("Honduran Lempira", "HNL"), ("Croatian Kuna", "HRK"), ("Haitian Gourde", "HTG"),
    ("Hungarian Forint", "HUF"), ("Indonesian Rupiah", "IDR"), ("Israeli New Shekel", "ILS"),
    ("Indian Rupee", "INR"), ("Iraqi Dinar", "IQD"), ("Iranian Rial", "IRR"),
    ("Icelandic Króna", "ISK"), ("Jamaican Dollar", "JMD"), ("Jordanian Dinar", "JOD"),
    ("Japanese Yen", "JPY"), ("Kenyan Shilling", "KES"), ("Kyrgystani Som", "KGS"),
    ("Cambodian Riel", "KHR"), ("Comorian Franc", "KMF"), ("North Korean Won", "KPW"),
    ("South Korean Won", "KRW"), ("Kuwaiti Dinar", "KWD"), ("Cayman Islands Dollar", "KYD"),
    ("Kazakhstani Tenge", "KZT"), ("Laotian Kip", "LAK"), ("Lebanese Pound", "LBP"),
    ("Sri Lankan Rupee", "LKR"), ("Liberian Dollar", "LRD"), ("Lesotho Loti", "LSL"),
    ("Libyan Dinar", "LYD"), ("Moroccan Dirham", "MAD"), ("Moldovan Leu", "MDL"),
    ("Malagasy Ariary", "MGA"), ("Macedonian Denar", "MKD"), ("Myanmar Kyat", "MMK"),
    ("Mongolian Tugrik", "MNT"), ("Macanese Pataca", "MOP"), ("Mauritanian Ouguiya", "MRU"),
    ("Mauritian Rupee", "MUR"), ("Maldivian Rufiyaa", "MVR"), ("Malawian Kwacha", "MWK"),
    ("Mexican Peso", "MXN"), ("Mexican Investment Unit", "MXV"), ("Malaysian Ringgit", "MYR"),
    ("Mozambican Metical", "MZN"), ("Namibian Dollar", "NAD"), ("Nigerian Naira", "NGN"),
    ("Nicaraguan Córdoba", "NIO"), ("Norwegian Krone", "NOK"), ("Nepalese Rupee", "NPR"),
    ("New Zealand Dollar", "NZD"), ("Omani Rial", "OMR"), ("Panamanian Balboa", "PAB"),
    ("Peruvian Sol", "PEN"), ("Papua New Guinean Kina", "PGK"), ("Philippine Peso", "PHP"),
    ("Pakistani Rupee", "PKR"), ("Polish Zloty", "PLN"), ("Paraguayan Guarani", "PYG"),
    ("Qatari Rial", "QAR"), ("Romanian Leu", "RON"), ("Serbian Dinar", "RSD"),
    ("Russian Rouble", "RUB"), ("Rwandan Franc", "RWF"), ("Saudi Riyal", "SAR"),
    ("Solomon Islands Dollar", "SBD"), ("Seychellois Rupee", "SCR"), ("Sudanese Pound", "SDG"),
    ("Swedish Krona", "SEK"), ("Singapore Dollar", "SGD"), ("St Helena Pound", "SHP"),
    ("Sierra Leonean Leone", "SLL"), ("Somali Shilling", "SOS"), ("Surinamese Dollar", "SRD"),
    ("South Sudanese Pound", "SSP"), ("São Tomé & Príncipe Dobra", "STN"),
    ("Salvadoran Colón", "SVC"), ("Syrian Pound", "SYP"), ("Swazi Lilangeni", "SZL"),
    ("Thai Baht", "THB"), ("Tajikistani Somoni", "TJS"), ("Turkmenistani Manat", "TMT"),
    ("Tunisian Dinar", "TND"), ("Tongan Paʻanga", "TOP"), ("Turkish Lira", "TRY"),
    ("Trinidad & Tobago Dollar", "TTD"), ("New Taiwan Dollar", "TWD"),
    ("Tanzanian Shilling", "TZS"), ("Ukrainian Hryvnia", "UAH"), ("Ugandan Shilling", "UGX"),
    ("US Dollar", "USD"), ("US Dollar (Next day)", "USN"),
    ("Uruguayan Peso (Indexed Units)", "UYI"), ("Uruguayan Peso", "UYU"),
    ("Uruguayan Nominal Wage Index Unit", "UYW"), ("Uzbekistani Som", "UZS"),
    ("Venezuelan Bolívar", "VES"), ("Vietnamese Dong", "VND"), ("Vanuatu Vatu", "VUV"),
    ("Samoan Tala", "WST"), ("Central African CFA Franc", "XAF"), ("Silver", "XAG"),
    ("Gold", "XAU"), ("European Composite Unit", "XBA"), ("European Monetary Unit", "XBB"),
    ("European Unit of Account (XBC)", "XBC"), ("European Unit of Account (XBD)", "XBD"),
    ("East Caribbean Dollar", "XCD"), ("Special Drawing Rights", "XDR"),
    ("West African CFA Franc", "XOF"), ("Palladium", "XPD"), ("CFP Franc", "XPF"),
    ("Platinum", "XPT"), ("Sucre", "XSU"), ("Testing Currency Code", "XTS"),
    ("ADB Unit of Account", "XUA"), ("Unknown Currency", "XXX"), ("Yemeni Rial", "YER"),
    ("South African Rand", "ZAR"), ("Zambian Kwacha", "ZMW"), ("Zimbabwean Dollar (2009)", "ZWL")]

/-- The lookup `label.Names[name]` with its comma-ok flag. -/
def label.Names (name : String) : Option label.Symbol := mapGet label.namesTable name

/-- What `parseHTML` reads of the parsed document: the text found by the selector
`#ratesDatePicker > h3 > span > span`, and the texts of the nodes found by
`#ratesDateTable tbody tr td`, in document order. -/
structure cae.Page where
  date : String
  rateNodes : List String
deriving DecidableEq, Repr

/-- The loop `for i := 0; i < len(rateNodes); i += 2` of `parseHTML` (cae/html.go:57-86), on
the texts from index `i` on.  A parsed rate is appended as it is: there is no test of its
sign.  Reading `rateNodes[i+1]` beyond the end is the panic `indexOutOfRange`. -/
def cae.rateLoop (ParseFloat : strconv.ParseFloat) :
    cae.aedLatestRates → List String → cae.aedLatestRates × Option GoError
  | dailyRates, [] => (dailyRates, none)
  | dailyRates, [name] =>
    if name = "" then (dailyRates, some cae.errParseAttrNotValid)
    else
      match label.Names name with
      | none => (dailyRates, none)
      | some _ => (dailyRates, some indexOutOfRange)
  | dailyRates, name :: rateStr :: rest =>
    if name = "" then (dailyRates, some cae.errParseAttrNotValid)
    else
      match label.Names name with
      | none => cae.rateLoop ParseFloat dailyRates rest
      | some symbol =>
        match ParseFloat rateStr with
        | .error _ => ({ time := 0, rates := [] }, some cae.errParseAttrNotValid)
        | .ok rate =>
          cae.rateLoop ParseFloat
            { dailyRates with rates := dailyRates.rates ++ [{ symbol := symbol, rate := rate }] }
            rest

/-- The function `parseHTML` of the CAE adapter (cae/html.go:20-89), on what `html.Parse`
returns. -/
def cae.parseHTML (ParseFloat : strconv.ParseFloat) (ParseTime : time.Parse)
    (parsed : Except GoError cae.Page) : cae.aedLatestRates × Option GoError :=
  match parsed with
  | .error err =>
    ({ time := 0, rates := [] }, some (.wrap cae.errHTMLNotValid ("html parse: " ++ err.Error)))
  | .ok doc =>
    if doc.date = "" ∨ doc.date.utf8ByteSize < 4 then
      ({ time := 0, rates := [] }, some cae.errParseAttrNotValid)
    else
      match ParseTime (doc.date.extract ⟨4⟩ doc.date.endPos) with
      | .error _ => ({ time := 0, rates := [] }, some cae.errParseAttrNotValid)
      | .ok dt => cae.rateLoop ParseFloat { time := dt, rates := [] } doc.rateNodes

/-- The column `n` of the data line `row` carries the rate of a catalog currency, and the
rate is zero or negative. -/
def ecb.NonPositiveAt (ParseFloat : strconv.ParseFloat) (Currencies : label.Catalog)
    (header row : List String) (n : Nat) : Prop :=
  ∃ column name c r, row.get? n = some column ∧ strings.Trim column " \t" ≠ ""
    ∧ header.get? n = some name ∧ name ≠ "Date" ∧ Currencies name = some c
    ∧ ParseFloat (strings.Trim column " \t") = .ok r ∧ r ≤ 0

/-- The entry carries the rate of a catalog currency, and the rate is zero or negative. -/
def rcb.NonPositive (ParseFloat : strconv.ParseFloat) (Currencies : label.Catalog)
    (entry : rcb.XMLCcyRate) : Prop :=
  ∃ c v, Currencies entry.Currency = some c
    ∧ ParseFloat (commaToPoint entry.Value) = .ok v ∧ v ≤ 0

/-- Every non-empty cell of the line stands under an entry of the header. -/
def ecb.Fits (header line : List String) : Prop :=
  ∀ k column, line.get? k = some column → strings.Trim column " \t" ≠ "" → k < header.length

/-! ## Sample values used to exercise the definitions -/

def sample.usd : label.Currency := ⟨"USD", "US Dollar", 2⟩
def sample.gbp : label.Currency := ⟨"GBP", "British Pound", 2⟩
def sample.eur : label.Currency := ⟨"EUR", "Euro", 2⟩

/-- GBP→USD at 3, priority 1. -/
def sample.hi : ExchangeRate := ⟨1, 10, sample.gbp, sample.usd, 3⟩
/-- GBP→USD at 5, priority 0. -/
def sample.lo : ExchangeRate := ⟨0, 20, sample.gbp, sample.usd, 5⟩
/-- A triple whose from-currency is the zero value, to USD at 1. -/
def sample.anon : ExchangeRate := ⟨0, 10, label.Currency.zero, sample.usd, 1⟩
/-- A second triple for the same cell as `sample.anon`, at 2. -/
def sample.anon2 : ExchangeRate := ⟨0, 20, label.Currency.zero, sample.usd, 2⟩

/-- A resolver that never resolves. -/
def sample.never : ResolveFunc := fun _ _ => .error "unresolvable"

/-- A source that always fails. -/
def sample.down : provider.Source := ⟨fun _ => .error "down", []⟩

def sample.client : BuiltinSources := ⟨sample.down, sample.down, sample.down⟩

/-- A custom merge function: it leaves the table as it is. -/
def sample.keepTable : MergeFunc := fun batch _ => batch

/-- A small catalog with consistent records. -/
def sample.catalog : label.Catalog := fun s =>
  if s = "USD" then some sample.usd
  else if s = "GBP" then some sample.gbp
  else if s = "EUR" then some sample.eur
  else if s = "AED" then some ⟨"AED", "United Arab Emirates Dirham", 2⟩
  else if s = "RUB" then some ⟨"RUB", "Russian Rouble", 2⟩
  else none

/-- A feed of one entry: USD at 2. -/
def sample.feed : latestRates := ⟨7, [⟨"USD", 2⟩]⟩

/-- A source that declares USD and GBP and always fails. -/
def sample.usdGbp : provider.Source := ⟨fun _ => .error "down", ["USD", "GBP"]⟩

/-- An engine with one provider, which declares USD and GBP. -/
def sample.engine : exchanger :=
  { opts :=
      { RetryNum := DefaultRetryNum
        RetryDuration := DefaultRetryDuration
        RequestTimeout := DefaultRequestTimeout
        MergeStrategy := MergeStrategyTypeRace }
    providers := [{ name := "p", prior := 0, Source := sample.usdGbp }]
    exchangeable := []
    merger := none }

/-- A request to convert 10 USD to EUR through the engine's own round. -/
def sample.usdToEur : ConvOpt := ⟨"USD", "EUR", 10, none⟩

def sample.ctx : Context := ⟨[0], [0], fun _ _ => none⟩

/-- A fetch function that returns one triple, GBP→USD at 3, and one status report. -/
def sample.cached : FetchFunc := fun _ =>
  { Expected := ["USD", "GBP"], Unreceived := [],
    Info := [⟨"p", .ProviderRespStatusOK, ""⟩], Result := [sample.hi] }

/-- An engine whose symbol cache holds USD and GBP. -/
def sample.warm : exchanger := { sample.engine with exchangeable := ["USD", "GBP"] }

/-- A request to convert 10 USD to GBP with the cached response. -/
def sample.usdToGbp : ConvOpt := ⟨"USD", "GBP", 10, some sample.cached⟩

/-- A request to convert 10 GBP to USD with the cached response. -/
def sample.gbpToUsd : ConvOpt := ⟨"GBP", "USD", 10, some sample.cached⟩

/-- An engine with two providers that declare (RUB, USD) and (RUB, GBP), cache not yet
computed. -/
def sample.twoSources : exchanger :=
  { sample.engine with
    providers :=
      [ { name := "TestSourceOne", prior := 1, Source := ⟨fun _ => .error "down", ["RUB", "USD"]⟩ },
        { name := "TestSourceTwo", prior := 1, Source := ⟨fun _ => .error "down", ["RUB", "GBP"]⟩ } ] }

/-- Built-in sources that declare (USD, EUR), (RUB, USD) and (AED, USD). -/
def sample.live : BuiltinSources :=
  ⟨⟨fun _ => .error "down", ["USD", "EUR"]⟩, ⟨fun _ => .error "down", ["RUB", "USD"]⟩,
    ⟨fun _ => .error "down", ["AED", "USD"]⟩⟩

/-- A source that fails once and then returns GBP→USD at 3. -/
def sample.flaky : provider.Source :=
  ⟨fun k => if k = 0 then .error "timeout" else .ok [⟨10, sample.gbp, sample.usd, 3⟩],
    ["GBP", "USD"]⟩

/-- An engine with a provider that succeeds on its retry and a provider that is down. -/
def sample.mixed : exchanger :=
  { sample.engine with
    providers :=
      [ { name := "good", prior := 1, Source := sample.flaky },
        { name := "bad", prior := 0, Source := sample.down } ]
    exchangeable := ["GBP", "USD"] }

/-- A round in which the task of "bad" reports first and the context stays live. -/
def sample.round : Context := ⟨[0, 1], [1, 0], fun _ _ => none⟩

/-- A round in which the deadline passes while the task of "good" waits for its retry. -/
def sample.hurried : Context :=
  ⟨[0, 1], [1, 0],
    fun i k => if i = 0 ∧ k = 1 then some "context deadline exceeded" else none⟩

/-- GBP→USD at 7, priority 1: a rival of `sample.hi`. -/
def sample.hi2 : ExchangeRate := ⟨1, 30, sample.gbp, sample.usd, 7⟩
/-- GBP→USD at 9, priority 2. -/
def sample.top : ExchangeRate := ⟨2, 40, sample.gbp, sample.usd, 9⟩

/-- A registry in which the name "ecb" occurs twice: the built-in adapters and one more
provider registered under the name "ecb" with priority 5. -/
def sample.twice : exchanger := (New sample.client []).Register "ecb" sample.down 5

/-- A feed of two entries: USD at 2 and GBP at 4. -/
def sample.feed2 : latestRates := ⟨7, [⟨"USD", 2⟩, ⟨"GBP", 4⟩]⟩

/-- An engine whose only provider answers with the CAE table of the feed "USD at 2". -/
def sample.caeEngine : exchanger :=
  { sample.engine with
    providers :=
      [ { name := "cae", prior := 0,
          Source := ⟨fun _ => cae.decode sample.catalog (.ok sample.feed), ["USD", "AED"]⟩ } ]
    exchangeable := ["USD", "AED"] }

/-- The sentinel `strconv.ErrSyntax`. -/
def strconv.ErrSyntax : GoError := .sentinel "invalid syntax"

/-- The values of `strconv.ParseFloat` on the decimal texts used in the examples; every
other text is answered with a syntax error that names the text. -/
def sample.parseFloat : strconv.ParseFloat := fun s =>
  if s = "54.1609" then .ok (541609 / 10000)
  else if s = "43.0785" then .ok (430785 / 10000)
  else if s = "1.2" then .ok (12 / 10)
  else if s = "0" then .ok 0
  else if s = "-1" then .ok (-1)
  else .error (.wrap strconv.ErrSyntax s)

/-- The `ValCurs` element of the test case `test_value_type_2` (rcb/xml_test.go:193-219):
USD at "54,1609", EUR at "43,0785" and JPY at "hello world", dated 30.08.2021. -/
def sample.valueType2 : rcb.XMLNode :=
  ⟨20210830, [⟨"USD", "54,1609"⟩, ⟨"EUR", "43,0785"⟩, ⟨"JPY", "hello world"⟩]⟩

/-- The values of `time.Parse` on the dates used in the examples. -/
def sample.parseTime : time.Parse := fun s =>
  if s = "12-08-2021" then .ok 20210812
  else if s = "18 June 2021" then .ok 20210618
  else .error (.sentinel "parsing time")

/-- A page of the CAE site dated 12-08-2021 with one table row: US Dollar at "0". -/
def sample.zeroPage : cae.Page := ⟨"Date12-08-2021", ["US Dollar", "0"]⟩

/-- A `ValCurs` element with USD at "54,1609" and the unknown symbol USDT at "0". -/
def sample.unknownZero : rcb.XMLNode := ⟨19960730, [⟨"USD", "54,1609"⟩, ⟨"USDT", "0"⟩]⟩

/-- A `ValCurs` element with USD at "54,1609" and the unknown symbol USDT at
"hello world". -/
def sample.unknownText : rcb.XMLNode :=
  ⟨19960730, [⟨"USD", "54,1609"⟩, ⟨"USDT", "hello world"⟩]⟩

/-- A CSV feed with the unknown symbol USDT at "0" and USD at "1.2". -/
def sample.csvUnknown : List csv.Read :=
  [.line ["Date", " USDT", " USD", ""], .line ["18 June 2021", " 0", " 1.2", ""]]

/-- A page with a row of the unknown name "Tether" at "hello world" and a row of US Dollar
at "1.2". -/
def sample.pageUnknown : cae.Page :=
  ⟨"Date12-08-2021", ["Tether", "hello world", "US Dollar", "1.2"]⟩

/-- A CSV feed whose second line the reader rejects and whose third line carries USD at
"0". -/
def sample.csvBroken : List csv.Read :=
  [.line ["Date", " USD", ""], .parseError "parse error on line 2, column 15",
    .line ["19 June 2021", " 0", ""]]

/-- A `ValCurs` element shaped like that of the test case `test_invalid_rate_0`
(rcb/xml_test.go:139-165): two currencies with well-formed values and a third currency of
the catalog, GBP, at "0". -/
def sample.invalidRate0 : rcb.XMLNode :=
  ⟨20210830, [⟨"USD", "54,1609"⟩, ⟨"EUR", "43,0785"⟩, ⟨"GBP", "0"⟩]⟩

/-! ## Theorems -/

section maps

variable {V : Type}

theorem mapGet_mapSet_same (m : List (label.Symbol × V)) (k : label.Symbol) (v : V) :
    mapGet (mapSet m k v) k = some v := by
  induction m with
  | nil => simp [mapSet, mapGet]
  | cons hd tl ih =>
    obtain ⟨k', v'⟩ := hd
    by_cases h : k' = k
    · simp [mapSet, mapGet, h]
    · simp [mapSet, mapGet, h, ih]

theorem mapGet_mapSet_ne (m : List (label.Symbol × V)) {k k' : label.Symbol} (v : V)
    (hne : k' ≠ k) : mapGet (mapSet m k v) k' = mapGet m k' := by
  induction m with
  | nil => simp [mapSet, mapGet, Ne.symm hne]
  | cons hd tl ih =>
    obtain ⟨k₀, v₀⟩ := hd
    by_cases h : k₀ = k
    · subst h
      simp [mapSet, mapGet, Ne.symm hne]
    · by_cases h' : k₀ = k'
      · subst h'
        simp [mapSet, mapGet, h]
      · simp [mapSet, mapGet, h, h', ih]

end maps

theorem cell_mk_some (items : OuterItems) (f t : label.Symbol) :
    (BatchExchanges.mk (some items)).cell f t =
      match mapGet items f with
      | none => none
      | some extMap => mapGet extMap t := rfl

theorem cell_made (b : BatchExchanges) (f t : label.Symbol) :
    (BatchExchanges.mk (some b.made)).cell f t = b.cell f t := by
  cases b with
  | mk items =>
    cases items with
    | none => simp [BatchExchanges.made, BatchExchanges.cell, mapGet]
    | some m => rfl

/-- One loop iteration seen cell by cell: the cell of `r` is updated by `stepCell`,
every other cell is untouched. -/
theorem cell_walkStep (fn : ResolveFunc) (st : OuterItems × CallLog) (r : ExchangeRate)
    (f t : label.Symbol) :
    (BatchExchanges.mk (some (BatchExchanges.walkStep fn st r).1)).cell f t =
      if f = r.from_.Symbol ∧ t = r.to_.Symbol then
        stepCell fn ((BatchExchanges.mk (some st.1)).cell f t) r
      else (BatchExchanges.mk (some st.1)).cell f t := by
  have hto : ∀ {x : label.Symbol}, ¬ x = r.to_.Symbol → ¬ r.to_.Symbol = x :=
    fun h h' => h h'.symm
  simp only [cell_mk_some, BatchExchanges.walkStep]
  by_cases hf : f = r.from_.Symbol
  · subst hf
    by_cases ht : t = r.to_.Symbol
    · subst ht
      cases h1 : mapGet st.1 r.from_.Symbol with
      | none => simp [stepCell, mapGet_mapSet_same]
      | some extMap =>
        cases h2 : mapGet extMap r.to_.Symbol with
        | none => simp [stepCell, h1, h2, mapGet_mapSet_same]
        | some curr =>
          cases h3 : fn curr r with
          | error e => simp [stepCell, h1, h2, h3]
          | ok next => simp [stepCell, h1, h2, h3, mapGet_mapSet_same]
    · cases h1 : mapGet st.1 r.from_.Symbol with
      | none => simp [ht, hto ht, mapGet_mapSet_same, mapGet_mapSet_ne, mapGet]
      | some extMap =>
        cases h2 : mapGet extMap r.to_.Symbol with
        | none => simp [ht, h1, h2, mapGet_mapSet_same, mapGet_mapSet_ne]
        | some curr =>
          cases h3 : fn curr r with
          | error e => simp [ht, h1, h2, h3]
          | ok next => simp [ht, h1, h2, h3, mapGet_mapSet_same, mapGet_mapSet_ne]
  · cases h1 : mapGet st.1 r.from_.Symbol with
    | none => simp [hf, mapGet_mapSet_ne]
    | some extMap =>
      cases h2 : mapGet extMap r.to_.Symbol with
      | none => simp [hf, h1, h2, mapGet_mapSet_ne]
      | some curr =>
        cases h3 : fn curr r with
        | error e => simp [hf, h1, h2, h3]
        | ok next => simp [hf, h1, h2, h3, mapGet_mapSet_ne]

theorem walkStep_log (fn : ResolveFunc) (items : OuterItems) (log : CallLog)
    (r : ExchangeRate) :
    BatchExchanges.walkStep fn (items, log) r =
      ((BatchExchanges.walkStep fn (items, []) r).1,
        log ++ (BatchExchanges.walkStep fn (items, []) r).2) := by
  simp only [BatchExchanges.walkStep]
  cases h1 : mapGet items r.from_.Symbol with
  | none => simp
  | some extMap =>
    cases h2 : mapGet extMap r.to_.Symbol with
    | none => simp [h1, h2]
    | some curr =>
      cases h3 : fn curr r with
      | error e => simp [h1, h2, h3]
      | ok next => simp [h1, h2, h3]

theorem foldl_walkStep_log (fn : ResolveFunc) (rs : List ExchangeRate) :
    ∀ (items : OuterItems) (log : CallLog),
      rs.foldl (BatchExchanges.walkStep fn) (items, log) =
        ((rs.foldl (BatchExchanges.walkStep fn) (items, [])).1,
          log ++ (rs.foldl (BatchExchanges.walkStep fn) (items, [])).2) := by
  induction rs with
  | nil => intro items log; simp
  | cons r rs ih =>
    intro items log
    simp only [List.foldl_cons]
    rw [walkStep_log fn items log r, ih, ih (BatchExchanges.walkStep fn (items, []) r).1
      (BatchExchanges.walkStep fn (items, []) r).2]
    simp [List.append_assoc]

theorem walkLog_single (b : BatchExchanges) (r : ExchangeRate) (fn : ResolveFunc) :
    b.walkLog [r] fn =
      (⟨some (BatchExchanges.walkStep fn (b.made, []) r).1⟩,
        (BatchExchanges.walkStep fn (b.made, []) r).2) := rfl

/-- The batch is handled front to back: the first triple, then the rest on the table the
first triple left, the call records concatenated. -/
theorem walkLog_cons (b : BatchExchanges) (r : ExchangeRate) (rs : List ExchangeRate)
    (fn : ResolveFunc) :
    b.walkLog (r :: rs) fn =
      (((b.walkLog [r] fn).1.walkLog rs fn).1,
        (b.walkLog [r] fn).2 ++ ((b.walkLog [r] fn).1.walkLog rs fn).2) := by
  unfold BatchExchanges.walkLog
  simp only [List.foldl_cons, List.foldl_nil]
  generalize BatchExchanges.walkStep fn (b.made, []) r = p
  obtain ⟨i, l⟩ := p
  rw [foldl_walkStep_log fn rs i l]
  simp [BatchExchanges.made]

theorem walk_cons (b : BatchExchanges) (r : ExchangeRate) (rs : List ExchangeRate)
    (fn : ResolveFunc) : b.walk (r :: rs) fn = (b.walk [r] fn).walk rs fn := by
  simp only [BatchExchanges.walk, walkLog_cons b r rs fn]

theorem cell_walk_nil (b : BatchExchanges) (fn : ResolveFunc) (f t : label.Symbol) :
    (b.walk [] fn).cell f t = b.cell f t := by
  simp only [BatchExchanges.walk, BatchExchanges.walkLog, List.foldl_nil]
  exact cell_made b f t

/-- A one-triple batch seen cell by cell. -/
theorem cell_walk_single (b : BatchExchanges) (r : ExchangeRate) (fn : ResolveFunc)
    (f t : label.Symbol) :
    (b.walk [r] fn).cell f t =
      if f = r.from_.Symbol ∧ t = r.to_.Symbol then stepCell fn (b.cell f t) r
      else b.cell f t := by
  simp only [BatchExchanges.walk, walkLog_single]
  rw [cell_walkStep fn (b.made, []) r f t]
  simp only [cell_made]

/-- The resolver is called exactly when the cell of the triple is occupied, and then once,
with the occupant and the triple. -/
theorem log_walk_single (b : BatchExchanges) (r : ExchangeRate) (fn : ResolveFunc) :
    (b.walkLog [r] fn).2 =
      match b.cell r.from_.Symbol r.to_.Symbol with
      | none => []
      | some curr => [(curr, r)] := by
  rw [← cell_made b]
  simp only [walkLog_single, cell_mk_some, BatchExchanges.walkStep]
  cases h1 : mapGet b.made r.from_.Symbol with
  | none => simp
  | some extMap =>
    cases h2 : mapGet extMap r.to_.Symbol with
    | none => simp [h1, h2]
    | some curr =>
      cases h3 : fn curr r with
      | error e => simp [h1, h2, h3]
      | ok next => simp [h1, h2, h3]

/-- A whole batch seen from one cell: only the triples addressed to the cell matter, and
they act on it in batch order through `stepCell`. -/
theorem cell_walk (fn : ResolveFunc) (f t : label.Symbol) (rs : List ExchangeRate) :
    ∀ b : BatchExchanges,
      (b.walk rs fn).cell f t =
        (rs.filter (fun r => decide (f = r.from_.Symbol ∧ t = r.to_.Symbol))).foldl
          (stepCell fn) (b.cell f t) := by
  induction rs with
  | nil => intro b; simpa using cell_walk_nil b fn f t
  | cons r rs ih =>
    intro b
    rw [walk_cons, ih, cell_walk_single]
    by_cases h : f = r.from_.Symbol ∧ t = r.to_.Symbol
    · simp [List.filter_cons, h]
    · simp [List.filter_cons, h]

/-! ### The merge engine -/

/-- C1: `BatchExchanges.walk` handles the triples of a batch in order (the first triple,
then the rest on the table it left, resolver calls recorded in that order), and for each
triple `r`: if the cell `(r.from.Symbol, r.to.Symbol)` is empty, `r` is stored there and the
resolver is not called; if the cell holds `curr`, the resolver is called once, as
`fn(curr, r)`, and when it succeeds its result is stored in the cell. -/
theorem walk_handles_triples_in_order (b : BatchExchanges) (fn : ResolveFunc)
    (r : ExchangeRate) (rs : List ExchangeRate) :
    b.walkLog (r :: rs) fn =
        (((b.walkLog [r] fn).1.walkLog rs fn).1,
          (b.walkLog [r] fn).2 ++ ((b.walkLog [r] fn).1.walkLog rs fn).2)
      ∧ (b.cell r.from_.Symbol r.to_.Symbol = none →
          (b.walkLog [r] fn).2 = [] ∧
          (b.walkLog [r] fn).1.cell r.from_.Symbol r.to_.Symbol = some r)
      ∧ (∀ curr, b.cell r.from_.Symbol r.to_.Symbol = some curr →
          (b.walkLog [r] fn).2 = [(curr, r)] ∧
          ∀ next, fn curr r = .ok next →
            (b.walkLog [r] fn).1.cell r.from_.Symbol r.to_.Symbol = some next) := by
  refine ⟨walkLog_cons b r rs fn, ?_, ?_⟩
  · intro hempty
    refine ⟨by rw [log_walk_single, hempty], ?_⟩
    have h := cell_walk_single b r fn r.from_.Symbol r.to_.Symbol
    simp only [BatchExchanges.walk, and_self, if_true, hempty, stepCell] at h
    exact h
  · intro curr hcurr
    refine ⟨by rw [log_walk_single, hcurr], ?_⟩
    intro next hok
    have h := cell_walk_single b r fn r.from_.Symbol r.to_.Symbol
    simp only [BatchExchanges.walk, and_self, if_true, hcurr, stepCell, hok] at h
    exact h

/-- C1, exercised on a fresh table: `sample.hi` goes into its empty cell without a resolver
call, and `sample.lo` then meets the occupant `sample.hi` through the resolver. -/
theorem walk_handles_triples_in_order_witness :
    (BatchExchanges.mk none).cell sample.hi.from_.Symbol sample.hi.to_.Symbol = none
      ∧ ((BatchExchanges.mk none).walkLog [sample.hi] priorResolve).2 = []
      ∧ ((BatchExchanges.mk none).walkLog [sample.hi] priorResolve).1.cell
          sample.hi.from_.Symbol sample.hi.to_.Symbol = some sample.hi
      ∧ ((BatchExchanges.mk none).walkLog [sample.hi, sample.lo] priorResolve).2
          = [(sample.hi, sample.lo)] := by
  have h := walk_handles_triples_in_order (BatchExchanges.mk none) priorResolve sample.hi
    [sample.lo]
  have hnone : (BatchExchanges.mk none).cell sample.hi.from_.Symbol sample.hi.to_.Symbol
      = none := rfl
  obtain ⟨hseq, hempty, -⟩ := h
  obtain ⟨hlog, hcell⟩ := hempty hnone
  refine ⟨hnone, hlog, hcell, ?_⟩
  rw [hseq, hlog, List.nil_append]
  have h2 := walk_handles_triples_in_order
    ((BatchExchanges.mk none).walkLog [sample.hi] priorResolve).1 priorResolve sample.lo []
  exact (h2.2.2 sample.hi hcell).1

/-- C2: when the resolver fails on the occupant `curr` of the cell of `r`, the one-triple
walk leaves the table as it was (the cell still holds `curr`, no cell changes), and the rest
of the batch is processed as if `r` had not been there. -/
theorem walk_drops_unresolvable (b : BatchExchanges) (fn : ResolveFunc) (r : ExchangeRate)
    (rs : List ExchangeRate) (curr : ExchangeRate) (e : String)
    (hcell : b.cell r.from_.Symbol r.to_.Symbol = some curr)
    (herr : fn curr r = .error e) :
    (b.walk [r] fn).cell r.from_.Symbol r.to_.Symbol = some curr
      ∧ (∀ f t, (b.walk [r] fn).cell f t = b.cell f t)
      ∧ b.walk [r] fn = b
      ∧ b.walk (r :: rs) fn = b.walk rs fn := by
  have heq : b.walk [r] fn = b := by
    obtain ⟨items⟩ := b
    cases items with
    | none => simp [BatchExchanges.cell] at hcell
    | some m =>
      simp only [BatchExchanges.cell] at hcell
      cases h1 : mapGet m r.from_.Symbol with
      | none => simp [h1] at hcell
      | some extMap =>
        simp only [h1] at hcell
        simp [BatchExchanges.walk, BatchExchanges.walkLog, BatchExchanges.walkStep,
          BatchExchanges.made, h1, hcell, herr]
  refine ⟨by rw [heq]; exact hcell, fun f t => by rw [heq], heq, ?_⟩
  rw [walk_cons, heq]

/-- C2, exercised: a resolver that never resolves leaves the occupant `sample.hi` in place
when `sample.lo` arrives. -/
theorem walk_drops_unresolvable_witness :
    ((BatchExchanges.mk none).walk [sample.hi] sample.never).cell "GBP" "USD" = some sample.hi
      ∧ (((BatchExchanges.mk none).walk [sample.hi] sample.never).walk [sample.lo]
          sample.never).cell "GBP" "USD" = some sample.hi := by
  have hcell : ((BatchExchanges.mk none).walk [sample.hi] sample.never).cell
      sample.lo.from_.Symbol sample.lo.to_.Symbol = some sample.hi := by decide
  exact ⟨hcell, (walk_drops_unresolvable _ sample.never sample.lo [] sample.hi "unresolvable"
    hcell rfl).1⟩

theorem cell_empty (f t : label.Symbol) : (BatchExchanges.mk none).cell f t = none := rfl

/-- C3: under the priority policy, for two triples `a` and `b` of the same cell with
`a.priority > b.priority`, merging `a` then `b` into an empty table and merging `b` then
`a` into an empty table both leave `a` in the cell, whether the two arrive as two batches
or inside one batch. -/
theorem prior_keeps_higher_in_both_orders (a b : ExchangeRate)
    (hf : a.from_.Symbol = b.from_.Symbol) (ht : a.to_.Symbol = b.to_.Symbol)
    (hp : a.priority > b.priority) :
    (mergePriorFunc (mergePriorFunc ⟨none⟩ [a]) [b]).cell a.from_.Symbol a.to_.Symbol = some a
      ∧ (mergePriorFunc (mergePriorFunc ⟨none⟩ [b]) [a]).cell a.from_.Symbol a.to_.Symbol
          = some a
      ∧ (mergePriorFunc ⟨none⟩ [a, b]).cell a.from_.Symbol a.to_.Symbol = some a
      ∧ (mergePriorFunc ⟨none⟩ [b, a]).cell a.from_.Symbol a.to_.Symbol = some a := by
  have hba : b.priority < a.priority := hp
  have hab : ¬ a.priority < b.priority := not_lt.mpr (le_of_lt hp)
  simp only [mergePriorFunc, cell_walk, cell_empty]
  refine ⟨?_, ?_, ?_, ?_⟩ <;>
    simp [List.filter_cons, hf, ht, stepCell, priorResolve, hba, hab]

/-- C3, exercised on the test scenario GBP→USD with priorities 1 and 0. -/
theorem prior_keeps_higher_in_both_orders_witness :
    (mergePriorFunc (mergePriorFunc ⟨none⟩ [sample.hi]) [sample.lo]).cell "GBP" "USD"
        = some sample.hi
      ∧ (mergePriorFunc (mergePriorFunc ⟨none⟩ [sample.lo]) [sample.hi]).cell "GBP" "USD"
        = some sample.hi :=
  have h := prior_keeps_higher_in_both_orders sample.hi sample.lo rfl rfl (by decide)
  ⟨h.1, h.2.1⟩

/-- C4: under the average policy, when the cell of the incoming triple `next` holds `curr`
and both carry non-empty currency symbols, the cell afterwards holds the triple with rate
`(curr.rate + next.rate) / 2` and with `curr`'s priority, timestamp, from and to; the two
priorities play no role. -/
theorem average_of_occupant_and_incoming (b : BatchExchanges) (curr next : ExchangeRate)
    (hcell : b.cell next.from_.Symbol next.to_.Symbol = some curr)
    (hcurr : curr.from_.Symbol ≠ "" ∧ curr.to_.Symbol ≠ "")
    (hnext : next.from_.Symbol ≠ "" ∧ next.to_.Symbol ≠ "") :
    (mergeAverageFunc b [next]).cell next.from_.Symbol next.to_.Symbol =
      some
        { priority := curr.priority
          time := curr.time
          from_ := curr.from_
          to_ := curr.to_
          rate := (curr.rate + next.rate) / 2 } := by
  simp only [mergeAverageFunc, cell_walk_single, and_self, if_true, hcell, stepCell,
    averageResolve, hcurr.1, hnext.2, or_self, if_false]

/-- C4, exercised: GBP→USD at 3 (priority 1) met by GBP→USD at 5 (priority 0) gives 4. -/
theorem average_of_occupant_and_incoming_witness :
    (mergeAverageFunc (mergeAverageFunc ⟨none⟩ [sample.hi]) [sample.lo]).cell "GBP" "USD" =
      some ⟨1, 10, sample.gbp, sample.usd, (3 + 5) / 2⟩ :=
  average_of_occupant_and_incoming (mergeAverageFunc ⟨none⟩ [sample.hi]) sample.hi sample.lo
    (by decide) (by decide) (by decide)

/-- C5, as stated, fails: a cell occupied by a triple whose from-currency is the zero
value (empty symbol) is overwritten by a later triple for that cell under the race
policy. -/
theorem race_overwrites_empty_symbol_occupant :
    (mergeRaceFunc ⟨none⟩ [sample.anon]).cell "" "USD" = some sample.anon
      ∧ (mergeRaceFunc (mergeRaceFunc ⟨none⟩ [sample.anon]) [sample.anon2]).cell "" "USD"
          = some sample.anon2
      ∧ sample.anon2 ≠ sample.anon := by
  decide

/-- C5 (amended): under the race policy, for every table and every batch, a cell occupied
by a triple whose from-currency symbol is not empty holds the same triple after the
merge. -/
theorem race_keeps_occupant (b : BatchExchanges) (rates : List ExchangeRate)
    (f t : label.Symbol) (curr : ExchangeRate)
    (hcell : b.cell f t = some curr) (hsym : curr.from_.Symbol ≠ "") :
    (mergeRaceFunc b rates).cell f t = some curr := by
  simp only [mergeRaceFunc, cell_walk, hcell]
  generalize rates.filter (fun r => decide (f = r.from_.Symbol ∧ t = r.to_.Symbol)) = hits
  induction hits with
  | nil => rfl
  | cons r rs ih =>
    rw [List.foldl_cons]
    have hstep : stepCell raceResolve (some curr) r = some curr := by
      simp [stepCell, raceResolve, hsym]
    rw [hstep]
    exact ih

/-- C5 (amended), exercised: GBP→USD at 3 stays in its cell when GBP→USD at 5 arrives. -/
theorem race_keeps_occupant_witness :
    (mergeRaceFunc (mergeRaceFunc ⟨none⟩ [sample.hi]) [sample.lo]).cell "GBP" "USD"
      = some sample.hi :=
  race_keeps_occupant (mergeRaceFunc ⟨none⟩ [sample.hi]) [sample.lo] "GBP" "USD" sample.hi
    (by decide) (by decide)

theorem merge_eq_mergerFor (f : MergeFunc) (e : exchanger) :
    (WithMergeFunc f e).merge = mergerFor e.opts.MergeStrategy := rfl

/-- C6 (the code at the failing input): an engine built with `WithMergeFunc sample.keepTable`
has the custom function stored, yet `exchanger.merge` resolves the batch by the race
policy: GBP→USD enters the table, while `sample.keepTable` itself leaves the table empty. -/
theorem merge_ignores_custom_merge_func :
    (New sample.client [WithMergeFunc sample.keepTable]).merger.isSome = true
      ∧ ((New sample.client [WithMergeFunc sample.keepTable]).merge ⟨none⟩
          [sample.hi]).cell "GBP" "USD" = some sample.hi
      ∧ (sample.keepTable ⟨none⟩ [sample.hi]).cell "GBP" "USD" = none := by
  refine ⟨rfl, ?_, rfl⟩
  decide

/-! ### Triangulation in the adapters -/

theorem unitsAt_mapSet (m : List (label.Symbol × ℚ)) (k X : label.Symbol) (v : ℚ) :
    unitsAt (mapSet m k v) X = if X = k then v else unitsAt m X := by
  by_cases h : X = k
  · subst h
    simp [unitsAt, mapGet_mapSet_same]
  · simp [unitsAt, mapGet_mapSet_ne m v h, h]

theorem lastReported_cons (a : anchorRate) (l : List anchorRate) (X : label.Symbol) :
    lastReported (a :: l) X =
      match lastReported l X with
      | some e => some e
      | none => if a.symbol = X then some a else none := by
  simp only [lastReported, List.reverse_cons, List.find?_append]
  cases List.find? (fun e => decide (e.symbol = X)) l.reverse with
  | some e => simp
  | none =>
    by_cases h : a.symbol = X
    · simp [List.find?, h]
    · simp [List.find?, h]

/-- The units map after the first loop of a `decode`: the last entry of the feed for a
symbol decides, a symbol without entry keeps its initial value. -/
theorem unitsAt_foldl (g : ℚ → ℚ) (l : List anchorRate) :
    ∀ (m0 : List (label.Symbol × ℚ)) (X : label.Symbol),
      unitsAt (l.foldl (fun m r => mapSet m r.symbol (g r.rate)) m0) X =
        match lastReported l X with
        | some e => g e.rate
        | none => unitsAt m0 X := by
  induction l with
  | nil => intro m0 X; simp [lastReported]
  | cons a l ih =>
    intro m0 X
    rw [List.foldl_cons, ih, lastReported_cons]
    cases lastReported l X with
    | some e => rfl
    | none =>
      by_cases h : a.symbol = X
      · subst h
        simp [unitsAt_mapSet]
      · have h' : ¬ X = a.symbol := fun hx => h hx.symm
        simp [unitsAt_mapSet, h, h']

theorem unitsAt_anchor (anchor X : label.Symbol) :
    unitsAt [(anchor, 1)] X = if X = anchor then 1 else 0 := by
  by_cases h : X = anchor
  · subst h
    simp [unitsAt, mapGet]
  · have h' : ¬ anchor = X := fun hx => h hx.symm
    simp [unitsAt, mapGet, h, h']

/-- Every triple the nested loop emits comes from two entries with different symbols, both
in the catalog, carries the given date, and has rate `units[to] / units[from]`. -/
theorem mem_crossRates {Currencies : label.Catalog} {units : List (label.Symbol × ℚ)}
    {time : Time} {rates : List anchorRate} {t : provider.ExchangeRate}
    (h : t ∈ crossRates Currencies units time rates) :
    ∃ sym ∈ rates, ∃ sym1 ∈ rates, sym.symbol ≠ sym1.symbol ∧
      Currencies sym.symbol = some t.From ∧ Currencies sym1.symbol = some t.To ∧
      t.Time = time ∧
      t.Rate = unitsAt units t.To.Symbol / unitsAt units t.From.Symbol := by
  simp only [crossRates, crossRate, List.mem_flatMap, List.mem_filterMap] at h
  obtain ⟨sym, hsym, sym1, hsym1, heq⟩ := h
  refine ⟨sym, hsym, sym1, hsym1, ?_⟩
  by_cases hne : sym.symbol ≠ sym1.symbol
  · rw [if_pos hne] at heq
    cases h1 : Currencies sym.symbol with
    | none => simp [h1] at heq
    | some ccy =>
      cases h2 : Currencies sym1.symbol with
      | none => simp [h1, h2] at heq
      | some ccy1 =>
        simp only [h1, h2, Option.some.injEq] at heq
        subst heq
        exact ⟨hne, rfl, rfl, rfl, rfl⟩
  · rw [if_neg hne] at heq
    cases heq

/-- C7, as stated, fails: on the feed "USD at 2" the ECB `decode` keeps `units[USD] = 2`
and emits EUR→USD at 2, where the CAE `decode` has `units[USD] = 1/2`. -/
theorem ecb_decode_does_not_invert :
    unitsAt (ecb.units [(label.EUR, 1)] sample.feed) "USD" = 2
      ∧ unitsAt (cae.units sample.feed) "USD" = 1 / 2
      ∧ ecb.decode sample.catalog [sample.feed] none =
          .ok [⟨7, sample.usd, sample.eur, 1 / 2⟩, ⟨7, sample.eur, sample.usd, 2⟩] := by
  refine ⟨?_, ?_, ?_⟩
  · with_unfolding_all decide
  · with_unfolding_all decide
  · with_unfolding_all rfl

theorem cae_decode_eq (Currencies : label.Catalog) (feed : latestRates) :
    cae.decode Currencies (.ok feed) =
      .ok (triangulate (fun x => 1 / x) label.AED Currencies feed) := rfl

theorem rcb_decode_eq (Currencies : label.Catalog) (feed : latestRates) :
    rcb.decode Currencies (.ok feed) =
      .ok (triangulate (fun x => 1 / x) label.RUB Currencies feed) := rfl

theorem ecb_decode_eq (Currencies : label.Catalog) (feed : latestRates) :
    ecb.decode Currencies [feed] none =
      .ok (triangulate (fun x => x) label.EUR Currencies feed) := by
  simp [ecb.decode, ecb.decodeDay, ecb.units, triangulate]

theorem triangulate_obeysUnits (g : ℚ → ℚ) (anchor : label.Symbol)
    (Currencies : label.Catalog) (feed : latestRates) :
    ObeysUnits (feed.rates.foldl (fun m r => mapSet m r.symbol (g r.rate)) [(anchor, 1)])
      (triangulate g anchor Currencies feed) := by
  intro t ht
  obtain ⟨_, _, _, _, _, _, _, _, hrate⟩ := mem_crossRates ht
  exact hrate

/-- C7 (amended): the CAE and the RCB `decode` build `units[X] = 1 / rate` from the last
entry of the feed for `X`, the ECB `decode` builds `units[X] = rate` without inverting; a
symbol without entry reads `1` if it is the anchor and `0` otherwise; and in all three
every emitted triple A→B carries rate `units[B] / units[A]`. -/
theorem decode_triangulation (Currencies : label.Catalog) (feed : latestRates) :
    ((∀ X, unitsAt (cae.units feed) X =
          match lastReported feed.rates X with
          | some e => 1 / e.rate
          | none => if X = label.AED then 1 else 0)
        ∧ ∃ out, cae.decode Currencies (.ok feed) = .ok out ∧ ObeysUnits (cae.units feed) out)
      ∧ ((∀ X, unitsAt (rcb.units feed) X =
          match lastReported feed.rates X with
          | some e => 1 / e.rate
          | none => if X = label.RUB then 1 else 0)
        ∧ ∃ out, rcb.decode Currencies (.ok feed) = .ok out ∧ ObeysUnits (rcb.units feed) out)
      ∧ ((∀ X, unitsAt (ecb.units [(label.EUR, 1)] feed) X =
          match lastReported feed.rates X with
          | some e => e.rate
          | none => if X = label.EUR then 1 else 0)
        ∧ ∃ out, ecb.decode Currencies [feed] none = .ok out
            ∧ ObeysUnits (ecb.units [(label.EUR, 1)] feed) out) := by
  refine ⟨⟨?_, _, cae_decode_eq Currencies feed, ?_⟩, ⟨?_, _, rcb_decode_eq Currencies feed, ?_⟩,
    ⟨?_, _, ecb_decode_eq Currencies feed, ?_⟩⟩
  · intro X
    rw [cae.units, unitsAt_foldl (fun x => 1 / x), unitsAt_anchor]
  · exact triangulate_obeysUnits (fun x => 1 / x) label.AED Currencies feed
  · intro X
    rw [rcb.units, unitsAt_foldl (fun x => 1 / x), unitsAt_anchor]
  · exact triangulate_obeysUnits (fun x => 1 / x) label.RUB Currencies feed
  · intro X
    rw [ecb.units, unitsAt_foldl (fun x => x), unitsAt_anchor]
  · exact triangulate_obeysUnits (fun x => x) label.EUR Currencies feed

theorem lastReported_some {l : List anchorRate} {X : label.Symbol} {e : anchorRate}
    (h : lastReported l X = some e) : e ∈ l ∧ e.symbol = X := by
  unfold lastReported at h
  have hmem := List.mem_of_find?_eq_some h
  have hp := List.find?_some h
  exact ⟨List.mem_reverse.mp hmem, of_decide_eq_true hp⟩

theorem lastReported_none {l : List anchorRate} {X : label.Symbol}
    (h : lastReported l X = none) : ∀ e ∈ l, e.symbol ≠ X := by
  unfold lastReported at h
  intro e he
  have := List.find?_eq_none.mp h e (List.mem_reverse.mpr he)
  simpa using this

/-- With positive rates in the feed, the unit of the anchor and of every reported symbol is
positive. -/
theorem units_pos (g : ℚ → ℚ) (hg : ∀ x, 0 < x → 0 < g x) (anchor : label.Symbol)
    (l : List anchorRate) (hpos : ∀ e ∈ l, 0 < e.rate) (X : label.Symbol)
    (hX : X ∈ (l ++ [(⟨anchor, 1⟩ : anchorRate)]).map fun e => e.symbol) :
    0 < unitsAt (l.foldl (fun m r => mapSet m r.symbol (g r.rate)) [(anchor, 1)]) X := by
  rw [unitsAt_foldl]
  cases h : lastReported l X with
  | some e => exact hg _ (hpos e (lastReported_some h).1)
  | none =>
    simp only [unitsAt_anchor]
    have hne := lastReported_none h
    simp only [List.map_append, List.map_cons, List.map_nil, List.mem_append, List.mem_map,
      List.mem_singleton] at hX
    rcases hX with ⟨e, he, hes⟩ | hX
    · exact absurd hes (hne e he)
    · simp [hX]

theorem triangulate_reciprocal (g : ℚ → ℚ) (hg : ∀ x, 0 < x → 0 < g x)
    (anchor : label.Symbol) (Currencies : label.Catalog) (feed : latestRates)
    (hpos : ∀ e ∈ feed.rates, 0 < e.rate) :
    Reciprocal Currencies (triangulate g anchor Currencies feed) := by
  intro t1 h1 t2 h2 _ hf ht
  obtain ⟨sym, hsym, sym1, hsym1, _, hc, hc1, _, hr1⟩ := mem_crossRates h1
  obtain ⟨_, _, _, _, _, _, _, _, hr2⟩ := mem_crossRates h2
  refine ⟨?_, ?_⟩
  · rw [hr2, hr1, hf, ht, one_div_div]
  · intro hkey
    rw [hr1]
    apply div_pos
    · apply units_pos g hg anchor feed.rates hpos
      rw [hkey _ _ hc1]
      exact List.mem_map_of_mem _ hsym1
    · apply units_pos g hg anchor feed.rates hpos
      rw [hkey _ _ hc]
      exact List.mem_map_of_mem _ hsym

/-- C8: for every feed with positive reported rates, in the table derived by one adapter
(CAE, RCB, or ECB on a stream carrying the feed) the rate of B→A is `1 / rate(A→B)` for
every two different symbols A and B, in exact arithmetic; the rates are positive when the
catalog is keyed consistently, so the quotient is a genuine inverse. -/
theorem reverse_pair_is_reciprocal (Currencies : label.Catalog) (feed : latestRates)
    (hpos : ∀ e ∈ feed.rates, 0 < e.rate) :
    (∃ out, cae.decode Currencies (.ok feed) = .ok out ∧ Reciprocal Currencies out)
      ∧ (∃ out, rcb.decode Currencies (.ok feed) = .ok out ∧ Reciprocal Currencies out)
      ∧ (∃ out, ecb.decode Currencies [feed] none = .ok out ∧ Reciprocal Currencies out) := by
  have hinv : ∀ x : ℚ, 0 < x → 0 < 1 / x := fun x hx => one_div_pos.mpr hx
  exact ⟨⟨_, cae_decode_eq Currencies feed,
      triangulate_reciprocal _ hinv label.AED Currencies feed hpos⟩,
    ⟨_, rcb_decode_eq Currencies feed,
      triangulate_reciprocal _ hinv label.RUB Currencies feed hpos⟩,
    ⟨_, ecb_decode_eq Currencies feed,
      triangulate_reciprocal _ (fun _ hx => hx) label.EUR Currencies feed hpos⟩⟩

/-- C8, exercised on the feed "USD at 2" of the CAE adapter: AED→USD is 1/2 and USD→AED
is 2. -/
theorem reverse_pair_is_reciprocal_witness :
    (∀ e ∈ sample.feed.rates, 0 < e.rate)
      ∧ ∃ out, cae.decode sample.catalog (.ok sample.feed) = .ok out
          ∧ Reciprocal sample.catalog out
          ∧ out = [⟨7, sample.usd, ⟨"AED", "United Arab Emirates Dirham", 2⟩, 2⟩,
              ⟨7, ⟨"AED", "United Arab Emirates Dirham", 2⟩, sample.usd, 1 / 2⟩] := by
  have hpos : ∀ e ∈ sample.feed.rates, 0 < e.rate := by
    intro e he
    simp only [sample.feed, List.mem_singleton] at he
    subst he
    norm_num
  obtain ⟨out, hout, hrec⟩ := (reverse_pair_is_reciprocal sample.catalog sample.feed hpos).1
  refine ⟨hpos, out, hout, hrec, ?_⟩
  have hval : cae.decode sample.catalog (.ok sample.feed) =
      .ok [⟨7, sample.usd, ⟨"AED", "United Arab Emirates Dirham", 2⟩, 2⟩,
        ⟨7, ⟨"AED", "United Arab Emirates Dirham", 2⟩, sample.usd, 1 / 2⟩] := by
    with_unfolding_all rfl
  rw [hval] at hout
  exact (Except.ok.inj hout).symm

theorem mem_orderedPairs (S : List label.Symbol) (A B : label.Symbol) :
    (A, B) ∈ orderedPairs S ↔ A ∈ S ∧ B ∈ S ∧ A ≠ B := by
  simp only [orderedPairs, List.mem_flatMap, List.mem_map, List.mem_filter, Prod.mk.injEq,
    decide_eq_true_eq]
  constructor
  · rintro ⟨a, ha, b, ⟨hb, hab⟩, rfl, rfl⟩
    exact ⟨ha, hb, hab⟩
  · rintro ⟨ha, hb, hab⟩
    exact ⟨A, ha, B, ⟨hb, hab⟩, rfl, rfl⟩

theorem nodup_orderedPairs (S : List label.Symbol) (hS : S.Nodup) : (orderedPairs S).Nodup := by
  unfold orderedPairs
  rw [List.nodup_flatMap]
  refine ⟨fun a _ => ?_, ?_⟩
  · exact (hS.filter _).map fun b b' h => (Prod.mk.inj h).2
  · refine hS.imp ?_
    intro a₁ a₂ hne
    simp only [Function.onFun, List.disjoint_left, List.mem_map, List.mem_filter]
    rintro ⟨x, y⟩ ⟨b, _, hb⟩ ⟨b', _, hb'⟩
    exact hne ((Prod.mk.inj hb).1.trans (Prod.mk.inj hb').1.symm)

theorem length_orderedPairs (S : List label.Symbol) (hS : S.Nodup) :
    (orderedPairs S).length = S.length * S.length - S.length := by
  have hcard := List.toFinset_card_of_nodup (nodup_orderedPairs S hS)
  have hset : (orderedPairs S).toFinset = S.toFinset.offDiag := by
    ext ⟨A, B⟩
    simp [mem_orderedPairs, Finset.mem_offDiag]
  rw [← hcard, hset, Finset.offDiag_card, List.toFinset_card_of_nodup hS]

/-- For a catalog keyed consistently and entries that are all in the catalog, the pairs of
the triples the nested loop emits are the ordered pairs of different symbols, in loop
order. -/
theorem map_pair_crossRates (Currencies : label.Catalog) (hkey : Currencies.Keyed)
    (units : List (label.Symbol × ℚ)) (time : Time) (R : List anchorRate)
    (hcat : ∀ e ∈ R, (Currencies e.symbol).isSome) :
    (crossRates Currencies units time R).map provider.ExchangeRate.pair =
      orderedPairs (R.map fun e => e.symbol) := by
  have inner : ∀ sym : anchorRate, (Currencies sym.symbol).isSome →
      ∀ R' : List anchorRate, (∀ e ∈ R', (Currencies e.symbol).isSome) →
        (R'.filterMap fun sym1 => crossRate Currencies units time sym sym1).map
            provider.ExchangeRate.pair =
          ((R'.map fun e => e.symbol).filter fun b => decide (sym.symbol ≠ b)).map
            fun b => (sym.symbol, b) := by
    intro sym hsym R'
    obtain ⟨c, hc⟩ := Option.isSome_iff_exists.mp hsym
    induction R' with
    | nil => intro _; rfl
    | cons e tl ih =>
      intro hall
      have htl := ih fun x hx => hall x (List.mem_cons_of_mem _ hx)
      obtain ⟨c1, hc1⟩ := Option.isSome_iff_exists.mp (hall e (List.mem_cons_self _ _))
      by_cases hne : sym.symbol ≠ e.symbol
      · have hstep : crossRate Currencies units time sym e =
            some ⟨time, c, c1, unitsAt units c1.Symbol / unitsAt units c.Symbol⟩ := by
          simp [crossRate, hne, hc, hc1]
        rw [List.filterMap_cons_some hstep]
        simp only [List.map_cons, List.filter_cons, hne, decide_True, if_true, htl,
          provider.ExchangeRate.pair, hkey _ _ hc, hkey _ _ hc1, ne_eq, not_false_eq_true]
      · have hstep : crossRate Currencies units time sym e = none := by
          simp [crossRate, hne]
        rw [List.filterMap_cons_none hstep]
        simp only [List.map_cons, List.filter_cons, hne, decide_False, htl]
        simp
  unfold crossRates orderedPairs
  rw [List.map_flatMap, List.flatMap_map]
  exact List.flatMap_congr fun sym hsym => inner sym (hcat sym hsym) R hcat

/-- In a list whose images under `f` are pairwise different, exactly one element is sent
to a given image. -/
theorem length_filter_eq_one_of_nodup_map {α β : Type} [DecidableEq β] (f : α → β) :
    ∀ l : List α, (l.map f).Nodup → ∀ a : β, a ∈ l.map f →
      (l.filter fun t => decide (f t = a)).length = 1 := by
  intro l
  induction l with
  | nil => intro _ a ha; simp at ha
  | cons x xs ih =>
    intro hnd a ha
    rw [List.map_cons, List.nodup_cons] at hnd
    by_cases hx : f x = a
    · have hnil : (xs.filter fun t => decide (f t = a)) = [] := by
        rw [List.filter_eq_nil_iff]
        intro t ht hta
        apply hnd.1
        rw [hx, ← of_decide_eq_true hta]
        exact List.mem_map_of_mem _ ht
      simp [List.filter_cons, hx, hnil]
    · have ha' : a ∈ xs.map f := by
        rcases List.mem_cons.mp ha with h | h
        · exact absurd h.symm hx
        · exact h
      simp only [List.filter_cons, hx, decide_False]
      exact ih hnd.2 a ha'

theorem triangulate_fullTable (g : ℚ → ℚ) (anchor : label.Symbol)
    (Currencies : label.Catalog) (feed : latestRates) (hkey : Currencies.Keyed)
    (hanchor : (Currencies anchor).isSome)
    (hdistinct : (feed.rates.map fun e => e.symbol).Nodup)
    (hcat : ∀ e ∈ feed.rates, (Currencies e.symbol).isSome)
    (hne : ∀ e ∈ feed.rates, e.symbol ≠ anchor) :
    FullTable anchor feed (triangulate g anchor Currencies feed) := by
  have hS : (feed.rates.map (fun e => e.symbol) ++ [anchor]).Nodup := by
    rw [List.nodup_append]
    refine ⟨hdistinct, List.nodup_singleton _, ?_⟩
    simp only [List.disjoint_left, List.mem_map, List.mem_singleton]
    rintro a ⟨e, he, rfl⟩ hea
    exact hne e he hea
  have hcat' : ∀ e ∈ feed.rates ++ [(⟨anchor, 1⟩ : anchorRate)],
      (Currencies e.symbol).isSome := by
    intro e he
    rcases List.mem_append.mp he with h | h
    · exact hcat e h
    · rw [List.mem_singleton.mp h]; exact hanchor
  have hmap : (triangulate g anchor Currencies feed).map provider.ExchangeRate.pair =
      orderedPairs (feed.rates.map (fun e => e.symbol) ++ [anchor]) := by
    have h := map_pair_crossRates Currencies hkey
      (feed.rates.foldl (fun m r => mapSet m r.symbol (g r.rate)) [(anchor, 1)]) feed.time
      (feed.rates ++ [(⟨anchor, 1⟩ : anchorRate)]) hcat'
    simpa [triangulate] using h
  refine ⟨?_, ?_, ?_⟩
  · have hlen := congrArg List.length hmap
    rw [List.length_map, length_orderedPairs _ hS] at hlen
    rw [hlen]
    simp only [List.length_append, List.length_map, List.length_singleton]
    have hring : (feed.rates.length + 1) * (feed.rates.length + 1) =
        feed.rates.length * (feed.rates.length + 1) + (feed.rates.length + 1) := by ring
    rw [hring, Nat.add_sub_cancel]
  · intro A B hA hB hAB
    have hmem : (A, B) ∈ (triangulate g anchor Currencies feed).map
        provider.ExchangeRate.pair := by
      rw [hmap, mem_orderedPairs]
      exact ⟨hA, hB, hAB⟩
    have hnd : ((triangulate g anchor Currencies feed).map
        provider.ExchangeRate.pair).Nodup := by
      rw [hmap]
      exact nodup_orderedPairs _ hS
    have hone := length_filter_eq_one_of_nodup_map provider.ExchangeRate.pair _ hnd (A, B) hmem
    rw [← hone]
    congr 1
    apply List.filter_congr
    intro t _
    rw [Bool.eq_iff_iff]
    simp only [decide_eq_true_eq, provider.ExchangeRate.pair, Prod.mk.injEq]
  · intro t ht
    obtain ⟨_, _, _, _, _, _, _, htime, _⟩ := mem_crossRates ht
    have hp : t.pair ∈ (triangulate g anchor Currencies feed).map
        provider.ExchangeRate.pair := List.mem_map_of_mem _ ht
    rw [hmap] at hp
    obtain ⟨hA, hB, hAB⟩ := (mem_orderedPairs _ _ _).mp hp
    exact ⟨htime, hAB, hA, hB⟩

/-- C9: for a catalog keyed consistently that holds the anchor, and a feed whose reported
symbols are pairwise distinct, present in the catalog and different from the anchor,
`decode` (CAE, RCB, and ECB on a stream carrying the feed) returns the full pairwise
table: `n * (n + 1)` triples for `n` reported symbols, exactly one for each ordered pair
of different symbols drawn from the reported symbols plus the anchor, each with the
feed's timestamp, none with from = to. -/
theorem decode_full_table (Currencies : label.Catalog) (feed : latestRates)
    (hkey : Currencies.Keyed)
    (hdistinct : (feed.rates.map fun e => e.symbol).Nodup)
    (hcat : ∀ e ∈ feed.rates, (Currencies e.symbol).isSome) :
    ((Currencies label.AED).isSome → (∀ e ∈ feed.rates, e.symbol ≠ label.AED) →
        ∃ out, cae.decode Currencies (.ok feed) = .ok out ∧ FullTable label.AED feed out)
      ∧ ((Currencies label.RUB).isSome → (∀ e ∈ feed.rates, e.symbol ≠ label.RUB) →
        ∃ out, rcb.decode Currencies (.ok feed) = .ok out ∧ FullTable label.RUB feed out)
      ∧ ((Currencies label.EUR).isSome → (∀ e ∈ feed.rates, e.symbol ≠ label.EUR) →
        ∃ out, ecb.decode Currencies [feed] none = .ok out
          ∧ FullTable label.EUR feed out) :=
  ⟨fun ha hne => ⟨_, cae_decode_eq Currencies feed,
      triangulate_fullTable _ label.AED Currencies feed hkey ha hdistinct hcat hne⟩,
    fun ha hne => ⟨_, rcb_decode_eq Currencies feed,
      triangulate_fullTable _ label.RUB Currencies feed hkey ha hdistinct hcat hne⟩,
    fun ha hne => ⟨_, ecb_decode_eq Currencies feed,
      triangulate_fullTable _ label.EUR Currencies feed hkey ha hdistinct hcat hne⟩⟩

theorem sample_catalog_keyed : sample.catalog.Keyed := by
  intro s c h
  simp only [sample.catalog] at h
  split_ifs at h with h1 h2 h3 h4 h5 <;> cases h <;>
    simp_all [sample.usd, sample.gbp, sample.eur]

/-- C9, exercised on the feed "USD at 2" of the RCB adapter: two triples, RUB→USD and
USD→RUB. -/
theorem decode_full_table_witness :
    sample.catalog.Keyed
      ∧ (sample.feed.rates.map fun e => e.symbol).Nodup
      ∧ (∀ e ∈ sample.feed.rates, (sample.catalog e.symbol).isSome)
      ∧ (sample.catalog label.RUB).isSome
      ∧ (∀ e ∈ sample.feed.rates, e.symbol ≠ label.RUB)
      ∧ ∃ out, rcb.decode sample.catalog (.ok sample.feed) = .ok out
          ∧ FullTable label.RUB sample.feed out := by
  have hd : (sample.feed.rates.map fun e => e.symbol).Nodup := by decide
  have hcat : ∀ e ∈ sample.feed.rates, (sample.catalog e.symbol).isSome := by decide
  have hrub : (sample.catalog label.RUB).isSome := by decide
  have hne : ∀ e ∈ sample.feed.rates, e.symbol ≠ label.RUB := by decide
  exact ⟨sample_catalog_keyed, hd, hcat, hrub, hne,
    (decode_full_table sample.catalog sample.feed sample_catalog_keyed hd hcat).2.1 hrub hne⟩

/-! ### Conversion -/

theorem isExchangeableLoop_spec (f t : label.Symbol) (l : List label.Symbol) :
    ∀ res : Exchangeability,
      (isExchangeableLoop f t l res).from_ = (res.from_ || decide (f ∈ l))
        ∧ (isExchangeableLoop f t l res).to_ = (res.to_ || decide (t ∈ l)) := by
  induction l with
  | nil => intro res; simp [isExchangeableLoop]
  | cons symbol rest ih =>
    intro res
    obtain ⟨rf, rt⟩ := res
    have hmf : decide (f ∈ symbol :: rest) = (decide (symbol = f) || decide (f ∈ rest)) := by
      rw [Bool.eq_iff_iff]
      simp only [List.mem_cons, decide_eq_true_eq, Bool.or_eq_true]
      constructor
      · rintro (h | h)
        · exact Or.inl h.symm
        · exact Or.inr h
      · rintro (h | h)
        · exact Or.inl h.symm
        · exact Or.inr h
    have hmt : decide (t ∈ symbol :: rest) = (decide (symbol = t) || decide (t ∈ rest)) := by
      rw [Bool.eq_iff_iff]
      simp only [List.mem_cons, decide_eq_true_eq, Bool.or_eq_true]
      constructor
      · rintro (h | h)
        · exact Or.inl h.symm
        · exact Or.inr h
      · rintro (h | h)
        · exact Or.inl h.symm
        · exact Or.inr h
    rw [hmf, hmt]
    simp only [isExchangeableLoop]
    by_cases hf : symbol = f
    · subst hf
      by_cases ht : symbol = t
      · subst ht
        cases rf <;> cases rt <;> simp [ih]
      · cases rf <;> cases rt <;> simp [ht, ih]
    · by_cases ht : symbol = t
      · subst ht
        cases rf <;> cases rt <;> simp [hf, ih]
      · cases rf <;> cases rt <;> simp [hf, ht, ih]

/-- The flags of `isExchangeable` say whether the two symbols are in the engine's symbol
list. -/
theorem isExchangeable_spec (e : exchanger) (f t : label.Symbol) :
    (e.isExchangeable f t).from_ = decide (f ∈ e.exchangeable)
      ∧ (e.isExchangeable f t).to_ = decide (t ∈ e.exchangeable) := by
  have h := isExchangeableLoop_spec f t e.exchangeable ⟨false, false⟩
  simpa [exchanger.isExchangeable] using h

/-- C10: whenever `From` or `To` is absent from the currency catalog or from the engine's
exchangeable-symbol list (as `verifyExchangeable` leaves it), `Convert` returns an error
that is `ErrCurrencyNotFound` together with the zero-valued response, and the fetch
function, be it the supplied `CacheFn` or the engine's own round, is not invoked. -/
theorem convert_reports_currency_not_found (Currencies : label.Catalog) (e : exchanger)
    (ctx : Context) (param : ConvOpt)
    (habsent : Currencies param.From = none ∨ Currencies param.To = none
      ∨ param.From ∉ e.verifyExchangeable.exchangeable
      ∨ param.To ∉ e.verifyExchangeable.exchangeable) :
    (∃ err, (exchanger.Convert Currencies e ctx param).err = some err
        ∧ err.Is ErrCurrencyNotFound = true)
      ∧ (exchanger.Convert Currencies e ctx param).resp = ConversionResponse.zero
      ∧ (exchanger.Convert Currencies e ctx param).fetchCalls = 0 := by
  obtain ⟨hfrom, hto⟩ := isExchangeable_spec e.verifyExchangeable param.From param.To
  unfold exchanger.Convert
  cases h1 : Currencies param.From with
  | none => exact ⟨⟨_, rfl, by decide⟩, rfl, rfl⟩
  | some fromCurrency =>
    cases h2 : Currencies param.To with
    | none => exact ⟨⟨_, rfl, by decide⟩, rfl, rfl⟩
    | some toCurrency =>
      simp only []
      by_cases hf : param.From ∈ e.verifyExchangeable.exchangeable
      · by_cases ht : param.To ∈ e.verifyExchangeable.exchangeable
        · rcases habsent with h | h | h | h
          · rw [h1] at h; cases h
          · rw [h2] at h; cases h
          · exact absurd hf h
          · exact absurd ht h
        · have hff : (e.verifyExchangeable.isExchangeable param.From param.To).from_ = true := by
            rw [hfrom]; exact decide_eq_true hf
          have htf : (e.verifyExchangeable.isExchangeable param.From param.To).to_ = false := by
            rw [hto]; exact decide_eq_false ht
          simp only [hff, htf, Bool.not_true, Bool.not_false, if_true, Bool.false_eq_true,
            if_false]
          exact ⟨⟨_, rfl, by simp [GoError.Is, ErrCurrencyNotFound]⟩, by simp, by simp⟩
      · have hff : (e.verifyExchangeable.isExchangeable param.From param.To).from_ = false := by
          rw [hfrom]; exact decide_eq_false hf
        simp only [hff, Bool.not_false, if_true]
        exact ⟨⟨_, rfl, by simp [GoError.Is, ErrCurrencyNotFound]⟩, by simp, by simp⟩

/-- C10, exercised: converting USD to EUR on an engine whose only provider declares USD and
GBP fails with the wrapped `ErrCurrencyNotFound` before any fetch. -/
theorem convert_reports_currency_not_found_witness :
    sample.usdToEur.To ∉ sample.engine.verifyExchangeable.exchangeable
      ∧ (exchanger.Convert sample.catalog sample.engine sample.ctx sample.usdToEur).err
          = some (.wrap ErrCurrencyNotFound "EUR")
      ∧ (exchanger.Convert sample.catalog sample.engine sample.ctx sample.usdToEur).fetchCalls
          = 0 := by
  have hto : sample.usdToEur.To ∉ sample.engine.verifyExchangeable.exchangeable := by decide
  have h := convert_reports_currency_not_found sample.catalog sample.engine sample.ctx
    sample.usdToEur (Or.inr (Or.inr (Or.inr hto)))
  exact ⟨hto, by decide, h.2.2⟩

/-- When both symbols pass the two checks, `Convert` invokes the fetch function once and
looks for the first triple of `Result` for the pair. -/
theorem convert_after_checks (Currencies : label.Catalog) (e : exchanger) (ctx : Context)
    (param : ConvOpt) (fromCurrency toCurrency : label.Currency)
    (hfrom : Currencies param.From = some fromCurrency)
    (hto : Currencies param.To = some toCurrency)
    (hfx : param.From ∈ e.verifyExchangeable.exchangeable)
    (htx : param.To ∈ e.verifyExchangeable.exchangeable) :
    exchanger.Convert Currencies e ctx param =
      match ((e.verifyExchangeable.fetchFuncOf param) ctx).Result.find? fun rate =>
          decide (rate.from_.Symbol = param.From ∧ rate.to_.Symbol = param.To) with
      | none =>
        ⟨e.verifyExchangeable,
          { Date := 0, Value := param.Value, From := fromCurrency, To := toCurrency,
            Rate := 0, Amount := 0,
            Info := ((e.verifyExchangeable.fetchFuncOf param) ctx).Info },
          some ErrConversionRate, 1⟩
      | some r =>
        ⟨e.verifyExchangeable,
          { Date := 0, Value := param.Value, From := r.from_, To := r.to_,
            Rate := r.rate, Amount := r.rate * param.Value,
            Info := ((e.verifyExchangeable.fetchFuncOf param) ctx).Info },
          none, 1⟩ := by
  obtain ⟨h1, h2⟩ := isExchangeable_spec e.verifyExchangeable param.From param.To
  have hff : (e.verifyExchangeable.isExchangeable param.From param.To).from_ = true := by
    rw [h1]; exact decide_eq_true hfx
  have htf : (e.verifyExchangeable.isExchangeable param.From param.To).to_ = true := by
    rw [h2]; exact decide_eq_true htx
  unfold exchanger.Convert
  simp only [hfrom, hto, hff, htf, Bool.not_true, Bool.false_eq_true, if_false,
    FetchFunc.invoke, exchanger.fetchFuncOf, Nat.zero_add]

/-- C11: when both symbols are in the catalog and exchangeable but the fetched `Result`
holds no triple with from = `From` and to = `To`, `Convert` returns `ErrConversionRate`
with a response whose `Value` is the requested amount, whose `From` and `To` are the
catalog records of the two symbols, whose `Info` is the fetched status list and whose
`Rate` and `Amount` are zero. -/
theorem convert_without_rate (Currencies : label.Catalog) (e : exchanger) (ctx : Context)
    (param : ConvOpt) (fromCurrency toCurrency : label.Currency)
    (hfrom : Currencies param.From = some fromCurrency)
    (hto : Currencies param.To = some toCurrency)
    (hfx : param.From ∈ e.verifyExchangeable.exchangeable)
    (htx : param.To ∈ e.verifyExchangeable.exchangeable)
    (hnone : ∀ r ∈ ((e.verifyExchangeable.fetchFuncOf param) ctx).Result,
      ¬ (r.from_.Symbol = param.From ∧ r.to_.Symbol = param.To)) :
    (exchanger.Convert Currencies e ctx param).err = some ErrConversionRate
      ∧ (exchanger.Convert Currencies e ctx param).resp =
          { Date := 0, Value := param.Value, From := fromCurrency, To := toCurrency,
            Rate := 0, Amount := 0,
            Info := ((e.verifyExchangeable.fetchFuncOf param) ctx).Info } := by
  have hfind : (((e.verifyExchangeable.fetchFuncOf param) ctx).Result.find? fun rate =>
      decide (rate.from_.Symbol = param.From ∧ rate.to_.Symbol = param.To)) = none := by
    rw [List.find?_eq_none]
    intro r hr
    simpa using hnone r hr
  rw [convert_after_checks Currencies e ctx param fromCurrency toCurrency hfrom hto hfx htx,
    hfind]
  exact ⟨rfl, rfl⟩

/-- C11, exercised: the cached response holds GBP→USD only, so converting USD to GBP
returns `ErrConversionRate` with the unconverted amount. -/
theorem convert_without_rate_witness :
    (exchanger.Convert sample.catalog sample.warm sample.ctx sample.usdToGbp).err
        = some ErrConversionRate
      ∧ (exchanger.Convert sample.catalog sample.warm sample.ctx sample.usdToGbp).resp =
          { Date := 0, Value := 10, From := sample.usd, To := sample.gbp, Rate := 0,
            Amount := 0, Info := [⟨"p", .ProviderRespStatusOK, ""⟩] } :=
  convert_without_rate sample.catalog sample.warm sample.ctx sample.usdToGbp sample.usd
    sample.gbp rfl rfl (by decide) (by decide) (by decide)

/-- C12: when the fetched `Result` holds a triple with from = `From` and to = `To`, and `r`
is the first such triple, `Convert` returns no error and a response with `Rate = r.rate`,
`Amount = Rate × Value`, the requested `Value`, `From` and `To` the currency records of
`r`, and `Info` the fetched status list.  (A `Result` is fetched only after both symbols
have passed the catalog and the exchangeable checks.) -/
theorem convert_with_rate (Currencies : label.Catalog) (e : exchanger) (ctx : Context)
    (param : ConvOpt) (fromCurrency toCurrency : label.Currency) (r : ExchangeRate)
    (hfrom : Currencies param.From = some fromCurrency)
    (hto : Currencies param.To = some toCurrency)
    (hfx : param.From ∈ e.verifyExchangeable.exchangeable)
    (htx : param.To ∈ e.verifyExchangeable.exchangeable)
    (hfirst : (((e.verifyExchangeable.fetchFuncOf param) ctx).Result.find? fun rate =>
      decide (rate.from_.Symbol = param.From ∧ rate.to_.Symbol = param.To)) = some r) :
    (exchanger.Convert Currencies e ctx param).err = none
      ∧ (exchanger.Convert Currencies e ctx param).resp =
          { Date := 0, Value := param.Value, From := r.from_, To := r.to_,
            Rate := r.rate, Amount := r.rate * param.Value,
            Info := ((e.verifyExchangeable.fetchFuncOf param) ctx).Info } := by
  rw [convert_after_checks Currencies e ctx param fromCurrency toCurrency hfrom hto hfx htx,
    hfirst]
  exact ⟨rfl, rfl⟩

/-- C12, exercised: converting 10 GBP to USD with the cached response, which holds GBP→USD
at 3. -/
theorem convert_with_rate_witness :
    (exchanger.Convert sample.catalog sample.warm sample.ctx sample.gbpToUsd).err = none
      ∧ (exchanger.Convert sample.catalog sample.warm sample.ctx sample.gbpToUsd).resp =
          { Date := 0, Value := 10, From := sample.gbp, To := sample.usd, Rate := 3,
            Amount := 3 * 10, Info := [⟨"p", .ProviderRespStatusOK, ""⟩] } :=
  convert_with_rate sample.catalog sample.warm sample.ctx sample.gbpToUsd sample.gbp
    sample.usd sample.hi rfl rfl (by decide) (by decide) (by decide)

/-! ### The response of a round -/

theorem getLatest_expected (e : exchanger) (ctx : Context) :
    (e.getLatest ctx).Expected = e.exchangeable := by
  unfold exchanger.getLatest
  dsimp only
  split <;> rfl

theorem getLatest_unreceived (e : exchanger) (ctx : Context) :
    (e.getLatest ctx).Unreceived =
      e.exchangeable.filter fun symbol => (mapGet (e.roundTable ctx).made symbol).isNone := by
  unfold exchanger.getLatest
  dsimp only
  split <;> rfl

/-- C14: for every engine and every outcome of the round (every behaviour of the providers'
fetches and every interleaving of the provider tasks), in the response of `GetLatest`
`Expected` is exactly the engine's exchangeable-symbol list and every symbol of
`Unreceived` is a symbol of `Expected`. -/
theorem unreceived_within_expected (e : exchanger) (ctx : Context) :
    (e.GetLatest ctx).2.Expected = (e.GetLatest ctx).1.exchangeable
      ∧ (e.GetLatest ctx).1.exchangeable = e.verifyExchangeable.exchangeable
      ∧ ∀ s ∈ (e.GetLatest ctx).2.Unreceived, s ∈ (e.GetLatest ctx).2.Expected := by
  refine ⟨getLatest_expected _ ctx, rfl, ?_⟩
  intro s hs
  simp only [exchanger.GetLatest, getLatest_expected, getLatest_unreceived] at hs ⊢
  exact (List.mem_filter.mp hs).1

/-! ### The exchangeable-symbol cache -/

theorem mem_declared (e : exchanger) (s : label.Symbol) :
    s ∈ e.declared ↔ ∃ p ∈ e.providers, s ∈ p.Source.GetExchangeable := by
  simp [exchanger.declared, List.mem_flatMap]

theorem updateExchangeable_exchangeable (e : exchanger) :
    e.updateExchangeable.exchangeable = e.declared.dedup := rfl

/-- C16: on an engine whose cache has not been computed yet, `GetExchangeable` returns the
union of the registered providers' lists with no symbol repeated: a symbol is in it exactly
when some registered provider declares it, and its length is the number of distinct
symbols the providers declare. -/
theorem getExchangeable_is_union (e : exchanger) (hcold : e.exchangeable = []) :
    (e.GetExchangeable).2.Nodup
      ∧ (∀ s, s ∈ (e.GetExchangeable).2 ↔ ∃ p ∈ e.providers, s ∈ p.Source.GetExchangeable)
      ∧ (e.GetExchangeable).2.length = e.declared.toFinset.card := by
  have hval : (e.GetExchangeable).2 = e.declared.dedup := by
    simp [exchanger.GetExchangeable, exchanger.verifyExchangeable, hcold,
      updateExchangeable_exchangeable]
  rw [hval]
  refine ⟨List.nodup_dedup _, ?_, ?_⟩
  · intro s
    rw [List.mem_dedup, mem_declared]
  · rw [List.card_toFinset]

/-- C16, exercised on the test scenario: providers declaring (RUB, USD) and (RUB, GBP) give
three symbols. -/
theorem getExchangeable_is_union_witness :
    (sample.twoSources.GetExchangeable).2.length = 3
      ∧ (sample.twoSources.GetExchangeable).2.Nodup :=
  have h := getExchangeable_is_union sample.twoSources rfl
  ⟨by decide, h.1⟩

/-! ### The registry -/

theorem sortProviders_ordered (ps : List Provider) :
    (sortProviders ps).Pairwise fun a b => a.prior ≥ b.prior := by
  haveI : IsTotal Provider (fun a b => a.prior ≥ b.prior) :=
    ⟨fun a b => le_total b.prior a.prior⟩
  haveI : IsTrans Provider (fun a b => a.prior ≥ b.prior) :=
    ⟨fun a b c hab hbc => le_trans hbc hab⟩
  exact List.sorted_insertionSort (fun a b => a.prior ≥ b.prior) ps

theorem deleteFirst_sublist (name : String) (ps : List Provider) :
    (deleteFirst name ps).Sublist ps := by
  induction ps with
  | nil => exact List.Sublist.slnil
  | cons p rest ih =>
    unfold deleteFirst
    split
    · exact List.sublist_cons_self p rest
    · exact ih.cons₂ p

theorem delete_sublist (names : List String) :
    ∀ ps : List Provider,
      (names.foldl (fun ps name => deleteFirst name ps) ps).Sublist ps := by
  induction names with
  | nil => intro ps; exact List.Sublist.refl ps
  | cons name rest ih =>
    intro ps
    exact (ih (deleteFirst name ps)).trans (deleteFirst_sublist name ps)

theorem new_ordered (client : BuiltinSources) (opts : List EngineOption) :
    (New client opts).Ordered :=
  sortProviders_ordered _

theorem register_ordered (e : exchanger) (name : String) (source : provider.Source)
    (prior : Prior) : (e.Register name source prior).Ordered :=
  sortProviders_ordered _

theorem changePrior_ordered (e : exchanger) (name : String) (prior : Prior) :
    (e.ChangePrior name prior).Ordered :=
  sortProviders_ordered _

theorem delete_ordered (e : exchanger) (names : List String) (h : e.Ordered) :
    (e.Delete names).Ordered :=
  List.Pairwise.sublist (delete_sublist names e.providers) h

theorem verifyExchangeable_providers (e : exchanger) :
    e.verifyExchangeable.providers = e.providers := by
  unfold exchanger.verifyExchangeable
  split <;> rfl

/-- C20: the provider registry is ordered by non-increasing priority after `New` and after
every `Register`, `ChangePrior` and `Delete` that follows. -/
theorem registry_is_ordered (e : exchanger) (h : e.Reachable) : e.Ordered := by
  induction h with
  | new client opts => exact new_ordered client opts
  | register name source prior _ _ => exact register_ordered _ name source prior
  | changePrior name prior _ _ => exact changePrior_ordered _ name prior
  | delete names _ ih => exact delete_ordered _ names ih
  | verify _ ih =>
    unfold exchanger.Ordered
    rw [verifyExchangeable_providers]
    exact ih

/-- C20, exercised: the built-in registry after raising "ecb" to priority 5 and deleting
"rcb" lists "ecb" (5) before "cae" (2). -/
theorem registry_is_ordered_witness :
    ((((New sample.client []).ChangePrior "ecb" 5).Delete ["rcb"]).providers.map
        fun p => (p.name, p.prior)) = [("ecb", 5), ("cae", 2)]
      ∧ (((New sample.client []).ChangePrior "ecb" 5).Delete ["rcb"]).Ordered :=
  ⟨by decide,
    registry_is_ordered _
      (.delete ["rcb"] (.changePrior "ecb" 5 (.new sample.client [])))⟩

/-- C17 (the code at the failing input): after `GetExchangeable` has filled the cache of a
new engine, `Delete("ecb", "rcb", "cae")` leaves no provider in the registry, yet
`GetExchangeable` still returns the four symbols of the deleted providers. -/
theorem delete_leaves_stale_symbols :
    ((New sample.live []).GetExchangeable).2 = ["AED", "RUB", "USD", "EUR"]
      ∧ (((New sample.live []).GetExchangeable).1.Delete ["ecb", "rcb", "cae"]).providers.length
          = 0
      ∧ (((New sample.live []).GetExchangeable).1.Delete ["ecb", "rcb", "cae"]).declared = []
      ∧ ((((New sample.live []).GetExchangeable).1.Delete
            ["ecb", "rcb", "cae"]).GetExchangeable).2 = ["AED", "RUB", "USD", "EUR"] := by
  decide

/-- `Register` recomputes the cache from the registry it leaves. -/
theorem register_refreshes (e : exchanger) (name : String) (source : provider.Source)
    (prior : Prior) :
    (e.Register name source prior).exchangeable = (e.Register name source prior).declared.dedup :=
  rfl

/-! ### A round of fetches -/

theorem retryLoop_ok {α : Type} (done : Nat → Option String) (f : Nat → Except String α)
    (v : α) :
    ∀ (left k a : Nat), k ≤ left → (∀ j ≤ k, done (a + j) = none) →
      (∀ j < k, ∃ m, f (a + j) = .error m) →
      f (a + k) = .ok v → retryLoop done f a left = .ok v := by
  intro left
  induction left with
  | zero =>
    intro k a hk hlive _ hok
    have hk0 : k = 0 := Nat.le_zero.mp hk
    subst hk0
    have hd : done a = none := by simpa using hlive 0 (Nat.le_refl 0)
    have h0 : f a = .ok v := by simpa using hok
    simp only [retryLoop, hd, h0]
  | succ left ih =>
    intro k a hk hlive hfail hok
    have hd : done a = none := by simpa using hlive 0 (Nat.zero_le _)
    cases k with
    | zero =>
      have h0 : f a = .ok v := by simpa using hok
      simp only [retryLoop, hd, h0]
    | succ k =>
      obtain ⟨m, hm⟩ := hfail 0 (Nat.succ_pos k)
      have hm' : f a = .error m := by simpa using hm
      simp only [retryLoop, hd, hm']
      apply ih k (a + 1) (Nat.le_of_succ_le_succ hk)
      · intro j hj
        have := hlive (j + 1) (Nat.succ_le_succ hj)
        rwa [Nat.add_assoc, Nat.add_comm 1 j]
      · intro j hj
        have := hfail (j + 1) (Nat.succ_lt_succ hj)
        rwa [Nat.add_assoc, Nat.add_comm 1 j]
      · rwa [Nat.add_assoc, Nat.add_comm 1 k]

theorem retryLoop_error {α : Type} (done : Nat → Option String)
    (f : Nat → Except String α) :
    ∀ (left a : Nat), (∀ j ≤ left, done (a + j) = none) →
      (∀ j ≤ left, ∃ m, f (a + j) = .error m) →
      retryLoop done f a left = f (a + left) := by
  intro left
  induction left with
  | zero =>
    intro a hlive _
    have hd : done a = none := by simpa using hlive 0 (Nat.le_refl 0)
    simp [retryLoop, hd]
  | succ left ih =>
    intro a hlive hfail
    have hd : done a = none := by simpa using hlive 0 (Nat.zero_le _)
    obtain ⟨m, hm⟩ := hfail 0 (Nat.zero_le _)
    have hm' : f a = .error m := by simpa using hm
    simp only [retryLoop, hd, hm']
    rw [ih (a + 1)]
    · rw [Nat.add_assoc, Nat.add_comm 1 left]
    · intro j hj
      have := hlive (j + 1) (Nat.succ_le_succ hj)
      rwa [Nat.add_assoc, Nat.add_comm 1 j]
    · intro j hj
      have := hfail (j + 1) (Nat.succ_le_succ hj)
      rwa [Nat.add_assoc, Nat.add_comm 1 j]

/-- When the context is seen done before attempt `k`, the attempts before it having failed,
the loop ends with the error of the context. -/
theorem retryLoop_done {α : Type} (done : Nat → Option String) (f : Nat → Except String α)
    (msg : String) :
    ∀ (left k a : Nat), k ≤ left → (∀ j < k, done (a + j) = none) →
      (∀ j < k, ∃ m, f (a + j) = .error m) →
      done (a + k) = some msg → retryLoop done f a left = .error msg := by
  intro left
  induction left with
  | zero =>
    intro k a hk _ _ hdone
    have hk0 : k = 0 := Nat.le_zero.mp hk
    subst hk0
    have hd : done a = some msg := by simpa using hdone
    simp only [retryLoop, hd]
  | succ left ih =>
    intro k a hk hlive hfail hdone
    cases k with
    | zero =>
      have hd : done a = some msg := by simpa using hdone
      simp only [retryLoop, hd]
    | succ k =>
      have hd : done a = none := by simpa using hlive 0 (Nat.succ_pos k)
      obtain ⟨m, hm⟩ := hfail 0 (Nat.succ_pos k)
      have hm' : f a = .error m := by simpa using hm
      simp only [retryLoop, hd, hm']
      apply ih k (a + 1) (Nat.le_of_succ_le_succ hk)
      · intro j hj
        have := hlive (j + 1) (Nat.succ_lt_succ hj)
        rwa [Nat.add_assoc, Nat.add_comm 1 j]
      · intro j hj
        have := hfail (j + 1) (Nat.succ_lt_succ hj)
        rwa [Nat.add_assoc, Nat.add_comm 1 j]
      · rwa [Nat.add_assoc, Nat.add_comm 1 k]

/-- A provider whose `k`-th fetch is the first to succeed, within the allowed retries and
with the context live up to that attempt, ends with the expanded rates of that fetch. -/
theorem fetchOne_ok (e : exchanger) (done : Nat → Option String) (p : Provider) (k : Nat)
    (rates : List provider.ExchangeRate) (hk : k ≤ e.opts.RetryNum)
    (hlive : ∀ j ≤ k, done j = none)
    (hfail : ∀ j < k, ∃ m, p.Source.FetchLatest j = .error m)
    (hok : p.Source.FetchLatest k = .ok rates) :
    e.fetchOne done p = .ok (e.expandRates p rates) := by
  unfold exchanger.fetchOne
  apply retryLoop_ok _ _ _ e.opts.RetryNum k 0 hk
  · intro j hj
    rw [Nat.zero_add]
    exact hlive j hj
  · intro j hj
    obtain ⟨m, hm⟩ := hfail j hj
    exact ⟨"fetch latest: " ++ m, by simp [hm]⟩
  · simp [hok]

/-- A provider whose fetch fails on every allowed attempt, the context staying live, ends
with the message of the last error. -/
theorem fetchOne_error (e : exchanger) (done : Nat → Option String) (p : Provider)
    (msg : String) (hlive : ∀ j ≤ e.opts.RetryNum, done j = none)
    (hfail : ∀ j ≤ e.opts.RetryNum, ∃ m, p.Source.FetchLatest j = .error m)
    (hlast : p.Source.FetchLatest e.opts.RetryNum = .error msg) :
    e.fetchOne done p = .error ("fetch latest: " ++ msg) := by
  unfold exchanger.fetchOne
  rw [retryLoop_error _ _ e.opts.RetryNum 0]
  · simp [hlast]
  · intro j hj
    rw [Nat.zero_add]
    exact hlive j hj
  · intro j hj
    obtain ⟨m, hm⟩ := hfail j hj
    exact ⟨"fetch latest: " ++ m, by simp [hm]⟩

/-- A provider whose fetches fail until the context is seen done ends with the error of the
context. -/
theorem fetchOne_done (e : exchanger) (done : Nat → Option String) (p : Provider) (k : Nat)
    (msg : String) (hk : k ≤ e.opts.RetryNum) (hlive : ∀ j < k, done j = none)
    (hfail : ∀ j < k, ∃ m, p.Source.FetchLatest j = .error m)
    (hdone : done k = some msg) :
    e.fetchOne done p = .error msg := by
  unfold exchanger.fetchOne
  apply retryLoop_done _ _ _ e.opts.RetryNum k 0 hk
  · intro j hj
    rw [Nat.zero_add]
    exact hlive j hj
  · intro j hj
    obtain ⟨m, hm⟩ := hfail j hj
    exact ⟨"fetch latest: " ++ m, by simp [hm]⟩
  · rw [Nat.zero_add]
    exact hdone

theorem length_filterMap_range_get? {α β : Type} (g : Nat → α → β) (ps : List α) :
    ((List.range ps.length).filterMap fun i => (ps.get? i).map (g i)).length
      = ps.length := by
  induction ps using List.reverseRecOn with
  | nil => rfl
  | append_singleton ps a ih =>
    rw [List.length_append, List.length_singleton, List.range_succ, List.filterMap_append,
      List.length_append]
    have hcongr : ((List.range ps.length).filterMap fun i =>
        ((ps ++ [a]).get? i).map (g i))
        = (List.range ps.length).filterMap fun i => (ps.get? i).map (g i) := by
      apply List.filterMap_congr
      intro i hi
      have hlt : i < ps.length := List.mem_range.mp hi
      simp [List.getElem?_append_left hlt]
    rw [hcongr, ih]
    simp

theorem map_eq_filterMap_range {α β : Type} (f : α → β) (ps : List α) :
    (List.range ps.length).filterMap (fun i => (ps.get? i).map f) = ps.map f := by
  induction ps using List.reverseRecOn with
  | nil => rfl
  | append_singleton ps a ih =>
    rw [List.length_append, List.length_singleton, List.range_succ, List.filterMap_append,
      List.map_append]
    congr 1
    · rw [← ih]
      apply List.filterMap_congr
      intro i hi
      have hlt : i < ps.length := List.mem_range.mp hi
      simp [List.getElem?_append_left hlt]
    · simp

theorem getLatest_info (e : exchanger) (ctx : Context) :
    (e.getLatest ctx).Info =
      ctx.reportOrder.filterMap fun i =>
        (e.providers.get? i).map (e.report (ctx.done i)) := by
  unfold exchanger.getLatest
  dsimp only
  split <;> rfl

/-- The table of a round is the merge of the successful providers' batches, and of nothing
else. -/
theorem roundTable_eq_foldl (e : exchanger) (ctx : Context) :
    e.roundTable ctx = (e.successes ctx).foldl e.merge ⟨none⟩ := by
  unfold exchanger.roundTable exchanger.successes
  generalize (BatchExchanges.mk none) = b
  induction ctx.mergeOrder generalizing b with
  | nil => rfl
  | cons i rest ih =>
    rw [List.foldl_cons]
    cases hp : e.taskRates ctx i with
    | none =>
      rw [List.filterMap_cons_none hp]
      exact ih b
    | some expanded =>
      rw [List.filterMap_cons_some hp, List.foldl_cons]
      exact ih (e.merge b expanded)

theorem taskRates_eq_bind (e : exchanger) (ctx : Context) (i : Nat) :
    e.taskRates ctx i =
      (e.providers.get? i).bind fun p => (e.fetchOne (ctx.done i) p).toOption := by
  unfold exchanger.taskRates
  cases e.providers.get? i <;> rfl

theorem report_name (e : exchanger) (done : Nat → Option String) (p : Provider) :
    (e.report done p).Name = p.name := by
  unfold exchanger.report
  cases e.fetchOne done p <;> rfl

/-- Every provider task ends in one of two ways: reported OK with no message and a batch
handed to the merge, or reported Failed with a message and nothing handed to the merge. -/
theorem report_cases (e : exchanger) (ctx : Context) (i : Nat) (p : Provider)
    (hp : e.providers.get? i = some p) :
    (e.report (ctx.done i) p = ⟨p.name, .ProviderRespStatusOK, ""⟩
        ∧ ∃ batch, e.taskRates ctx i = some batch)
      ∨ (∃ msg, e.report (ctx.done i) p = ⟨p.name, .ProviderRespStatusFailed, msg⟩
        ∧ e.taskRates ctx i = none) := by
  unfold exchanger.taskRates exchanger.report
  simp only [hp]
  cases e.fetchOne (ctx.done i) p with
  | ok batch => exact Or.inl ⟨rfl, batch, rfl⟩
  | error msg => exact Or.inr ⟨msg, rfl, rfl⟩

/-- C13: a round over `n` registered providers, in which every provider task obtains the
table lock and appends its report once, returns exactly `n` status reports, one per
provider task and carrying the provider's name.  Every task ends either reported OK with an
empty error message and its expanded triples handed to the merge, or reported Failed with a
message and nothing handed to the merge.  A provider whose fetch succeeds (at the first
attempt or at a retry, the context being live up to that attempt) is reported OK and its
triples are merged; a provider whose fetch fails on every allowed attempt is reported Failed
with the message of the last error; a provider whose fetches fail until the context is seen
done is reported Failed with the message of the context's error.  The table of the round is
the merge of the batches of the successful tasks, each once, and of nothing else; the report
of a task depends on that task alone. -/
theorem round_reports_every_provider (e : exchanger) (ctx : Context)
    (hmerge : ctx.mergeOrder.Perm (List.range e.providers.length))
    (hreport : ctx.reportOrder.Perm (List.range e.providers.length)) :
    (e.getLatest ctx).Info.length = e.providers.length
      ∧ (e.getLatest ctx).Info.Perm
          ((List.range e.providers.length).filterMap fun i =>
            (e.providers.get? i).map (e.report (ctx.done i)))
      ∧ ((e.getLatest ctx).Info.map fun r => r.Name).Perm (e.providers.map fun p => p.name)
      ∧ (∀ i p, e.providers.get? i = some p →
          (e.report (ctx.done i) p = ⟨p.name, .ProviderRespStatusOK, ""⟩
              ∧ ∃ batch, e.taskRates ctx i = some batch)
            ∨ (∃ msg, e.report (ctx.done i) p = ⟨p.name, .ProviderRespStatusFailed, msg⟩
              ∧ e.taskRates ctx i = none))
      ∧ (∀ i p, e.providers.get? i = some p →
          ∀ (k : Nat) (rates : List provider.ExchangeRate),
          k ≤ e.opts.RetryNum → (∀ j ≤ k, ctx.done i j = none) →
          (∀ j < k, ∃ m, p.Source.FetchLatest j = .error m) →
          p.Source.FetchLatest k = .ok rates →
            e.report (ctx.done i) p = ⟨p.name, .ProviderRespStatusOK, ""⟩
              ∧ e.taskRates ctx i = some (e.expandRates p rates))
      ∧ (∀ i p, e.providers.get? i = some p → ∀ msg : String,
          (∀ j ≤ e.opts.RetryNum, ctx.done i j = none) →
          (∀ j ≤ e.opts.RetryNum, ∃ m, p.Source.FetchLatest j = .error m) →
          p.Source.FetchLatest e.opts.RetryNum = .error msg →
            e.report (ctx.done i) p
                = ⟨p.name, .ProviderRespStatusFailed, "fetch latest: " ++ msg⟩
              ∧ e.taskRates ctx i = none)
      ∧ (∀ i p, e.providers.get? i = some p → ∀ (k : Nat) (msg : String),
          k ≤ e.opts.RetryNum → (∀ j < k, ctx.done i j = none) →
          (∀ j < k, ∃ m, p.Source.FetchLatest j = .error m) →
          ctx.done i k = some msg →
            e.report (ctx.done i) p = ⟨p.name, .ProviderRespStatusFailed, msg⟩
              ∧ e.taskRates ctx i = none)
      ∧ e.roundTable ctx = (e.successes ctx).foldl e.merge ⟨none⟩
      ∧ (e.successes ctx).Perm
          ((List.range e.providers.length).filterMap (e.taskRates ctx)) := by
  have hinfo : (e.getLatest ctx).Info.Perm
      ((List.range e.providers.length).filterMap fun i =>
        (e.providers.get? i).map (e.report (ctx.done i))) := by
    rw [getLatest_info]
    exact hreport.filterMap _
  have hnames : ((e.getLatest ctx).Info.map fun r => r.Name).Perm
      (e.providers.map fun p => p.name) := by
    refine (hinfo.map _).trans ?_
    rw [List.map_filterMap, ← map_eq_filterMap_range (fun p => p.name) e.providers]
    apply List.Perm.of_eq
    apply List.filterMap_congr
    intro i _
    cases e.providers.get? i with
    | none => rfl
    | some p => simp [report_name]
  refine ⟨?_, hinfo, hnames, report_cases e ctx, ?_, ?_, ?_, roundTable_eq_foldl e ctx,
    hmerge.filterMap _⟩
  · rw [hinfo.length_eq]
    exact length_filterMap_range_get? (fun i => e.report (ctx.done i)) e.providers
  · intro i p hp k rates hk hlive hfail hok
    have h := fetchOne_ok e (ctx.done i) p k rates hk hlive hfail hok
    exact ⟨by simp only [exchanger.report, h],
      by simp only [exchanger.taskRates, hp, h, Except.toOption]⟩
  · intro i p hp msg hlive hfail hlast
    have h := fetchOne_error e (ctx.done i) p msg hlive hfail hlast
    exact ⟨by simp only [exchanger.report, h],
      by simp only [exchanger.taskRates, hp, h, Except.toOption]⟩
  · intro i p hp k msg hk hlive hfail hdone
    have h := fetchOne_done e (ctx.done i) p k msg hk hlive hfail hdone
    exact ⟨by simp only [exchanger.report, h],
      by simp only [exchanger.taskRates, hp, h, Except.toOption]⟩

/-- C13, exercised: "good" fails once and succeeds on its retry, "bad" is down; the reports
arrive in the order bad, good, and the table holds the triple of "good" only.  In the round
`sample.hurried` the deadline passes while "good" waits for its retry: "good" is reported
Failed with the context's error and nothing is merged. -/
theorem round_reports_every_provider_witness :
    (sample.mixed.getLatest sample.round).Info =
        [⟨"bad", .ProviderRespStatusFailed, "fetch latest: down"⟩,
          ⟨"good", .ProviderRespStatusOK, ""⟩]
      ∧ (sample.mixed.getLatest sample.round).Info.length = sample.mixed.providers.length
      ∧ sample.mixed.roundTable sample.round =
          (sample.mixed.successes sample.round).foldl sample.mixed.merge ⟨none⟩
      ∧ sample.mixed.successes sample.round = [[⟨1, 10, sample.gbp, sample.usd, 3⟩]]
      ∧ (sample.mixed.getLatest sample.hurried).Info =
          [⟨"bad", .ProviderRespStatusFailed, "fetch latest: down"⟩,
            ⟨"good", .ProviderRespStatusFailed, "context deadline exceeded"⟩]
      ∧ (sample.mixed.getLatest sample.hurried).Info.length = sample.mixed.providers.length
      ∧ sample.mixed.successes sample.hurried = [] := by
  have h := round_reports_every_provider sample.mixed sample.round (by decide) (by decide)
  have h2 := round_reports_every_provider sample.mixed sample.hurried (by decide) (by decide)
  exact ⟨by decide, h.1, h.2.2.2.2.2.2.2.1, by decide, by decide, h2.1, by decide⟩

/-! ### What a round leaves unreceived -/

section maps

variable {V : Type}

theorem mem_mapSet {m : List (label.Symbol × V)} {k : label.Symbol} {v : V}
    {x : label.Symbol × V} (h : x ∈ mapSet m k v) : x = (k, v) ∨ x ∈ m := by
  induction m with
  | nil => simp only [mapSet, List.mem_singleton] at h; exact Or.inl h
  | cons hd tl ih =>
    obtain ⟨k', v'⟩ := hd
    unfold mapSet at h
    split at h
    · rcases List.mem_cons.mp h with h | h
      · exact Or.inl h
      · exact Or.inr (List.mem_cons_of_mem _ h)
    · rcases List.mem_cons.mp h with h | h
      · exact Or.inr (h ▸ List.mem_cons_self _ _)
      · rcases ih h with h | h
        · exact Or.inl h
        · exact Or.inr (List.mem_cons_of_mem _ h)

theorem mapSet_ne_nil (m : List (label.Symbol × V)) (k : label.Symbol) (v : V) :
    mapSet m k v ≠ [] := by
  cases m with
  | nil => simp [mapSet]
  | cons hd tl =>
    obtain ⟨k', v'⟩ := hd
    unfold mapSet
    split <;> simp

theorem mem_of_mapGet {m : List (label.Symbol × V)} {k : label.Symbol} {v : V}
    (h : mapGet m k = some v) : (k, v) ∈ m := by
  induction m with
  | nil => simp [mapGet] at h
  | cons hd tl ih =>
    obtain ⟨k', v'⟩ := hd
    unfold mapGet at h
    split at h
    · rename_i hk
      cases h
      subst hk
      exact List.mem_cons_self _ _
    · exact List.mem_cons_of_mem _ (ih h)

theorem mapGet_eq_none_iff (m : List (label.Symbol × V)) (k : label.Symbol) :
    mapGet m k = none ↔ ∀ x ∈ m, x.1 ≠ k := by
  induction m with
  | nil => simp [mapGet]
  | cons hd tl ih =>
    obtain ⟨k', v'⟩ := hd
    unfold mapGet
    by_cases hk : k' = k
    · simp [hk]
    · simp [hk, ih]

end maps

theorem wellKeyed_walkStep (fn : ResolveFunc) (hfn : KeepsPair fn) (st : OuterItems × CallLog)
    (r : ExchangeRate) (h : WellKeyed st.1) :
    WellKeyed (BatchExchanges.walkStep fn st r).1 := by
  have key : ∀ (inner : InnerItems) (x : ExchangeRate),
      (∀ kv ∈ inner, kv.2.from_.Symbol = r.from_.Symbol ∧ kv.2.to_.Symbol = kv.1) →
      x.from_.Symbol = r.from_.Symbol → x.to_.Symbol = r.to_.Symbol →
      WellKeyed (mapSet st.1 r.from_.Symbol (mapSet inner r.to_.Symbol x)) := by
    intro inner x hinner hxf hxt entry hentry
    rcases mem_mapSet hentry with he | he
    · subst he
      refine ⟨mapSet_ne_nil _ _ _, ?_⟩
      intro kv hkv
      rcases mem_mapSet hkv with hk | hk
      · subst hk
        exact ⟨hxf, hxt⟩
      · exact hinner kv hk
    · exact h entry he
  unfold BatchExchanges.walkStep
  dsimp only
  cases h1 : mapGet st.1 r.from_.Symbol with
  | none =>
    dsimp only
    exact key [] r (fun kv hkv => by cases hkv) rfl rfl
  | some extMap =>
    have hext := (h _ (mem_of_mapGet h1)).2
    dsimp only
    cases h2 : mapGet extMap r.to_.Symbol with
    | none =>
      dsimp only
      exact key extMap r hext rfl rfl
    | some curr =>
      dsimp only
      cases h3 : fn curr r with
      | error m => exact h
      | ok next =>
        dsimp only
        have hcurr := hext _ (mem_of_mapGet h2)
        obtain ⟨hnf, hnt⟩ := hfn curr r next h3 hcurr.1 hcurr.2
        exact key extMap next hext hnf hnt

theorem wellKeyed_walk (fn : ResolveFunc) (hfn : KeepsPair fn) (rates : List ExchangeRate) :
    ∀ b : BatchExchanges, WellKeyed b.made → WellKeyed (b.walk rates fn).made := by
  have hfold : ∀ (rs : List ExchangeRate) (st : OuterItems × CallLog), WellKeyed st.1 →
      WellKeyed (rs.foldl (BatchExchanges.walkStep fn) st).1 := by
    intro rs
    induction rs with
    | nil => intro st h; exact h
    | cons r rs ih =>
      intro st h
      exact ih _ (wellKeyed_walkStep fn hfn st r h)
  intro b hb
  exact hfold rates (b.made, []) hb

theorem keepsPair_race : KeepsPair raceResolve := by
  intro curr r next h hf ht
  unfold raceResolve at h
  split at h
  · cases h; exact ⟨hf, ht⟩
  · split at h
    · cases h; exact ⟨rfl, rfl⟩
    · cases h

theorem keepsPair_average : KeepsPair averageResolve := by
  intro curr r next h hf ht
  unfold averageResolve at h
  split at h
  · cases h
  · cases h; exact ⟨hf, ht⟩

theorem keepsPair_prior : KeepsPair priorResolve := by
  intro curr r next h hf ht
  unfold priorResolve at h
  split at h
  · cases h; exact ⟨rfl, rfl⟩
  · cases h; exact ⟨hf, ht⟩

theorem wellKeyed_merge (e : exchanger) (b : BatchExchanges) (rates : List ExchangeRate)
    (hb : WellKeyed b.made) : WellKeyed (e.merge b rates).made := by
  unfold exchanger.merge mergerFor
  dsimp only
  split_ifs
  · exact wellKeyed_walk _ keepsPair_race rates b hb
  · exact wellKeyed_walk _ keepsPair_average rates b hb
  · exact wellKeyed_walk _ keepsPair_prior rates b hb
  · exact wellKeyed_walk _ keepsPair_race rates b hb

theorem wellKeyed_roundTable (e : exchanger) (ctx : Context) :
    WellKeyed (e.roundTable ctx).made := by
  rw [roundTable_eq_foldl]
  have hfold : ∀ (bs : List (List ExchangeRate)) (b : BatchExchanges), WellKeyed b.made →
      WellKeyed (bs.foldl e.merge b).made := by
    intro bs
    induction bs with
    | nil => intro b h; exact h
    | cons rates bs ih =>
      intro b h
      exact ih _ (wellKeyed_merge e b rates h)
  exact hfold _ _ (fun entry hentry => by cases hentry)

/-- In a well-keyed table a symbol is missing among the outer keys exactly when no
flattened triple has it as its from-symbol. -/
theorem outer_key_missing_iff (b : BatchExchanges) (hb : WellKeyed b.made) (s : label.Symbol) :
    mapGet b.made s = none ↔ ∀ r ∈ b.flatten, r.from_.Symbol ≠ s := by
  rw [mapGet_eq_none_iff]
  unfold BatchExchanges.flatten
  constructor
  · intro h r hr
    obtain ⟨entry, hentry, hr'⟩ := List.mem_flatMap.mp hr
    obtain ⟨kv, hkv, rfl⟩ := List.mem_map.mp hr'
    rw [((hb entry hentry).2 kv hkv).1]
    exact h entry hentry
  · intro h entry hentry hkey
    obtain ⟨hne, hin⟩ := hb entry hentry
    obtain ⟨kv, hkv⟩ := List.exists_mem_of_ne_nil _ hne
    apply h kv.2
    · exact List.mem_flatMap.mpr ⟨entry, hentry, List.mem_map.mpr ⟨kv, hkv, rfl⟩⟩
    · rw [(hin kv hkv).1, hkey]

theorem getLatest_result (e : exchanger) (ctx : Context) :
    (e.getLatest ctx).Result = (e.roundTable ctx).flatten := by
  unfold exchanger.getLatest
  dsimp only
  split
  · rename_i h
    simp [BatchExchanges.flatten, BatchExchanges.made, h]
  · rfl

/-- C15, as stated, fails: in the round of `sample.mixed` the only triple is GBP→USD, so
USD occurs in `Result` as a to-currency, and still USD is reported in `Unreceived`. -/
theorem unreceived_ignores_to_symbols :
    (sample.mixed.GetLatest sample.round).2.Result = [⟨1, 10, sample.gbp, sample.usd, 3⟩]
      ∧ (sample.mixed.GetLatest sample.round).2.Expected = ["GBP", "USD"]
      ∧ (sample.mixed.GetLatest sample.round).2.Unreceived = ["USD"] := by
  decide

/-- C15 (amended): in the response of `GetLatest`, a symbol is in `Unreceived` exactly when
it is in `Expected` and no triple of `Result` has it as its from-currency. -/
theorem unreceived_iff_no_from (e : exchanger) (ctx : Context) (s : label.Symbol) :
    s ∈ (e.GetLatest ctx).2.Unreceived ↔
      s ∈ (e.GetLatest ctx).2.Expected
        ∧ ∀ r ∈ (e.GetLatest ctx).2.Result, r.from_.Symbol ≠ s := by
  simp only [exchanger.GetLatest, getLatest_unreceived, getLatest_expected, getLatest_result,
    List.mem_filter, Option.isNone_iff_eq_none]
  rw [outer_key_missing_iff _ (wellKeyed_roundTable _ ctx)]

/-! ### Sequences of batches -/

/-- A sequence of batches seen from one cell: the triples addressed to the cell act on it
through `stepCell`, batch after batch. -/
theorem cell_foldl_walk (fn : ResolveFunc) (f t : label.Symbol)
    (bs : List (List ExchangeRate)) :
    ∀ b : BatchExchanges,
      (bs.foldl (fun acc rates => acc.walk rates fn) b).cell f t =
        (hitsOf f t bs.flatten).foldl (stepCell fn) (b.cell f t) := by
  induction bs with
  | nil => intro b; rfl
  | cons rates bs ih =>
    intro b
    rw [List.foldl_cons, ih, cell_walk, List.flatten_cons]
    simp only [hitsOf, List.filter_append, List.foldl_append]

theorem cell_mergeAll (fn : ResolveFunc) (f t : label.Symbol)
    (bs : List (List ExchangeRate)) :
    (mergeAll (fun batch rates => batch.walk rates fn) bs).cell f t =
      (hitsOf f t bs.flatten).foldl (stepCell fn) none :=
  cell_foldl_walk fn f t bs ⟨none⟩

theorem stepCell_prior (curr r : ExchangeRate) :
    stepCell priorResolve (some curr) r =
      some (if curr.priority < r.priority then r else curr) := by
  by_cases h : curr.priority < r.priority
  · simp [stepCell, priorResolve, h]
  · simp [stepCell, priorResolve, h]

/-- Under the priority resolver a cell that starts with `c` and then meets the triples `l`
ends with the earliest triple of maximal priority among `c :: l`. -/
theorem prior_fold_some (l : List ExchangeRate) :
    ∀ c : ExchangeRate, ∃ x pre post,
      l.foldl (stepCell priorResolve) (some c) = some x ∧ c :: l = pre ++ x :: post
        ∧ (∀ y ∈ pre, y.priority < x.priority) ∧ (∀ y ∈ post, y.priority ≤ x.priority) := by
  induction l with
  | nil =>
    intro c
    exact ⟨c, [], [], rfl, rfl, fun y hy => (by cases hy), fun y hy => (by cases hy)⟩
  | cons r l ih =>
    intro c
    rw [List.foldl_cons, stepCell_prior]
    by_cases hlt : c.priority < r.priority
    · rw [if_pos hlt]
      obtain ⟨x, pre, post, hx, hsplit, hpre, hpost⟩ := ih r
      refine ⟨x, c :: pre, post, hx, by rw [hsplit]; rfl, ?_, hpost⟩
      intro y hy
      have hrx : r.priority ≤ x.priority := by
        cases pre with
        | nil =>
          have : r = x := List.head_eq_of_cons_eq hsplit
          rw [this]
        | cons q pre' =>
          have hq : r = q := List.head_eq_of_cons_eq hsplit
          exact le_of_lt (hpre r (by rw [hq]; exact List.mem_cons_self _ _))
      rcases List.mem_cons.mp hy with h | h
      · rw [h]; exact lt_of_lt_of_le hlt hrx
      · exact hpre y h
    · rw [if_neg hlt]
      have hrc : r.priority ≤ c.priority := not_lt.mp hlt
      obtain ⟨x, pre, post, hx, hsplit, hpre, hpost⟩ := ih c
      cases pre with
      | nil =>
        have hcx : c = x := List.head_eq_of_cons_eq hsplit
        have hl : l = post := List.tail_eq_of_cons_eq hsplit
        refine ⟨x, [], r :: post, hx, by rw [← hcx, ← hl]; rfl, fun y hy => (by cases hy), ?_⟩
        intro y hy
        rcases List.mem_cons.mp hy with h | h
        · rw [h, ← hcx]; exact hrc
        · exact hpost y h
      | cons q pre' =>
        have hcq : c = q := List.head_eq_of_cons_eq hsplit
        have hl : l = pre' ++ x :: post := List.tail_eq_of_cons_eq hsplit
        have hcx : c.priority < x.priority :=
          hpre c (by rw [hcq]; exact List.mem_cons_self _ _)
        refine ⟨x, c :: r :: pre', post, hx, by rw [hl]; rfl, ?_, hpost⟩
        intro y hy
        rcases List.mem_cons.mp hy with h | h
        · rw [h]; exact hcx
        · rcases List.mem_cons.mp h with h | h
          · rw [h]; exact lt_of_le_of_lt hrc hcx
          · exact hpre y (List.mem_cons_of_mem _ h)

/-- Under the priority resolver an empty cell that meets the triples `l` stays empty when
`l` is empty and otherwise ends with the earliest triple of maximal priority in `l`. -/
theorem prior_fold_none (l : List ExchangeRate) :
    (l = [] ∧ l.foldl (stepCell priorResolve) none = none)
      ∨ ∃ x pre post, l.foldl (stepCell priorResolve) none = some x ∧ l = pre ++ x :: post
          ∧ (∀ y ∈ pre, y.priority < x.priority) ∧ (∀ y ∈ post, y.priority ≤ x.priority) := by
  cases l with
  | nil => exact Or.inl ⟨rfl, rfl⟩
  | cons r l => exact Or.inr (prior_fold_some l r)

/-- C18: under the priority policy, after merging any sequence of batches into an empty
table, a cell is occupied exactly when some triple was presented for it, and then it holds
the earliest-merged triple among those of maximal priority: every triple presented before
it has a strictly lower priority, every triple presented after it has a priority that is
not higher.  Merging one more triple replaces the occupant only when the triple's
priority is strictly higher. -/
theorem prior_cell_holds_earliest_of_max (bs : List (List ExchangeRate))
    (f t : label.Symbol) :
    ((mergeAll mergePriorFunc bs).cell f t = none ↔ hitsOf f t bs.flatten = [])
      ∧ (∀ x, (mergeAll mergePriorFunc bs).cell f t = some x →
          ∃ pre post, hitsOf f t bs.flatten = pre ++ x :: post
            ∧ (∀ y ∈ pre, y.priority < x.priority)
            ∧ (∀ y ∈ post, y.priority ≤ x.priority))
      ∧ (∀ (b : BatchExchanges) (r curr : ExchangeRate),
          b.cell r.from_.Symbol r.to_.Symbol = some curr →
            (mergePriorFunc b [r]).cell r.from_.Symbol r.to_.Symbol =
              some (if curr.priority < r.priority then r else curr)) := by
  have hcell : (mergeAll mergePriorFunc bs).cell f t =
      (hitsOf f t bs.flatten).foldl (stepCell priorResolve) none :=
    cell_mergeAll priorResolve f t bs
  refine ⟨?_, ?_, ?_⟩
  · rw [hcell]
    rcases prior_fold_none (hitsOf f t bs.flatten) with ⟨h1, h2⟩ | ⟨x, pre, post, hx, hs, _⟩
    · simp [h1, h2]
    · rw [hx, hs]
      simp
  · intro x hx
    rw [hcell] at hx
    rcases prior_fold_none (hitsOf f t bs.flatten) with ⟨_, h2⟩ | ⟨z, pre, post, hz, hs, hp, hq⟩
    · rw [h2] at hx; cases hx
    · rw [hz] at hx
      cases hx
      exact ⟨pre, post, hs, hp, hq⟩
  · intro b r curr hcurr
    rw [mergePriorFunc, cell_walk_single]
    simp only [and_self, if_true, hcurr, stepCell_prior]

/-- C18, exercised: of the batches (lo), (hi), (hi2) with priorities 0, 1, 1 the cell
GBP→USD keeps `sample.hi`, the earlier of the two triples of priority 1. -/
theorem prior_cell_holds_earliest_of_max_witness :
    (mergeAll mergePriorFunc [[sample.lo], [sample.hi], [sample.hi2]]).cell "GBP" "USD"
        = some sample.hi
      ∧ ∃ pre post,
          hitsOf "GBP" "USD" [[sample.lo], [sample.hi], [sample.hi2]].flatten
            = pre ++ sample.hi :: post
          ∧ (∀ y ∈ pre, y.priority < sample.hi.priority)
          ∧ (∀ y ∈ post, y.priority ≤ sample.hi.priority) := by
  have hcell : (mergeAll mergePriorFunc [[sample.lo], [sample.hi], [sample.hi2]]).cell
      "GBP" "USD" = some sample.hi := by decide
  exact ⟨hcell,
    (prior_cell_holds_earliest_of_max [[sample.lo], [sample.hi], [sample.hi2]] "GBP"
      "USD").2.1 sample.hi hcell⟩

/-- What the priority resolver leaves in an empty cell after the triples `l`: a triple of
maximal priority, and the first of `l` with that priority. -/
theorem prior_best_spec {l : List ExchangeRate} {x : ExchangeRate}
    (h : l.foldl (stepCell priorResolve) none = some x) :
    (∀ y ∈ l, y.priority ≤ x.priority)
      ∧ l.find? (fun y => decide (y.priority = x.priority)) = some x := by
  rcases prior_fold_none l with ⟨_, h2⟩ | ⟨z, pre, post, hz, hs, hp, hq⟩
  · rw [h2] at h; cases h
  · rw [hz] at h
    cases h
    refine ⟨?_, ?_⟩
    · intro y hy
      rw [hs] at hy
      rcases List.mem_append.mp hy with h1 | h1
      · exact le_of_lt (hp y h1)
      · rcases List.mem_cons.mp h1 with h2 | h2
        · rw [h2]
        · exact hq y h2
    · have hnone : pre.find? (fun y => decide (y.priority = x.priority)) = none := by
        rw [List.find?_eq_none]
        intro y hy
        simpa using ne_of_lt (hp y hy)
      rw [hs, List.find?_append, hnone]
      simp

theorem prior_best_unique {l : List ExchangeRate} {x : ExchangeRate}
    (hmax : ∀ y ∈ l, y.priority ≤ x.priority)
    (hfirst : l.find? (fun y => decide (y.priority = x.priority)) = some x) :
    l.foldl (stepCell priorResolve) none = some x := by
  have hx : x ∈ l := List.mem_of_find?_eq_some hfirst
  rcases prior_fold_none l with ⟨h1, _⟩ | ⟨z, pre, post, hz, hs, hp, hq⟩
  · rw [h1] at hx; cases hx
  · obtain ⟨hzmax, hzfirst⟩ := prior_best_spec hz
    have hzl : z ∈ l := by rw [hs]; simp
    have heq : z.priority = x.priority := le_antisymm (hmax z hzl) (hzmax x hx)
    rw [heq, hfirst] at hzfirst
    rw [hz, Option.some.inj hzfirst]

/-- Where at most one element of a list answers, the first answer does not depend on the
order of the list. -/
theorem findSome?_perm {α β : Type} (f : α → Option β) {l l' : List α} (h : l.Perm l') :
    l.Pairwise (fun a b => f a = none ∨ f b = none) → l.findSome? f = l'.findSome? f := by
  have hsymm : ∀ {a b : α}, (f a = none ∨ f b = none) → (f b = none ∨ f a = none) :=
    fun h => h.symm
  induction h with
  | nil => intro _; rfl
  | cons a _ ih =>
    intro hp
    rw [List.findSome?_cons, List.findSome?_cons, ih (List.pairwise_cons.mp hp).2]
  | swap a b l =>
    intro hp
    have hab := (List.pairwise_cons.mp hp).1 a (List.mem_cons_self _ _)
    simp only [List.findSome?_cons]
    rcases hab with hb | ha
    · rw [hb]
    · rw [ha]
  | trans h1 _ ih1 ih2 =>
    intro hp
    rw [ih1 hp, ih2 ((h1.pairwise_iff hsymm).mp hp)]

theorem hitsOf_flatten (f t : label.Symbol) (bs : List (List ExchangeRate)) :
    hitsOf f t bs.flatten = (bs.map (hitsOf f t)).flatten := by
  unfold hitsOf
  rw [List.filter_flatten]

/-- Under the priority policy, when different batches carry different priorities, every
cell is the same whatever the order of the batches. -/
theorem prior_order_independent (bs bs' : List (List ExchangeRate)) (hperm : bs.Perm bs')
    (hdist : bs.Pairwise CrossDistinct) (f t : label.Symbol) :
    (mergeAll mergePriorFunc bs').cell f t = (mergeAll mergePriorFunc bs).cell f t := by
  have hc : ∀ l : List (List ExchangeRate), (mergeAll mergePriorFunc l).cell f t =
      (hitsOf f t l.flatten).foldl (stepCell priorResolve) none :=
    fun l => cell_mergeAll priorResolve f t l
  rw [hc, hc]
  have hflat : (hitsOf f t bs.flatten).Perm (hitsOf f t bs'.flatten) := by
    rw [hitsOf_flatten, hitsOf_flatten]
    exact (hperm.map _).flatten
  cases hres : (hitsOf f t bs.flatten).foldl (stepCell priorResolve) none with
  | none =>
    rcases prior_fold_none (hitsOf f t bs.flatten) with ⟨h1, _⟩ | ⟨z, _, _, hz, _⟩
    · have h' : hitsOf f t bs'.flatten = [] := by
        rw [h1] at hflat
        exact List.perm_nil.mp hflat.symm
      rw [h']
      rfl
    · rw [hz] at hres; cases hres
  | some x =>
    obtain ⟨hmax, hfirst⟩ := prior_best_spec hres
    apply prior_best_unique
    · intro y hy
      exact hmax y (hflat.symm.subset hy)
    · rw [hitsOf_flatten, List.find?_flatten] at hfirst ⊢
      rw [← hfirst]
      symm
      apply findSome?_perm _ (hperm.map _)
      rw [List.pairwise_map]
      refine hdist.imp ?_
      intro b1 b2 hcross
      by_contra hboth
      push_neg at hboth
      obtain ⟨y1, h1⟩ := Option.ne_none_iff_exists'.mp hboth.1
      obtain ⟨y2, h2⟩ := Option.ne_none_iff_exists'.mp hboth.2
      have hy1 : y1 ∈ b1 := (List.mem_filter.mp (List.mem_of_find?_eq_some h1)).1
      have hy2 : y2 ∈ b2 := (List.mem_filter.mp (List.mem_of_find?_eq_some h2)).1
      have hp1 : y1.priority = x.priority := by simpa using List.find?_some h1
      have hp2 : y2.priority = x.priority := by simpa using List.find?_some h2
      exact hcross y1 hy1 y2 hy2 (hp1.trans hp2.symm)

theorem stepCell_average {f t : label.Symbol} (hf : f ≠ "") (ht : t ≠ "")
    {a b : ExchangeRate} (ha : f = a.from_.Symbol) (hb : t = b.to_.Symbol) :
    stepCell averageResolve (some a) b =
      some ⟨a.priority, a.time, a.from_, a.to_, (a.rate + b.rate) / 2⟩ := by
  have h1 : ¬ a.from_.Symbol = "" := fun h => hf (ha.trans h)
  have h2 : ¬ b.to_.Symbol = "" := fun h => ht (hb.trans h)
  simp [stepCell, averageResolve, h1, h2]

/-- Under the average policy two batches that each hold at most one triple for a cell with
non-empty symbols give that cell the same rate in both orders. -/
theorem average_rate_of_two (A B : List ExchangeRate) (f t : label.Symbol) (hf : f ≠ "")
    (ht : t ≠ "") (hA : (hitsOf f t A).length ≤ 1) (hB : (hitsOf f t B).length ≤ 1) :
    ((mergeAll mergeAverageFunc [A, B]).cell f t).map (fun r => r.rate) =
      ((mergeAll mergeAverageFunc [B, A]).cell f t).map (fun r => r.rate) := by
  have hc : ∀ l : List (List ExchangeRate), (mergeAll mergeAverageFunc l).cell f t =
      (hitsOf f t l.flatten).foldl (stepCell averageResolve) none :=
    fun l => cell_mergeAll averageResolve f t l
  have hmem : ∀ (L : List ExchangeRate) (x : ExchangeRate), x ∈ hitsOf f t L →
      f = x.from_.Symbol ∧ t = x.to_.Symbol := by
    intro L x hx
    simpa using (List.mem_filter.mp hx).2
  have hAB : hitsOf f t [A, B].flatten = hitsOf f t A ++ hitsOf f t B := by
    simp [hitsOf]
  have hBA : hitsOf f t [B, A].flatten = hitsOf f t B ++ hitsOf f t A := by
    simp [hitsOf]
  rw [hc, hc, hAB, hBA]
  match hha : hitsOf f t A, hhb : hitsOf f t B with
  | [], [] => rfl
  | [a], [] => rfl
  | [], [b] => rfl
  | [a], [b] =>
    have ha := hmem A a (by rw [hha]; exact List.mem_singleton_self a)
    have hb := hmem B b (by rw [hhb]; exact List.mem_singleton_self b)
    have e1 : stepCell averageResolve (some a) b = _ := stepCell_average hf ht ha.1 hb.2
    have e2 : stepCell averageResolve (some b) a = _ := stepCell_average hf ht hb.1 ha.2
    have l1 : ([a] ++ [b]).foldl (stepCell averageResolve) none =
        stepCell averageResolve (some a) b := rfl
    have l2 : ([b] ++ [a]).foldl (stepCell averageResolve) none =
        stepCell averageResolve (some b) a := rfl
    rw [l1, l2, e1, e2]
    simp only [Option.map_some', add_comm]
  | _ :: _ :: _, _ => rw [hha] at hA; simp at hA
  | _, _ :: _ :: _ => rw [hhb] at hB; simp at hB

/-- C19, as stated, fails.  Priority policy: two batches of equal priority leave the one
merged first in the cell.  Average policy: two batches leave the same rate but the
timestamp and priority of the one merged first, and three batches leave different rates
(13/2 and 5) in opposite orders. -/
theorem merge_order_matters :
    (mergeAll mergePriorFunc [[sample.hi], [sample.hi2]]).cell "GBP" "USD" = some sample.hi
      ∧ (mergeAll mergePriorFunc [[sample.hi2], [sample.hi]]).cell "GBP" "USD"
          = some sample.hi2
      ∧ (mergeAll mergeAverageFunc [[sample.hi], [sample.lo]]).cell "GBP" "USD"
          = some ⟨1, 10, sample.gbp, sample.usd, 4⟩
      ∧ (mergeAll mergeAverageFunc [[sample.lo], [sample.hi]]).cell "GBP" "USD"
          = some ⟨0, 20, sample.gbp, sample.usd, 4⟩
      ∧ (mergeAll mergeAverageFunc [[sample.hi], [sample.lo], [sample.top]]).cell "GBP" "USD"
          = some ⟨1, 10, sample.gbp, sample.usd, 13 / 2⟩
      ∧ (mergeAll mergeAverageFunc [[sample.top], [sample.lo], [sample.hi]]).cell "GBP" "USD"
          = some ⟨2, 40, sample.gbp, sample.usd, 5⟩ := by
  refine ⟨by decide, by decide, ?_, ?_, ?_, ?_⟩ <;> with_unfolding_all decide

/-- C19 (amended): under the priority policy, when no two different batches carry a common
priority, every cell of the table obtained by merging the batches into an empty table is
the same for every order of the batches.  Under the average policy, two batches that each
hold at most one triple for a cell with non-empty symbols give that cell the same rate in
both orders. -/
theorem merge_order_independent_cases :
    (∀ bs bs' : List (List ExchangeRate), bs.Perm bs' → bs.Pairwise CrossDistinct →
        ∀ f t, (mergeAll mergePriorFunc bs').cell f t = (mergeAll mergePriorFunc bs).cell f t)
      ∧ (∀ (A B : List ExchangeRate) (f t : label.Symbol), f ≠ "" → t ≠ "" →
          (hitsOf f t A).length ≤ 1 → (hitsOf f t B).length ≤ 1 →
          ((mergeAll mergeAverageFunc [A, B]).cell f t).map (fun r => r.rate) =
            ((mergeAll mergeAverageFunc [B, A]).cell f t).map (fun r => r.rate)) :=
  ⟨fun bs bs' hperm hdist f t => prior_order_independent bs bs' hperm hdist f t,
    fun A B f t hf ht hA hB => average_rate_of_two A B f t hf ht hA hB⟩

/-- C19 (amended), exercised: the batches (lo), (hi), (top) carry the priorities 0, 1, 2;
the reversed order leaves the same triple in GBP→USD.  The batches (hi) and (lo) average
to the same rate in both orders. -/
theorem merge_order_independent_cases_witness :
    [[sample.lo], [sample.hi], [sample.top]].Perm [[sample.top], [sample.hi], [sample.lo]]
      ∧ [[sample.lo], [sample.hi], [sample.top]].Pairwise CrossDistinct
      ∧ (mergeAll mergePriorFunc [[sample.top], [sample.hi], [sample.lo]]).cell "GBP" "USD"
          = (mergeAll mergePriorFunc [[sample.lo], [sample.hi], [sample.top]]).cell "GBP" "USD"
      ∧ ((mergeAll mergeAverageFunc [[sample.hi], [sample.lo]]).cell "GBP" "USD").map
            (fun r => r.rate)
          = ((mergeAll mergeAverageFunc [[sample.lo], [sample.hi]]).cell "GBP" "USD").map
            (fun r => r.rate) := by
  have hperm : [[sample.lo], [sample.hi], [sample.top]].Perm
      [[sample.top], [sample.hi], [sample.lo]] := by decide
  have hdist : [[sample.lo], [sample.hi], [sample.top]].Pairwise CrossDistinct := by
    simp [CrossDistinct, sample.lo, sample.hi, sample.top]
  exact ⟨hperm, hdist,
    merge_order_independent_cases.1 _ _ hperm hdist "GBP" "USD",
    merge_order_independent_cases.2 [sample.hi] [sample.lo] "GBP" "USD" (by decide)
      (by decide) (by decide) (by decide)⟩

/-! ### Deleting providers -/

theorem filter_deleteFirst (name : String) (q : Provider → Bool)
    (hq : ∀ p : Provider, p.name = name → q p = false) (ps : List Provider) :
    (deleteFirst name ps).filter q = ps.filter q := by
  induction ps with
  | nil => rfl
  | cons p rest ih =>
    unfold deleteFirst
    by_cases hp : p.name = name
    · simp [hp, hq p hp]
    · simp only [hp, if_false, List.filter_cons, ih]

theorem filter_foldl_deleteFirst (q : Provider → Bool) (names : List String)
    (hq : ∀ n ∈ names, ∀ p : Provider, p.name = n → q p = false) :
    ∀ ps : List Provider,
      (names.foldl (fun ps name => deleteFirst name ps) ps).filter q = ps.filter q := by
  induction names with
  | nil => intro ps; rfl
  | cons n rest ih =>
    intro ps
    rw [List.foldl_cons,
      ih (fun m hm => hq m (List.mem_cons_of_mem _ hm)) (deleteFirst n ps),
      filter_deleteFirst n q (hq n (List.mem_cons_self _ _))]

/-- Where no two providers share a name, `deleteFirst` leaves no provider of that name. -/
theorem deleteFirst_removes (name : String) (ps : List Provider)
    (hnd : (ps.map fun p => p.name).Nodup) :
    ∀ p ∈ deleteFirst name ps, p.name ≠ name := by
  induction ps with
  | nil => intro p hp; cases hp
  | cons a rest ih =>
    rw [List.map_cons, List.nodup_cons] at hnd
    unfold deleteFirst
    by_cases ha : a.name = name
    · simp only [ha, if_true]
      intro p hp hpn
      exact hnd.1 (List.mem_map.mpr ⟨p, hp, by rw [hpn, ha]⟩)
    · simp only [ha, if_false]
      intro p hp
      rcases List.mem_cons.mp hp with h | h
      · rw [h]; exact ha
      · exact ih hnd.2 p h

/-- Where no two providers share a name, `Delete` leaves no provider with a deleted name. -/
theorem delete_removes_of_unique_names (names : List String) :
    ∀ ps : List Provider, (ps.map fun p => p.name).Nodup →
      ∀ p ∈ names.foldl (fun ps name => deleteFirst name ps) ps, p.name ∉ names := by
  induction names with
  | nil => intro ps _ p _ h; cases h
  | cons n rest ih =>
    intro ps hnd p hp
    rw [List.foldl_cons] at hp
    have hsub := deleteFirst_sublist n ps
    have hnd1 : ((deleteFirst n ps).map fun p => p.name).Nodup :=
      (hsub.map fun p => p.name).nodup hnd
    intro hmem
    rcases List.mem_cons.mp hmem with h | h
    · exact deleteFirst_removes n ps hnd p ((delete_sublist rest (deleteFirst n ps)).subset hp) h
    · exact ih (deleteFirst n ps) hnd1 p hp h

/-- C21: `Delete` removes only the first provider of each name. In the registry
`sample.twice`, where the name "ecb" occurs twice, `Delete("ecb")` leaves the providers
"cae", "rcb" and "ecb": a provider with a deleted name remains. -/
theorem delete_leaves_second_provider_of_name :
    ((sample.twice.Delete ["ecb"]).providers.map fun p => p.name) = ["cae", "rcb", "ecb"]
      ∧ (∃ p ∈ (sample.twice.Delete ["ecb"]).providers, p.name ∈ ["ecb"]) := by
  refine ⟨by decide, ?_⟩
  have h : ((sample.twice.Delete ["ecb"]).providers.map fun p => p.name)
      = ["cae", "rcb", "ecb"] := by decide
  have hm : "ecb" ∈ ((sample.twice.Delete ["ecb"]).providers.map fun p => p.name) := by
    rw [h]; decide
  obtain ⟨p, hp, hn⟩ := List.mem_map.mp hm
  exact ⟨p, hp, by rw [hn]; decide⟩

/-- C27: `Delete` keeps every provider whose name does not occur in `names`: the providers
with such names are the same records in the same order before and after, the remaining
registry is a sublist of the old one, and no other field of the engine changes. -/
theorem delete_keeps_other_providers (e : exchanger) (names : List String) :
    ((e.Delete names).providers.filter fun p => decide (p.name ∉ names))
        = (e.providers.filter fun p => decide (p.name ∉ names))
      ∧ (e.Delete names).providers.Sublist e.providers
      ∧ (e.Delete names).opts = e.opts
      ∧ (e.Delete names).exchangeable = e.exchangeable
      ∧ (e.Delete names).merger = e.merger := by
  refine ⟨?_, delete_sublist names e.providers, rfl, rfl, rfl⟩
  exact filter_foldl_deleteFirst (fun p => decide (p.name ∉ names)) names
    (fun n hn p hp => by simp [hp, hn]) e.providers

/-! ### Triangles of rates -/

theorem triangulate_triangular (g : ℚ → ℚ) (hg : ∀ x, 0 < x → 0 < g x)
    (anchor : label.Symbol) (Currencies : label.Catalog) (hkey : Currencies.Keyed)
    (feed : latestRates) (hpos : ∀ e ∈ feed.rates, 0 < e.rate) :
    Triangular (triangulate g anchor Currencies feed) := by
  intro t1 h1 t2 h2 t3 h3 h21 h31 h32
  obtain ⟨_, _, sym1, hsym1, _, _, hc1, _, hr1⟩ := mem_crossRates h1
  obtain ⟨_, _, _, _, _, _, _, _, hr2⟩ := mem_crossRates h2
  obtain ⟨_, _, _, _, _, _, _, _, hr3⟩ := mem_crossRates h3
  have hmid : 0 < unitsAt
      (feed.rates.foldl (fun m r => mapSet m r.symbol (g r.rate)) [(anchor, 1)])
      t1.To.Symbol := by
    apply units_pos g hg anchor feed.rates hpos
    rw [hkey _ _ hc1]
    exact List.mem_map_of_mem _ hsym1
  have key : ∀ a b c : ℚ, 0 < a → (a / b) * (c / a) = c / b := by
    intro a b c ha
    rw [div_mul_div_comm, mul_comm a c, mul_div_mul_right _ _ ha.ne']
  rw [hr1, hr2, hr3, h21, h31, h32]
  exact key _ _ _ hmid

/-- C28: for every feed with positive reported rates, the table derived by one adapter
(CAE, RCB, or ECB on a stream carrying the feed) from a consistently keyed catalog admits
no triangular arbitrage: for triples A→B, B→C and A→C of the table,
rate(A→B) · rate(B→C) = rate(A→C) in exact arithmetic. -/
theorem decode_admits_no_arbitrage (Currencies : label.Catalog) (feed : latestRates)
    (hkey : Currencies.Keyed) (hpos : ∀ e ∈ feed.rates, 0 < e.rate) :
    (∃ out, cae.decode Currencies (.ok feed) = .ok out ∧ Triangular out)
      ∧ (∃ out, rcb.decode Currencies (.ok feed) = .ok out ∧ Triangular out)
      ∧ (∃ out, ecb.decode Currencies [feed] none = .ok out ∧ Triangular out) := by
  have hinv : ∀ x : ℚ, 0 < x → 0 < 1 / x := fun x hx => one_div_pos.mpr hx
  exact ⟨⟨_, cae_decode_eq Currencies feed,
      triangulate_triangular _ hinv label.AED Currencies hkey feed hpos⟩,
    ⟨_, rcb_decode_eq Currencies feed,
      triangulate_triangular _ hinv label.RUB Currencies hkey feed hpos⟩,
    ⟨_, ecb_decode_eq Currencies feed,
      triangulate_triangular _ (fun _ hx => hx) label.EUR Currencies hkey feed hpos⟩⟩

/-- C28, exercised on the feed "USD at 2, GBP at 4" of the CAE adapter: the table holds
USD→GBP at 1/2, GBP→AED at 4 and USD→AED at 2, and 1/2 · 4 = 2. -/
theorem decode_admits_no_arbitrage_witness :
    sample.catalog.Keyed
      ∧ (∀ e ∈ sample.feed2.rates, 0 < e.rate)
      ∧ ∃ out, cae.decode sample.catalog (.ok sample.feed2) = .ok out
          ∧ Triangular out
          ∧ (⟨7, sample.usd, sample.gbp, 1 / 2⟩ : provider.ExchangeRate) ∈ out
          ∧ (⟨7, sample.gbp, ⟨"AED", "United Arab Emirates Dirham", 2⟩, 4⟩ :
              provider.ExchangeRate) ∈ out
          ∧ (⟨7, sample.usd, ⟨"AED", "United Arab Emirates Dirham", 2⟩, 2⟩ :
              provider.ExchangeRate) ∈ out := by
  have hpos : ∀ e ∈ sample.feed2.rates, 0 < e.rate := by
    intro e he
    simp only [sample.feed2, List.mem_cons, List.mem_singleton, List.not_mem_nil,
      or_false] at he
    rcases he with he | he <;> subst he <;> norm_num
  obtain ⟨out, hout, htri⟩ :=
    (decode_admits_no_arbitrage sample.catalog sample.feed2 sample_catalog_keyed hpos).1
  have hval : cae.decode sample.catalog (.ok sample.feed2) =
      .ok [⟨7, sample.usd, sample.gbp, 1 / 2⟩,
        ⟨7, sample.usd, ⟨"AED", "United Arab Emirates Dirham", 2⟩, 2⟩,
        ⟨7, sample.gbp, sample.usd, 2⟩,
        ⟨7, sample.gbp, ⟨"AED", "United Arab Emirates Dirham", 2⟩, 4⟩,
        ⟨7, ⟨"AED", "United Arab Emirates Dirham", 2⟩, sample.usd, 1 / 2⟩,
        ⟨7, ⟨"AED", "United Arab Emirates Dirham", 2⟩, sample.gbp, 1 / 4⟩] := by
    with_unfolding_all rfl
  rw [hval] at hout
  have ho := Except.ok.inj hout
  subst ho
  exact ⟨sample_catalog_keyed, hpos, _, hval, htri, by simp, by simp, by simp⟩

/-! ### One triple per cell -/

theorem keys_mapSet {V : Type} (m : List (label.Symbol × V)) (k : label.Symbol) (v : V) :
    (mapSet m k v).map Prod.fst =
      if k ∈ m.map Prod.fst then m.map Prod.fst else m.map Prod.fst ++ [k] := by
  induction m with
  | nil => simp [mapSet]
  | cons hd tl ih =>
    obtain ⟨k', v'⟩ := hd
    unfold mapSet
    by_cases h : k' = k
    · subst h; simp
    · have h' : k ≠ k' := fun e => h e.symm
      simp only [h, if_false, List.map_cons, ih, List.mem_cons, h', false_or]
      split_ifs <;> simp

theorem nodup_keys_mapSet {V : Type} (m : List (label.Symbol × V)) (k : label.Symbol) (v : V)
    (h : (m.map Prod.fst).Nodup) : ((mapSet m k v).map Prod.fst).Nodup := by
  rw [keys_mapSet]
  split_ifs with hk
  · exact h
  · rw [List.nodup_append]
    refine ⟨h, List.nodup_singleton k, ?_⟩
    intro a ha ha'
    rw [List.mem_singleton] at ha'
    exact hk (ha' ▸ ha)

theorem mapGet_of_mem {V : Type} {m : List (label.Symbol × V)}
    (hnd : (m.map Prod.fst).Nodup) {k : label.Symbol} {v : V} (h : (k, v) ∈ m) :
    mapGet m k = some v := by
  induction m with
  | nil => cases h
  | cons hd tl ih =>
    obtain ⟨k', v'⟩ := hd
    rw [List.map_cons, List.nodup_cons] at hnd
    unfold mapGet
    rcases List.mem_cons.mp h with he | he
    · cases he; simp
    · have hne : k' ≠ k := by
        intro e
        subst e
        exact hnd.1 (List.mem_map.mpr ⟨(k', v), he, rfl⟩)
      simp only [hne, if_false]
      exact ih hnd.2 he

theorem distinctKeys_walkStep (fn : ResolveFunc) (st : OuterItems × CallLog)
    (r : ExchangeRate) (h : DistinctKeys st.1) :
    DistinctKeys (BatchExchanges.walkStep fn st r).1 := by
  have key : ∀ (inner : InnerItems) (x : ExchangeRate), (inner.map Prod.fst).Nodup →
      DistinctKeys (mapSet st.1 r.from_.Symbol (mapSet inner r.to_.Symbol x)) := by
    intro inner x hinner
    refine ⟨nodup_keys_mapSet _ _ _ h.1, ?_⟩
    intro entry hentry
    rcases mem_mapSet hentry with he | he
    · subst he
      exact nodup_keys_mapSet _ _ _ hinner
    · exact h.2 entry he
  unfold BatchExchanges.walkStep
  dsimp only
  cases h1 : mapGet st.1 r.from_.Symbol with
  | none =>
    dsimp only
    exact key [] r List.nodup_nil
  | some extMap =>
    have hext := h.2 _ (mem_of_mapGet h1)
    dsimp only
    cases h2 : mapGet extMap r.to_.Symbol with
    | none =>
      dsimp only
      exact key extMap r hext
    | some curr =>
      dsimp only
      cases h3 : fn curr r with
      | error m => exact h
      | ok next =>
        dsimp only
        exact key extMap next hext

theorem distinctKeys_walk (fn : ResolveFunc) (rates : List ExchangeRate) :
    ∀ b : BatchExchanges, DistinctKeys b.made → DistinctKeys (b.walk rates fn).made := by
  have hfold : ∀ (rs : List ExchangeRate) (st : OuterItems × CallLog), DistinctKeys st.1 →
      DistinctKeys (rs.foldl (BatchExchanges.walkStep fn) st).1 := by
    intro rs
    induction rs with
    | nil => intro st h; exact h
    | cons r rs ih =>
      intro st h
      exact ih _ (distinctKeys_walkStep fn st r h)
  intro b hb
  exact hfold rates (b.made, []) hb

theorem distinctKeys_merge (e : exchanger) (b : BatchExchanges) (rates : List ExchangeRate)
    (hb : DistinctKeys b.made) : DistinctKeys (e.merge b rates).made := by
  unfold exchanger.merge mergerFor
  dsimp only
  split_ifs <;> exact distinctKeys_walk _ rates b hb

theorem distinctKeys_roundTable (e : exchanger) (ctx : Context) :
    DistinctKeys (e.roundTable ctx).made := by
  rw [roundTable_eq_foldl]
  have hfold : ∀ (bs : List (List ExchangeRate)) (b : BatchExchanges), DistinctKeys b.made →
      DistinctKeys (bs.foldl e.merge b).made := by
    intro bs
    induction bs with
    | nil => intro b h; exact h
    | cons rates bs ih =>
      intro b h
      exact ih _ (distinctKeys_merge e b rates h)
  exact hfold _ _ ⟨List.nodup_nil, fun entry hentry => by cases hentry⟩

theorem cell_iff_mem_flatten (b : BatchExchanges) (hw : WellKeyed b.made)
    (hd : DistinctKeys b.made) (f t : label.Symbol) (x : ExchangeRate) :
    b.cell f t = some x ↔ x ∈ b.flatten ∧ x.from_.Symbol = f ∧ x.to_.Symbol = t := by
  rw [← cell_made, cell_mk_some]
  unfold BatchExchanges.flatten
  constructor
  · intro h
    cases h1 : mapGet b.made f with
    | none => simp only [h1] at h; cases h
    | some extMap =>
      simp only [h1] at h
      have he := mem_of_mapGet h1
      have hk := mem_of_mapGet h
      have hs := (hw _ he).2 _ hk
      exact ⟨List.mem_flatMap.mpr ⟨_, he, List.mem_map.mpr ⟨_, hk, rfl⟩⟩, hs.1, hs.2⟩
  · rintro ⟨hx, hf, ht⟩
    obtain ⟨entry, hentry, hx'⟩ := List.mem_flatMap.mp hx
    obtain ⟨kv, hkv, rfl⟩ := List.mem_map.mp hx'
    have hs := (hw entry hentry).2 kv hkv
    have h1 : mapGet b.made f = some entry.2 :=
      mapGet_of_mem hd.1 (by rw [← hf, hs.1]; exact hentry)
    simp only [h1]
    exact mapGet_of_mem (hd.2 entry hentry) (by rw [← ht, hs.2]; exact hkv)

theorem nodup_pairs_inner (f : label.Symbol) (inner : InnerItems)
    (hin : ∀ kv ∈ inner, kv.2.from_.Symbol = f ∧ kv.2.to_.Symbol = kv.1)
    (hnd : (inner.map Prod.fst).Nodup) :
    ((inner.map fun kv => kv.2).map ExchangeRate.pair).Nodup := by
  apply List.Nodup.of_map Prod.snd
  have hmap : (((inner.map fun kv => kv.2).map ExchangeRate.pair).map Prod.snd)
      = inner.map Prod.fst := by
    rw [List.map_map, List.map_map]
    apply List.map_congr_left
    intro kv hkv
    exact (hin kv hkv).2
  rw [hmap]
  exact hnd

theorem nodup_pairs_items : ∀ items : OuterItems, WellKeyed items → DistinctKeys items →
    ((items.flatMap fun mpr => mpr.2.map fun kv => kv.2).map ExchangeRate.pair).Nodup := by
  intro items
  induction items with
  | nil => intro _ _; exact List.nodup_nil
  | cons entry rest ih =>
    intro hw hd
    have hw' : WellKeyed rest := fun en hen => hw en (List.mem_cons_of_mem _ hen)
    have hk := hd.1
    rw [List.map_cons, List.nodup_cons] at hk
    have hd' : DistinctKeys rest := ⟨hk.2, fun en hen => hd.2 en (List.mem_cons_of_mem _ hen)⟩
    rw [List.flatMap_cons, List.map_append, List.nodup_append]
    refine ⟨nodup_pairs_inner entry.1 entry.2 (hw entry (List.mem_cons_self _ _)).2
      (hd.2 entry (List.mem_cons_self _ _)), ih hw' hd', ?_⟩
    intro a ha ha'
    obtain ⟨x, hx, rfl⟩ := List.mem_map.mp ha
    obtain ⟨kv, hkv, rfl⟩ := List.mem_map.mp hx
    obtain ⟨y, hy, hxy⟩ := List.mem_map.mp ha'
    obtain ⟨en, hen, hy'⟩ := List.mem_flatMap.mp hy
    obtain ⟨kv', hkv', rfl⟩ := List.mem_map.mp hy'
    have h1 := ((hw entry (List.mem_cons_self _ _)).2 kv hkv).1
    have h2 := ((hw' en hen).2 kv' hkv').1
    have h3 : kv'.2.from_.Symbol = kv.2.from_.Symbol := congrArg Prod.fst hxy
    apply hk.1
    rw [← h1, ← h3, h2]
    exact List.mem_map_of_mem _ hen

/-- C23: the `Result` of a round, whatever the merge strategy of the engine, holds at most
one triple for each (from symbol, to symbol) pair: the pairs of its entries are distinct.
Its entries are the occupants of the occupied cells of the merge table: a cell holds `x`
exactly when `x` is an entry of `Result` about that cell, so an occupied cell has exactly
one entry. -/
theorem result_holds_one_triple_per_cell (e : exchanger) (ctx : Context) :
    ((e.getLatest ctx).Result.map ExchangeRate.pair).Nodup
      ∧ (∀ f t x, (e.roundTable ctx).cell f t = some x ↔
          x ∈ (e.getLatest ctx).Result ∧ x.from_.Symbol = f ∧ x.to_.Symbol = t)
      ∧ (∀ f t, ((e.roundTable ctx).cell f t).isSome →
          ((e.getLatest ctx).Result.filter fun x => decide (x.pair = (f, t))).length = 1) := by
  have hw := wellKeyed_roundTable e ctx
  have hd := distinctKeys_roundTable e ctx
  have hnd : ((e.getLatest ctx).Result.map ExchangeRate.pair).Nodup := by
    rw [getLatest_result]
    exact nodup_pairs_items _ hw hd
  have hiff : ∀ f t x, (e.roundTable ctx).cell f t = some x ↔
      x ∈ (e.getLatest ctx).Result ∧ x.from_.Symbol = f ∧ x.to_.Symbol = t := by
    intro f t x
    rw [getLatest_result]
    exact cell_iff_mem_flatten _ hw hd f t x
  refine ⟨hnd, hiff, ?_⟩
  intro f t hsome
  obtain ⟨x, hx⟩ := Option.isSome_iff_exists.mp hsome
  obtain ⟨hmem, hf, ht⟩ := (hiff f t x).mp hx
  apply length_filter_eq_one_of_nodup_map ExchangeRate.pair _ hnd
  exact List.mem_map.mpr ⟨x, hmem, by rw [ExchangeRate.pair, hf, ht]⟩

/-! ### No identity rate -/

theorem crossRates_offDiagonal (Currencies : label.Catalog) (hkey : Currencies.Keyed)
    (units : List (label.Symbol × ℚ)) (time : Time) (rates : List anchorRate) :
    OffDiagonal (crossRates Currencies units time rates) := by
  intro t ht
  obtain ⟨sym, _, sym1, _, hne, hc, hc1, _, _⟩ := mem_crossRates ht
  rw [hkey _ _ hc, hkey _ _ hc1]
  exact hne

theorem decodeDay_foldl_offDiagonal (Currencies : label.Catalog) (hkey : Currencies.Keyed)
    (days : List ecb.euroLatestRates) :
    ∀ st : List (label.Symbol × ℚ) × List provider.ExchangeRate, OffDiagonal st.2 →
      OffDiagonal (days.foldl (ecb.decodeDay Currencies) st).2 := by
  induction days with
  | nil => intro st h; exact h
  | cons d rest ih =>
    intro st h
    rw [List.foldl_cons]
    apply ih
    intro t ht
    simp only [ecb.decodeDay, List.mem_append] at ht
    rcases ht with ht | ht
    · exact h t ht
    · exact crossRates_offDiagonal Currencies hkey _ _ _ t ht

theorem retryLoop_ok_inv {α : Type} (done : Nat → Option String)
    (f : Nat → Except String α) (v : α) :
    ∀ (left attempt : Nat), retryLoop done f attempt left = .ok v → ∃ k, f k = .ok v := by
  intro left
  induction left with
  | zero =>
    intro attempt h
    unfold retryLoop at h
    cases hd : done attempt with
    | some msg => simp only [hd] at h; cases h
    | none => simp only [hd] at h; exact ⟨attempt, h⟩
  | succ n ih =>
    intro attempt h
    unfold retryLoop at h
    cases hd : done attempt with
    | some msg => simp only [hd] at h; cases h
    | none =>
      simp only [hd] at h
      cases hf : f attempt with
      | ok w =>
        simp only [hf] at h
        exact ⟨attempt, by rw [hf, h]⟩
      | error m =>
        simp only [hf] at h
        exact ih _ h

theorem fetchOne_ok_inv (e : exchanger) (done : Nat → Option String) (p : Provider)
    (expanded : List ExchangeRate) (h : e.fetchOne done p = .ok expanded) :
    ∃ k rates, p.Source.FetchLatest k = .ok rates ∧ expanded = e.expandRates p rates := by
  unfold exchanger.fetchOne at h
  obtain ⟨k, hk⟩ := retryLoop_ok_inv _ _ _ _ _ h
  cases hf : p.Source.FetchLatest k with
  | error m => simp [hf] at hk
  | ok rates =>
    simp only [hf, Except.ok.injEq] at hk
    exact ⟨k, rates, hf, hk.symm⟩

theorem mem_successes (e : exchanger) (ctx : Context) (batch : List ExchangeRate)
    (h : batch ∈ e.successes ctx) :
    ∃ p ∈ e.providers, ∃ done, e.fetchOne done p = .ok batch := by
  unfold exchanger.successes at h
  obtain ⟨i, _, hi⟩ := List.mem_filterMap.mp h
  unfold exchanger.taskRates at hi
  cases hp : e.providers.get? i with
  | none => simp only [hp] at hi; cases hi
  | some p =>
    simp only [hp] at hi
    refine ⟨p, List.get?_mem hp, ctx.done i, ?_⟩
    cases hf : e.fetchOne (ctx.done i) p with
    | error m => simp [hf, Except.toOption] at hi
    | ok b =>
      simp only [hf, Except.toOption, Option.some.injEq] at hi
      rw [hi]

/-- The merge table of a round seen from one cell: the triples of the merged batches that
are addressed to the cell act on it through `stepCell` under the resolver of the engine's
strategy. -/
theorem cell_roundTable (e : exchanger) (ctx : Context) :
    ∃ fn : ResolveFunc, ∀ f t,
      (e.roundTable ctx).cell f t =
        (hitsOf f t (e.successes ctx).flatten).foldl (stepCell fn) none := by
  rw [roundTable_eq_foldl]
  have hm : ∃ fn : ResolveFunc, e.merge = fun acc rates => acc.walk rates fn := by
    unfold exchanger.merge mergerFor
    dsimp only
    split_ifs
    · exact ⟨raceResolve, rfl⟩
    · exact ⟨averageResolve, rfl⟩
    · exact ⟨priorResolve, rfl⟩
    · exact ⟨raceResolve, rfl⟩
  obtain ⟨fn, hfn⟩ := hm
  refine ⟨fn, fun f t => ?_⟩
  rw [hfn]
  exact cell_foldl_walk fn f t (e.successes ctx) ⟨none⟩

/-- A round fed with triples off the diagonal only leaves no triple with from = to in its
`Result`. -/
theorem result_offDiagonal (e : exchanger) (ctx : Context) (hfed : e.FedOffDiagonal) :
    ∀ x ∈ (e.getLatest ctx).Result, x.from_.Symbol ≠ x.to_.Symbol := by
  intro x hx hdiag
  rw [getLatest_result] at hx
  have hcell := (cell_iff_mem_flatten _ (wellKeyed_roundTable e ctx)
    (distinctKeys_roundTable e ctx) x.from_.Symbol x.to_.Symbol x).mpr ⟨hx, rfl, rfl⟩
  obtain ⟨fn, hfn⟩ := cell_roundTable e ctx
  rw [hfn] at hcell
  cases hh : hitsOf x.from_.Symbol x.to_.Symbol (e.successes ctx).flatten with
  | nil => rw [hh] at hcell; cases hcell
  | cons r rest =>
    have hr : r ∈ hitsOf x.from_.Symbol x.to_.Symbol (e.successes ctx).flatten := by
      rw [hh]; exact List.mem_cons_self _ _
    simp only [hitsOf, List.mem_filter, decide_eq_true_eq] at hr
    obtain ⟨hmem, hrf, hrt⟩ := hr
    obtain ⟨batch, hbatch, hrb⟩ := List.mem_flatten.mp hmem
    obtain ⟨p, hp, done, hfetch⟩ := mem_successes e ctx batch hbatch
    obtain ⟨k, rates, hk, hexp⟩ := fetchOne_ok_inv e done p batch hfetch
    rw [hexp] at hrb
    obtain ⟨t, ht, rfl⟩ := List.mem_map.mp hrb
    apply hfed p hp k rates hk t ht
    show t.From.Symbol = t.To.Symbol
    have h1 : x.from_.Symbol = t.From.Symbol := hrf
    have h2 : x.to_.Symbol = t.To.Symbol := hrt
    rw [← h1, ← h2, hdiag]

theorem triangulate_offDiagonal (g : ℚ → ℚ) (anchor : label.Symbol)
    (Currencies : label.Catalog) (hkey : Currencies.Keyed) (feed : latestRates) :
    OffDiagonal (triangulate g anchor Currencies feed) :=
  crossRates_offDiagonal Currencies hkey _ _ _

theorem sample_caeEngine_fed : sample.caeEngine.FedOffDiagonal := by
  intro p hp k rates hk
  simp only [sample.caeEngine, List.mem_singleton] at hp
  subst hp
  have hk' : cae.decode sample.catalog (.ok sample.feed) = .ok rates := hk
  rw [cae_decode_eq] at hk'
  rw [← Except.ok.inj hk']
  exact triangulate_offDiagonal _ _ _ sample_catalog_keyed _

/-- C29: with a consistently keyed catalog the three `decode` functions emit no triple with
from = to.  A round of an engine whose providers return such triples only has no triple with
from = to in its `Result`; and when the fetched `Result` (of the engine's own round, or of a
supplied fetch function) has none, `Convert` with From = To = X, for X in the catalog and
exchangeable, returns `ErrConversionRate` with `Value` the requested amount and `Rate` and
`Amount` zero. -/
theorem convert_same_symbol_has_no_rate (Currencies : label.Catalog)
    (hkey : Currencies.Keyed) (e : exchanger) (ctx : Context) (X : label.Symbol) (value : ℚ)
    (fn : Option FetchFunc) (c : label.Currency)
    (hcat : Currencies X = some c) (hx : X ∈ e.verifyExchangeable.exchangeable)
    (hfed : e.FedOffDiagonal)
    (hfn : ∀ g, fn = some g → ∀ x ∈ (g ctx).Result, x.from_.Symbol ≠ x.to_.Symbol) :
    (∀ feed out, cae.decode Currencies (.ok feed) = .ok out → OffDiagonal out)
      ∧ (∀ feed out, rcb.decode Currencies (.ok feed) = .ok out → OffDiagonal out)
      ∧ (∀ days failure out, ecb.decode Currencies days failure = .ok out → OffDiagonal out)
      ∧ (∀ x ∈ (e.verifyExchangeable.getLatest ctx).Result, x.from_.Symbol ≠ x.to_.Symbol)
      ∧ (exchanger.Convert Currencies e ctx ⟨X, X, value, fn⟩).err = some ErrConversionRate
      ∧ (exchanger.Convert Currencies e ctx ⟨X, X, value, fn⟩).resp =
          { Date := 0, Value := value, From := c, To := c, Rate := 0, Amount := 0,
            Info := ((e.verifyExchangeable.fetchFuncOf ⟨X, X, value, fn⟩) ctx).Info } := by
  have hround : ∀ x ∈ (e.verifyExchangeable.getLatest ctx).Result,
      x.from_.Symbol ≠ x.to_.Symbol := by
    apply result_offDiagonal
    intro p hp
    rw [verifyExchangeable_providers] at hp
    exact hfed p hp
  have hres : ∀ x ∈ ((e.verifyExchangeable.fetchFuncOf ⟨X, X, value, fn⟩) ctx).Result,
      x.from_.Symbol ≠ x.to_.Symbol := by
    cases fn with
    | none => exact hround
    | some g => exact hfn g rfl
  have hfind : (((e.verifyExchangeable.fetchFuncOf ⟨X, X, value, fn⟩) ctx).Result.find?
      fun rate => decide (rate.from_.Symbol = X ∧ rate.to_.Symbol = X)) = none := by
    rw [List.find?_eq_none]
    intro r hr
    have := hres r hr
    simp only [decide_eq_true_eq, not_and]
    intro h1 h2
    exact this (h1.trans h2.symm)
  refine ⟨?_, ?_, ?_, hround, ?_⟩
  · intro feed out h
    rw [cae_decode_eq] at h
    rw [← Except.ok.inj h]
    exact triangulate_offDiagonal _ _ _ hkey _
  · intro feed out h
    rw [rcb_decode_eq] at h
    rw [← Except.ok.inj h]
    exact triangulate_offDiagonal _ _ _ hkey _
  · intro days failure out h
    unfold ecb.decode at h
    dsimp only at h
    cases failure with
    | some err => cases h
    | none =>
      rw [← Except.ok.inj h]
      exact decodeDay_foldl_offDiagonal Currencies hkey days _ (fun t ht => by cases ht)
  · rw [convert_after_checks Currencies e ctx ⟨X, X, value, fn⟩ c c hcat hcat hx hx, hfind]
    exact ⟨rfl, rfl⟩

/-- C29, exercised: the only provider of `sample.caeEngine` answers with the CAE table of
the feed "USD at 2" (USD→AED and AED→USD), and converting 10 USD to USD through the
engine's own round returns `ErrConversionRate` with the amount unconverted. -/
theorem convert_same_symbol_has_no_rate_witness :
    sample.catalog.Keyed
      ∧ sample.catalog "USD" = some sample.usd
      ∧ "USD" ∈ sample.caeEngine.verifyExchangeable.exchangeable
      ∧ sample.caeEngine.FedOffDiagonal
      ∧ (exchanger.Convert sample.catalog sample.caeEngine sample.ctx
          ⟨"USD", "USD", 10, none⟩).err = some ErrConversionRate
      ∧ (exchanger.Convert sample.catalog sample.caeEngine sample.ctx
          ⟨"USD", "USD", 10, none⟩).resp =
          { Date := 0, Value := 10, From := sample.usd, To := sample.usd, Rate := 0,
            Amount := 0,
            Info := ((sample.caeEngine.verifyExchangeable.fetchFuncOf
              ⟨"USD", "USD", 10, none⟩) sample.ctx).Info } := by
  have hx : "USD" ∈ sample.caeEngine.verifyExchangeable.exchangeable := by decide
  have h := convert_same_symbol_has_no_rate sample.catalog sample_catalog_keyed
    sample.caeEngine sample.ctx "USD" 10 none sample.usd rfl hx sample_caeEngine_fed
    (fun g hg => by cases hg)
  exact ⟨sample_catalog_keyed, rfl, hx, sample_caeEngine_fed, h.2.2.2.2.1, h.2.2.2.2.2⟩

/-! ### The RCB parser -/

/-- The first value that does not parse ends the loop with the wrapped parsing error. -/
theorem rangeRates_unparseable (ParseFloat : strconv.ParseFloat) (Currencies : label.Catalog)
    (r : rcb.XMLCcyRate) (after : List rcb.XMLCcyRate) (err : GoError)
    (hr : ParseFloat (commaToPoint r.Value) = .error err) :
    ∀ (before : List rcb.XMLCcyRate) (dailyRates : rcb.rubLatestRates),
      (∀ x ∈ before, ∃ v, ParseFloat (commaToPoint x.Value) = .ok v ∧ 0 < v) →
      (rcb.rangeRates ParseFloat Currencies dailyRates (before ++ r :: after)).2
        = some (.wrap err "strconv.ParseFloat") := by
  intro before
  induction before with
  | nil =>
    intro dailyRates _
    simp [rcb.rangeRates, hr]
  | cons x rest ih =>
    intro dailyRates hx
    obtain ⟨v, hv, hpos⟩ := hx x (List.mem_cons_self _ _)
    have hrest := fun d => ih d (fun y hy => hx y (List.mem_cons_of_mem _ hy))
    rw [List.cons_append]
    unfold rcb.rangeRates
    simp only [hv, not_le.mpr hpos, if_false]
    cases Currencies x.Currency with
    | none => exact hrest _
    | some c => exact hrest _

/-- The first value that is zero or negative ends the loop with `errAttributeNotValid`,
when every value before it parses. -/
theorem rangeRates_nonpositive (ParseFloat : strconv.ParseFloat) (Currencies : label.Catalog)
    (r : rcb.XMLCcyRate) (after : List rcb.XMLCcyRate) (v : ℚ)
    (hr : ParseFloat (commaToPoint r.Value) = .ok v) (hv : v ≤ 0) :
    ∀ (before : List rcb.XMLCcyRate) (dailyRates : rcb.rubLatestRates),
      (∀ x ∈ before, ∃ w, ParseFloat (commaToPoint x.Value) = .ok w) →
      (rcb.rangeRates ParseFloat Currencies dailyRates (before ++ r :: after)).2
        = some rcb.errAttributeNotValid := by
  intro before
  induction before with
  | nil =>
    intro dailyRates _
    simp [rcb.rangeRates, hr, hv]
  | cons x rest ih =>
    intro dailyRates hx
    obtain ⟨w, hw⟩ := hx x (List.mem_cons_self _ _)
    have hrest := fun d => ih d (fun y hy => hx y (List.mem_cons_of_mem _ hy))
    rw [List.cons_append]
    unfold rcb.rangeRates
    simp only [hw]
    by_cases hpos : w ≤ 0
    · simp only [hpos, if_true]
    · simp only [hpos, if_false]
      cases Currencies x.Currency with
      | none => exact hrest _
      | some c => exact hrest _

/-- Tokens that are not `ValCurs` start elements are passed over. -/
theorem tokenLoop_skip (ParseFloat : strconv.ParseFloat) (Currencies : label.Catalog)
    (rest : List rcb.Token) :
    ∀ (skipped : List rcb.Token) (dailyRates : rcb.rubLatestRates),
      (∀ tok ∈ skipped, tok = rcb.Token.other) →
      rcb.tokenLoop ParseFloat Currencies dailyRates (skipped ++ rest)
        = rcb.tokenLoop ParseFloat Currencies dailyRates rest := by
  intro skipped
  induction skipped with
  | nil => intro _ _; rfl
  | cons tok more ih =>
    intro dailyRates h
    have ht := h tok (List.mem_cons_self _ _)
    subst ht
    rw [List.cons_append, rcb.tokenLoop]
    exact ih dailyRates (fun y hy => h y (List.mem_cons_of_mem _ hy))

/-- A `ValCurs` element whose rates end in an error ends `decodeXML` with that error. -/
theorem tokenLoop_node_error (ParseFloat : strconv.ParseFloat) (Currencies : label.Catalog)
    (dailyRates : rcb.rubLatestRates) (currNode : rcb.XMLNode) (rest : List rcb.Token)
    (err : GoError)
    (h : (rcb.rangeRates ParseFloat Currencies ⟨currNode.Time, []⟩ currNode.Rates).2
      = some err) :
    (rcb.tokenLoop ParseFloat Currencies dailyRates (.valCurs (.node currNode) :: rest)).2
      = some err := by
  rw [rcb.tokenLoop]
  simp only [h]

/-- C25 (the code at the input of the test case `test_value_type_2`): the third value,
"hello world", does not parse, and `decodeXML` returns the parsing error of
`strconv.ParseFloat` wrapped by `fmt.Errorf("strconv.ParseFloat: %w", err)`, which is not
`errAttributeNotValid`, whatever the catalog. -/
theorem rcb_unparseable_value_is_not_attribute_error (Currencies : label.Catalog) :
    (rcb.decodeXML sample.parseFloat Currencies [.valCurs (.node sample.valueType2)]).2
        = some (.wrap (.wrap strconv.ErrSyntax "hello world") "strconv.ParseFloat")
      ∧ (GoError.wrap (.wrap strconv.ErrSyntax "hello world") "strconv.ParseFloat").Is
          rcb.errAttributeNotValid = false := by
  refine ⟨?_, by decide⟩
  apply tokenLoop_node_error
  have h := rangeRates_unparseable sample.parseFloat Currencies ⟨"JPY", "hello world"⟩ []
    (.wrap strconv.ErrSyntax "hello world") rfl
    [⟨"USD", "54,1609"⟩, ⟨"EUR", "43,0785"⟩] ⟨20210830, []⟩
    (by
      intro x hx
      simp only [List.mem_cons, List.mem_singleton, List.not_mem_nil, or_false] at hx
      rcases hx with hx | hx
      · exact ⟨541609 / 10000, by subst hx; rfl, by norm_num⟩
      · exact ⟨430785 / 10000, by subst hx; rfl, by norm_num⟩)
  exact h

/-! ### The CAE parser -/

/-- C30: `parseHTML` tests no sign: a page with a well-formed date and one table row, a known
currency name and a rate text that parses to `rate`, is accepted with that rate whatever
its value, zero included; `decode` then stores `1 / rate` as the units of the symbol and
returns a table, no test preceding the division. -/
theorem parseHTML_accepts_any_rate (ParseFloat : strconv.ParseFloat) (ParseTime : time.Parse)
    (Currencies : label.Catalog) (date name rateStr : String) (symbol : label.Symbol)
    (dt : Time) (rate : ℚ)
    (hdate : ¬ (date = "" ∨ date.utf8ByteSize < 4))
    (htime : ParseTime (date.extract ⟨4⟩ date.endPos) = .ok dt)
    (hname : name ≠ "") (hsym : label.Names name = some symbol)
    (hrate : ParseFloat rateStr = .ok rate) :
    cae.parseHTML ParseFloat ParseTime (.ok ⟨date, [name, rateStr]⟩)
        = (⟨dt, [⟨symbol, rate⟩]⟩, none)
      ∧ unitsAt (cae.units ⟨dt, [⟨symbol, rate⟩]⟩) symbol = 1 / rate
      ∧ (rate = 0 → unitsAt (cae.units ⟨dt, [⟨symbol, rate⟩]⟩) symbol = 1 / 0)
      ∧ cae.decode Currencies
          (returned (cae.parseHTML ParseFloat ParseTime (.ok ⟨date, [name, rateStr]⟩)))
        = .ok (triangulate (fun x => 1 / x) label.AED Currencies ⟨dt, [⟨symbol, rate⟩]⟩) := by
  have hparse : cae.parseHTML ParseFloat ParseTime (.ok ⟨date, [name, rateStr]⟩)
      = (⟨dt, [⟨symbol, rate⟩]⟩, none) := by
    simp only [cae.parseHTML, hdate, if_false, htime, cae.rateLoop, hname, hsym, hrate,
      List.nil_append]
  have hunits : unitsAt (cae.units ⟨dt, [⟨symbol, rate⟩]⟩) symbol = 1 / rate := by
    simp only [cae.units, List.foldl_cons, List.foldl_nil, unitsAt, mapGet_mapSet_same,
      Option.getD_some]
  refine ⟨hparse, hunits, ?_, ?_⟩
  · intro h0
    rw [hunits, h0]
  · rw [hparse]
    exact cae_decode_eq Currencies _

set_option maxRecDepth 100000 in
theorem names_usDollar : label.Names "US Dollar" = some "USD" := by decide

/-- C30, exercised on the page `sample.zeroPage`: US Dollar at "0" is accepted with rate 0,
and `decode` stores `1 / 0` as the units of USD. -/
theorem parseHTML_accepts_any_rate_witness :
    cae.parseHTML sample.parseFloat sample.parseTime (.ok sample.zeroPage)
        = (⟨20210812, [⟨"USD", 0⟩]⟩, none)
      ∧ unitsAt (cae.units ⟨20210812, [⟨"USD", 0⟩]⟩) "USD" = 1 / 0 := by
  have h := parseHTML_accepts_any_rate sample.parseFloat sample.parseTime sample.catalog
    "Date12-08-2021" "US Dollar" "0" "USD" 20210812 0 (by decide) rfl (by decide)
    names_usDollar rfl
  exact ⟨h.1, h.2.2.1 rfl⟩

/-! ### Symbols that are not in the catalog -/

set_option maxRecDepth 100000 in
theorem parseHTML_pageUnknown :
    cae.parseHTML sample.parseFloat sample.parseTime (.ok sample.pageUnknown)
      = (⟨20210812, [⟨"USD", 12 / 10⟩]⟩, none) := by
  have h1 : label.Names "Tether" = none := by decide
  have hd : ¬ (sample.pageUnknown.date = "" ∨ sample.pageUnknown.date.utf8ByteSize < 4) := by
    decide
  have ht : sample.parseTime (sample.pageUnknown.date.extract ⟨4⟩ sample.pageUnknown.date.endPos)
      = .ok 20210812 := rfl
  have hf : sample.parseFloat "1.2" = .ok (12 / 10) := rfl
  have hn1 : ("Tether" : String) ≠ "" := by decide
  have hn2 : ("US Dollar" : String) ≠ "" := by decide
  simp only [cae.parseHTML, hd, if_false, ht]
  simp only [sample.pageUnknown, cae.rateLoop, hn1, hn2, if_false, h1, names_usDollar, hf,
    List.nil_append]

theorem decodeCSV_csvUnknown :
    ecb.decodeCSV sample.parseFloat sample.parseTime sample.catalog sample.csvUnknown
        (some fun _ => none)
      = ([⟨20210618, [⟨"USD", 12 / 10⟩]⟩], none) := by
  with_unfolding_all rfl

/-- C22 (the code at the failing input): the RCB `decodeXML` passes over the unknown symbol
USDT when its value is a positive number, as in the test case `test_unknown_symbol`; but
with the value "0" it returns `errAttributeNotValid`, and with the value "hello world" the
parsing error, so the cycle fails and `decode` produces no triple for USD.  The ECB CSV
decoder and the CAE `parseHTML` pass over an unknown symbol without reading its rate. -/
theorem rcb_unknown_symbol_fails_cycle :
    rcb.decodeXML sample.parseFloat sample.catalog
        [.valCurs (.node ⟨19960730, [⟨"USDT", "54,1609"⟩]⟩)] = (⟨19960730, []⟩, none)
      ∧ rcb.decodeXML sample.parseFloat sample.catalog [.valCurs (.node sample.unknownZero)]
          = (⟨19960730, [⟨"USD", 541609 / 10000⟩]⟩, some rcb.errAttributeNotValid)
      ∧ rcb.decode sample.catalog (returned (rcb.decodeXML sample.parseFloat sample.catalog
          [.valCurs (.node sample.unknownZero)])) = .error "decode xml: attr is not valid"
      ∧ (rcb.decodeXML sample.parseFloat sample.catalog
          [.valCurs (.node sample.unknownText)]).2
          = some (.wrap (.wrap strconv.ErrSyntax "hello world") "strconv.ParseFloat")
      ∧ ecb.decodeCSV sample.parseFloat sample.parseTime sample.catalog sample.csvUnknown
          (some fun _ => none) = ([⟨20210618, [⟨"USD", 12 / 10⟩]⟩], none)
      ∧ cae.parseHTML sample.parseFloat sample.parseTime (.ok sample.pageUnknown)
          = (⟨20210812, [⟨"USD", 12 / 10⟩]⟩, none) := by
  refine ⟨?_, ?_, ?_, ?_, decodeCSV_csvUnknown, parseHTML_pageUnknown⟩
  · with_unfolding_all rfl
  · with_unfolding_all rfl
  · with_unfolding_all rfl
  · with_unfolding_all rfl

/-! ### Rates that are zero or negative -/

theorem attr_wrap_is (detail : String) :
    (GoError.wrap ecb.errAttributeNotValid detail).Is ecb.errAttributeNotValid = true := by
  simp [GoError.Is, ecb.errAttributeNotValid]

/-- Every error of the body of the row loop is `errAttributeNotValid`, wrapped or not, when
the cell stands under an entry of the header. -/
theorem rowStep_error_is (ParseFloat : strconv.ParseFloat) (ParseTime : time.Parse)
    (Currencies : label.Catalog) (header : List String) (dailyRate : ecb.euroLatestRates)
    (n : Nat) (column : String) (err : GoError)
    (hfit : strings.Trim column " \t" ≠ "" → n < header.length)
    (h : ecb.rowStep ParseFloat ParseTime Currencies header dailyRate n column = .error err) :
    err.Is ecb.errAttributeNotValid = true := by
  unfold ecb.rowStep at h
  dsimp only at h
  by_cases htok : strings.Trim column " \t" = ""
  · rw [if_pos htok] at h; cases h
  · rw [if_neg htok] at h
    obtain ⟨name, hname⟩ : ∃ name, header.get? n = some name :=
      ⟨_, List.get?_eq_get (hfit htok)⟩
    rw [hname] at h
    dsimp only at h
    by_cases h0 : n = 0 ∧ name ≠ "Date"
    · rw [if_pos h0] at h
      cases h
      exact attr_wrap_is _
    · rw [if_neg h0] at h
      by_cases hD : name = "Date"
      · rw [if_pos hD] at h
        cases hp : ParseTime (strings.Trim column " \t") with
        | error e => rw [hp] at h; cases h; exact attr_wrap_is _
        | ok t => rw [hp] at h; cases h
      · rw [if_neg hD] at h
        cases hc : Currencies name with
        | none => rw [hc] at h; cases h
        | some c =>
          rw [hc] at h
          dsimp only at h
          cases hp : ParseFloat (strings.Trim column " \t") with
          | error e => rw [hp] at h; cases h; exact attr_wrap_is _
          | ok r =>
            rw [hp] at h
            dsimp only at h
            by_cases hr : r ≤ 0
            · rw [if_pos hr] at h; cases h; decide
            · rw [if_neg hr] at h; cases h

theorem rangeColumns_row_error_is (ParseFloat : strconv.ParseFloat) (ParseTime : time.Parse)
    (Currencies : label.Catalog) (header : List String) :
    ∀ (line : List String) (n : Nat) (st : ecb.euroLatestRates) (err : GoError),
      (∀ k column, line.get? k = some column → strings.Trim column " \t" ≠ "" →
        n + k < header.length) →
      rangeColumns (ecb.rowStep ParseFloat ParseTime Currencies header) n line st = .error err →
      err.Is ecb.errAttributeNotValid = true := by
  intro line
  induction line with
  | nil => intro n st err _ h; cases h
  | cons column rest ih =>
    intro n st err hfit h
    unfold rangeColumns at h
    cases hb : ecb.rowStep ParseFloat ParseTime Currencies header st n column with
    | error e =>
      rw [hb] at h
      cases h
      exact rowStep_error_is _ _ _ _ _ _ _ _ (fun ht => hfit 0 column rfl ht) hb
    | ok st1 =>
      rw [hb] at h
      refine ih (n + 1) st1 err ?_ h
      intro k col hk ht
      have := hfit (k + 1) col hk ht
      omega

/-- A line with a zero or negative rate of a catalog currency ends the row loop with an
error. -/
theorem rangeColumns_row_offending (ParseFloat : strconv.ParseFloat) (ParseTime : time.Parse)
    (Currencies : label.Catalog) (header : List String) (name : String) (c : label.Currency)
    (r : ℚ) (column : String) (htok : strings.Trim column " \t" ≠ "")
    (hD : name ≠ "Date") (hc : Currencies name = some c)
    (hp : ParseFloat (strings.Trim column " \t") = .ok r) (hr : r ≤ 0) :
    ∀ (line : List String) (n k : Nat) (st : ecb.euroLatestRates),
      line.get? k = some column → header.get? (n + k) = some name →
      ∃ err, rangeColumns (ecb.rowStep ParseFloat ParseTime Currencies header) n line st
        = .error err := by
  intro line
  induction line with
  | nil => intro n k st hk _; cases hk
  | cons col rest ih =>
    intro n k st hk hname
    unfold rangeColumns
    cases k with
    | zero =>
      have hcol : col = column := by simpa using hk
      subst hcol
      have hstep : ∃ e, ecb.rowStep ParseFloat ParseTime Currencies header st n col
          = .error e := by
        unfold ecb.rowStep
        dsimp only
        rw [if_neg htok, show header.get? n = some name from hname]
        dsimp only
        by_cases h0 : n = 0 ∧ name ≠ "Date"
        · rw [if_pos h0]; exact ⟨_, rfl⟩
        · rw [if_neg h0, if_neg hD, hc]
          dsimp only
          rw [hp]
          dsimp only
          rw [if_pos hr]
          exact ⟨_, rfl⟩
      obtain ⟨e, he⟩ := hstep
      rw [he]
      exact ⟨e, rfl⟩
    | succ k1 =>
      cases hb : ecb.rowStep ParseFloat ParseTime Currencies header st n col with
      | error e => exact ⟨e, rfl⟩
      | ok st1 =>
        dsimp only
        refine ih (n + 1) k1 st1 (by simpa using hk) ?_
        rw [← hname]
        congr 1
        omega

theorem csvLoop_offending (ParseFloat : strconv.ParseFloat) (ParseTime : time.Parse)
    (Currencies : label.Catalog) (iterFunc : ecb.euroLatestRates → Option GoError)
    (hiter : ∀ d, iterFunc d = none) (header row : List String) (after : List csv.Read)
    (idx n : Nat) (hfitrow : ecb.Fits header row)
    (hbad : ecb.NonPositiveAt ParseFloat Currencies header row n) :
    ∀ (before : List (List String)) (calls : List ecb.euroLatestRates),
      (∀ line ∈ before, ecb.Fits header line) →
      ∃ err, (ecb.csvLoop ParseFloat ParseTime Currencies iterFunc (idx + 1) header calls
          (before.map csv.Read.line ++ .line row :: after)).2 = some err
        ∧ err.Is ecb.errAttributeNotValid = true := by
  intro before
  induction before with
  | nil =>
    intro calls _
    obtain ⟨column, name, c, r, hk, htok, hname, hD, hc, hp, hr⟩ := hbad
    obtain ⟨e, he⟩ := rangeColumns_row_offending ParseFloat ParseTime Currencies header name c
      r column htok hD hc hp hr row 0 n ⟨0, []⟩ hk (by rw [Nat.zero_add]; exact hname)
    have his := rangeColumns_row_error_is ParseFloat ParseTime Currencies header row 0 _ e
      (fun k col hk1 ht => by rw [Nat.zero_add]; exact hfitrow k col hk1 ht) he
    rw [List.map_nil, List.nil_append, ecb.csvLoop, he]
    exact ⟨e, rfl, his⟩
  | cons l more ih =>
    intro calls hfit
    rw [List.map_cons, List.cons_append, ecb.csvLoop]
    cases hl : rangeColumns (ecb.rowStep ParseFloat ParseTime Currencies header) 0 l
        ⟨0, []⟩ with
    | error e =>
      have his := rangeColumns_row_error_is ParseFloat ParseTime Currencies header l 0 _ e
        (fun k col hk1 ht => by
          rw [Nat.zero_add]; exact hfit l (List.mem_cons_self _ _) k col hk1 ht) hl
      exact ⟨e, rfl, his⟩
    | ok d =>
      dsimp only
      rw [hiter d]
      exact ih (calls ++ [d]) (fun line hline => hfit line (List.mem_cons_of_mem _ hline))

/-- C26, as stated, fails: in the feed `sample.csvBroken` the third line carries USD, a
catalog currency, at "0", but the CSV reader rejects the second line, and `decodeCSV`
returns `errDecodeToken` wrapped with the reader's message, which is not
`errAttributeNotValid`. -/
theorem nonpositive_rate_behind_broken_line :
    ecb.NonPositiveAt sample.parseFloat sample.catalog ["Date", "USD"]
        ["19 June 2021", " 0", ""] 1
      ∧ ecb.decodeCSV sample.parseFloat sample.parseTime sample.catalog sample.csvBroken
          (some fun _ => none)
          = ([], some (.wrap ecb.errDecodeToken "parse error on line 2, column 15"))
      ∧ (GoError.wrap ecb.errDecodeToken "parse error on line 2, column 15").Is
          ecb.errAttributeNotValid = false := by
  refine ⟨⟨" 0", "USD", sample.usd, 0, rfl, by decide, rfl, by decide, rfl, rfl, le_refl 0⟩,
    ?_, by decide⟩
  with_unfolding_all rfl

/-- C26, amended.  ECB CSV: when the reader delivers the header line and the data lines up
to `row` without error, the header is accepted, every non-empty cell of these lines stands
under a header entry, the callback returns no error, and `row` carries a zero or negative
rate of a catalog currency, `decodeCSV` returns an error that is `errAttributeNotValid`
(wrapped or not).  RCB: when the tokens before a `ValCurs` element are passed over, the
element decodes, and the value of one of its catalog currencies is zero or negative while
every value before it parses, `decodeXML` returns `errAttributeNotValid`. -/
theorem nonpositive_rate_is_attribute_error (ParseFloat : strconv.ParseFloat)
    (ParseTime : time.Parse) (Currencies : label.Catalog)
    (iterFunc : ecb.euroLatestRates → Option GoError) (hiter : ∀ d, iterFunc d = none)
    (first header : List String)
    (hheader : rangeColumns ecb.headerStep 0 first [] = .ok header)
    (before : List (List String)) (row : List String) (after : List csv.Read) (n : Nat)
    (hfit : ∀ line ∈ before ++ [row], ecb.Fits header line)
    (hbad : ecb.NonPositiveAt ParseFloat Currencies header row n)
    (skipped : List rcb.Token) (currNode : rcb.XMLNode) (rest : List rcb.Token)
    (hskipped : ∀ tok ∈ skipped, tok = rcb.Token.other)
    (pre post : List rcb.XMLCcyRate) (entry : rcb.XMLCcyRate)
    (hrates : currNode.Rates = pre ++ entry :: post)
    (hpre : ∀ x ∈ pre, ∃ w, ParseFloat (commaToPoint x.Value) = .ok w)
    (hentry : rcb.NonPositive ParseFloat Currencies entry) :
    (∃ err, (ecb.decodeCSV ParseFloat ParseTime Currencies
          (.line first :: (before.map csv.Read.line ++ .line row :: after))
          (some iterFunc)).2 = some err
        ∧ err.Is ecb.errAttributeNotValid = true)
      ∧ (rcb.decodeXML ParseFloat Currencies (skipped ++ .valCurs (.node currNode) :: rest)).2
          = some rcb.errAttributeNotValid := by
  constructor
  · unfold ecb.decodeCSV
    dsimp only
    rw [ecb.csvLoop, hheader]
    exact csvLoop_offending ParseFloat ParseTime Currencies iterFunc hiter header row after 0 n
      (hfit row (by simp)) hbad before []
      (fun line hline => hfit line (List.mem_append_left _ hline))
  · unfold rcb.decodeXML
    rw [tokenLoop_skip ParseFloat Currencies _ skipped _ hskipped]
    obtain ⟨_, v, _, hvalue, hv⟩ := hentry
    apply tokenLoop_node_error
    rw [hrates]
    exact rangeRates_nonpositive ParseFloat Currencies entry post v hvalue hv pre _ hpre

/-- C26, exercised: the CSV feed "Date, USD, GBP," / "18 June 2021, 0, 1.2," and the
`ValCurs` element `sample.invalidRate0`, with GBP at "0", both end in
`errAttributeNotValid`. -/
theorem nonpositive_rate_is_attribute_error_witness :
    (∃ err, (ecb.decodeCSV sample.parseFloat sample.parseTime sample.catalog
          [.line ["Date", " USD", " GBP", ""], .line ["18 June 2021", " 0", " 1.2", ""]]
          (some fun _ => none)).2 = some err
        ∧ err.Is ecb.errAttributeNotValid = true)
      ∧ ecb.decodeCSV sample.parseFloat sample.parseTime sample.catalog
          [.line ["Date", " USD", " GBP", ""], .line ["18 June 2021", " 0", " 1.2", ""]]
          (some fun _ => none) = ([], some ecb.errAttributeNotValid)
      ∧ (rcb.decodeXML sample.parseFloat sample.catalog
          [.other, .valCurs (.node sample.invalidRate0)]).2
          = some rcb.errAttributeNotValid := by
  have h := nonpositive_rate_is_attribute_error sample.parseFloat sample.parseTime
    sample.catalog (fun _ => none) (fun _ => rfl)
    ["Date", " USD", " GBP", ""] ["Date", "USD", "GBP"] rfl
    [] ["18 June 2021", " 0", " 1.2", ""] [] 1
    (by
      intro line hline
      simp only [List.nil_append, List.mem_singleton] at hline
      subst hline
      intro k column hk htok
      match k, hk with
      | 0, _ => decide
      | 1, _ => decide
      | 2, _ => decide
      | 3, hk =>
        have hcol : column = "" := by simpa using hk.symm
        subst hcol
        exact absurd (by decide) htok
      | k + 4, hk => simp at hk)
    ⟨" 0", "USD", sample.usd, 0, rfl, by decide, rfl, by decide, rfl, rfl, le_refl 0⟩
    [.other] sample.invalidRate0 []
    (by intro tok htok; simpa using htok)
    [⟨"USD", "54,1609"⟩, ⟨"EUR", "43,0785"⟩] [] ⟨"GBP", "0"⟩ rfl
    (by
      intro x hx
      simp only [List.mem_cons, List.mem_singleton, List.not_mem_nil, or_false] at hx
      rcases hx with hx | hx
      · exact ⟨541609 / 10000, by subst hx; rfl⟩
      · exact ⟨430785 / 10000, by subst hx; rfl⟩)
    ⟨sample.gbp, 0, rfl, rfl, le_refl 0⟩
  refine ⟨h.1, ?_, h.2⟩
  with_unfolding_all rfl

end gokuu
